import Mathlib

/-!
# 4chan Thread Muncher: a verification development of `background.js`

The service worker keeps a registry of watched threads, a ledger of downloaded
image paths, a table of active downloads and a table of per-file locks.  This
file embeds those stores and the functions that act on them as Lean
definitions and states the properties of the design document as theorems.

Conventions of the embedding.

* A JavaScript `Map` is an insertion-ordered association list with pairwise
  distinct keys; a JavaScript `Set` is an insertion-ordered list.
* Strings are Lean strings; the operations the source performs on them
  (`split`, `replace`, regular expressions, template literals) are defined on
  their character lists.
* Thread ids, counts and timestamps are integers.  On integers `x || 0` is the
  identity, so those defaulting assignments do not appear.
* An `async` function is embedded as the run of one task with no other task
  interleaved at its `await`s.  What the host answers (a transfer completing or
  being interrupted, a fetch failing, the clock) is an explicit argument.  A call
  that is not awaited contributes what it does before it first suspends.  Two
  places are also embedded with other tasks running at an `await`: the lock of
  `downloadImage`, as a step function over interleaved calls, and the re-check of
  the timer check, whose stores can be made in the state that commands left while
  its fetch was awaited (`recheckStores`, `timerCheckThreadDuring`).
* A thread object is an element of the registry list.  The object that
  `watchedThreads.find(t => t.id === id)` returns is the first element with that
  id, and an update of it is an update of that element.
* Persisting to `chrome.storage`, logging and UI refreshes do not change the
  stores and are left out.
-/

namespace Muncher

/-! ## Constants (lines 18-26) -/

/-- The base delay between retries, in milliseconds. -/
def RATE_LIMIT_MS : Nat := 1500

/-- The number of threads that may be processed at the same time. -/
def MAX_CONCURRENT_THREADS : Nat := 5

/-- The age, in milliseconds, at which a stuck timer expires (5 minutes). -/
def STUCK_TIMER : Int := 5 * 60 * 1000

/-- The limit of the size of the ledger. -/
def MAX_DOWNLOADED_IMAGES : Nat := 18000

/-- The number of attempts of a fetch and of a download. -/
def MAX_RETRIES : Nat := 3

/-! ## JavaScript `Map` and `Set` -/

namespace JSMap

variable {κ α : Type} [DecidableEq κ]

/-- The keys in insertion order. -/
def keys (m : List (κ × α)) : List κ := m.map Prod.fst

/-- The method `Map.prototype.has`. -/
def has (m : List (κ × α)) (k : κ) : Bool := decide (k ∈ keys m)

/-- The method `Map.prototype.get`; `none` stands for `undefined`. -/
def get? (m : List (κ × α)) (k : κ) : Option α :=
  (m.find? (fun e => decide (e.1 = k))).map Prod.snd

/-- The method `Map.prototype.set`: an existing key keeps its position, a new key goes
last. -/
def set (m : List (κ × α)) (k : κ) (v : α) : List (κ × α) :=
  if k ∈ keys m then m.map (fun e => if e.1 = k then (k, v) else e) else m ++ [(k, v)]

/-- The method `Map.prototype.delete`. -/
def delete (m : List (κ × α)) (k : κ) : List (κ × α) :=
  m.filter (fun e => decide (e.1 ≠ k))

/-- The property `Map.prototype.size`. -/
def size (m : List (κ × α)) : Nat := m.length

end JSMap

namespace JSSet

/-- The method `Set.prototype.add`. -/
def add (s : List String) (x : String) : List String :=
  if x ∈ s then s else s ++ [x]

end JSSet

/-! ## Strings -/

/-- The call `cs.split(sep)` for a one-character separator, on character lists. -/
def splitOnChar (sep : Char) : List Char → List (List Char)
  | [] => [[]]
  | c :: cs =>
    match splitOnChar sep cs with
    | [] => [[]]
    | seg :: rest => if c = sep then [] :: seg :: rest else (c :: seg) :: rest

/-- The expression `s.split('/').pop()`: the text after the last slash. -/
def lastSegment (s : String) : String :=
  String.mk ((splitOnChar '/' s.data).getLastD [])

/-- The decimal digit `d` as a character. -/
def digitChar (d : Nat) : Char := Char.ofNat (48 + d)

/-- Decimal digits of a natural number, most significant first (`fuel` bounds the
number of digits). -/
def natToDigits : Nat → Nat → List Char
  | 0, _ => []
  | fuel + 1, n =>
    if n < 10 then [digitChar n] else natToDigits fuel (n / 10) ++ [digitChar (n % 10)]

/-- What a template literal prints for an integer-valued number. -/
def numChars (i : Int) : List Char :=
  if i < 0 then '-' :: natToDigits (i.natAbs + 1) i.natAbs else natToDigits (i.natAbs + 1) i.natAbs

/-- What a template literal prints for an integer-valued number, as a string. -/
def numStr (i : Int) : String := String.mk (numChars i)

/-- The call `k.endsWith(suffix)`. -/
def endsWith (k : String) (suffix : String) : Bool := suffix.data.isSuffixOf k.data

/-- The character class `[a-zA-Z0-9_.-]`. -/
def isSafeChar (c : Char) : Bool :=
  c.isAlphanum || c == '_' || c == '.' || c == '-'

/-- One step of `replace(/[^a-zA-Z0-9_.-]/g, "_")`.  The regular expression has no
`u` flag, so it runs over UTF-16 code units and a character outside the basic
plane (two code units) becomes two underscores. -/
def sanitizeChar (c : Char) : List Char :=
  if isSafeChar c then [c] else if 65536 ≤ c.toNat then ['_', '_'] else ['_']

/-- The function `s.replace(/[^a-zA-Z0-9_.-]/g, "_")`. -/
def sanitize (s : String) : String := String.mk (s.data.flatMap sanitizeChar)

/-- The function `s.replace(/^\/+|\/+$/g, '')`: leading and trailing slashes removed. -/
def stripSlashes (s : String) : String :=
  String.mk (((s.data.dropWhile (fun c => c == '/')).reverse.dropWhile (fun c => c == '/')).reverse)

/-! ## Data model (lines 4-16) -/

/-- A watched thread, an element of `watchedThreads`. -/
structure Thread where
  id : Int
  url : String := ""
  title : String := ""
  board : String := ""
  time : Int := 0
  active : Bool := false
  closed : Bool := false
  error : Bool := false
  totalImages : Int := 0
  downloadedCount : Int := 0
  skippedImages : List String := []
  deriving DecidableEq

/-- A value of the `downloadedImages` map. -/
structure LedgerEntry where
  timestamp : Int
  threadId : Int
  deriving DecidableEq

/-- A value of the `activeDownloads` map: `true` for a processing marker, otherwise
the id of a download. -/
inductive ActiveValue where
  | marker : ActiveValue
  | download : Nat → ActiveValue
  deriving DecidableEq

/-- The record `lastSearchParams`. -/
structure SearchParams where
  board : String := ""
  searchTerm : String := ""
  downloadPath : String := "4chan_downloads"
  deriving DecidableEq

/-- The global variables of the service worker. -/
structure State where
  isRunning : Bool := false
  watchedThreads : List Thread := []
  downloadedImages : List (String × LedgerEntry) := []
  activeDownloads : List (String × ActiveValue) := []
  downloadLocks : List (String × Unit) := []
  lastSearchParams : SearchParams := {}
  threadProgressTimers : List (Int × Int) := []
  isInitialized : Bool := false
  deriving DecidableEq

/-- The call `watchedThreads.find(t => t.id === threadId)`. -/
def findThread (ws : List Thread) (threadId : Int) : Option Thread :=
  ws.find? (fun t => decide (t.id = threadId))

/-- An in-place update of the object that `watchedThreads.find(t => t.id === threadId)`
returns: the first thread with that id. -/
def modifyThread (threadId : Int) (f : Thread → Thread) : List Thread → List Thread
  | [] => []
  | t :: ts => if t.id = threadId then f t :: ts else t :: modifyThread threadId f ts

/-! ## `getFullPath` (lines 88-94) -/

/-- Line 89: `sanitizedUsername`; `username` is `none` when the post has no name. -/
def sanitizedUsername (username : Option String) : String :=
  match username with
  | none => "Anonymous"
  | some u => if u = "" then "Anonymous" else sanitize u

/-- Line 90: `sanitizedFilename`. -/
def sanitizedFilename (filename : String) : String :=
  if filename = "" then "unknown_file" else sanitize filename

/-- The function `getFullPath`. -/
def getFullPath (lsp : SearchParams) (threadId : Int) (username : Option String)
    (filename : String) : String :=
  let cleanDownloadPath := stripSlashes lsp.downloadPath
  cleanDownloadPath ++ "/" ++ numStr threadId ++ "/" ++ sanitizedUsername username ++ "/" ++
    sanitizedFilename filename

/-! ## `deduplicateWatchedThreads` and `updateWatchedThreads` (lines 364-411) -/

/-- The loop of `deduplicateWatchedThreads`, with its two accumulators. -/
def dedupLoop : List Thread → List Int → List Thread → List Thread
  | [], _, uniqueThreads => uniqueThreads
  | thread :: rest, seenIds, uniqueThreads =>
    if thread.id ∈ seenIds then dedupLoop rest seenIds uniqueThreads
    else dedupLoop rest (seenIds ++ [thread.id]) (uniqueThreads ++ [thread])

/-- The function `deduplicateWatchedThreads`: the new registry and the returned flag. -/
def deduplicateWatchedThreads (ws : List Thread) : List Thread × Bool :=
  let uniqueThreads := dedupLoop ws [] []
  if uniqueThreads.length ≠ ws.length then (uniqueThreads, true) else (ws, false)

/-- The body of the `forEach` in `updateWatchedThreads`. -/
def recount (t : Thread) : Thread :=
  let newCount := min (t.skippedImages.length : Int) t.totalImages
  if t.downloadedCount ≠ newCount then { t with downloadedCount := newCount } else t

/-- The function `updateWatchedThreads`. -/
def updateWatchedThreads (s : State) : State :=
  { s with watchedThreads := (deduplicateWatchedThreads s.watchedThreads).1.map recount }

/-! ## `downloadImage` (lines 96-252) -/

/-- How the host ends one transfer attempt: `chrome.downloads.download` fails to
start it, or the transfer completes, is interrupted, or is still pending after
`DOWNLOAD_TIMEOUT_MS`. -/
inductive Outcome where
  | initFailed : Outcome
  | complete : Outcome
  | interrupted : Outcome
  | timedOut : Outcome
  deriving DecidableEq

/-- What the host answers to one transfer attempt: how it ends, the download id it
hands out, and the value of `Date.now()` when it completes. -/
structure Attempt where
  outcome : Outcome
  downloadId : Nat := 1
  now : Int := 0

/-- The result of a call of `downloadImage`: the stores afterwards, the returned
record, and the number of calls of `chrome.downloads.download` it made. -/
structure DownloadResult where
  state : State
  success : Bool
  downloaded : Bool
  transfers : Nat

/-- Lines 210-214: when the ledger is over its limit, the first entry of the entries
sorted by timestamp is deleted (the sort is stable). -/
def evictOldest (ledger : List (String × LedgerEntry)) : List (String × LedgerEntry) :=
  if JSMap.size ledger > MAX_DOWNLOADED_IMAGES then
    match (ledger.insertionSort (fun a b => a.2.timestamp ≤ b.2.timestamp)).head? with
    | some oldest => JSMap.delete ledger oldest.1
    | none => ledger
  else ledger

/-- Lines 206 and 210-214: the ledger after a successful download is recorded. -/
def recordDownload (ledger : List (String × LedgerEntry)) (fullPath : String) (now : Int)
    (threadId : Int) : List (String × LedgerEntry) :=
  evictOldest (JSMap.set ledger fullPath { timestamp := now, threadId := threadId })

/-- Lines 127-128 and 207-208: the filename joins the thread's `skippedImages` and
the count is recomputed. -/
def markSkipped (filename : String) (t : Thread) : Thread :=
  let skipped := JSSet.add t.skippedImages filename
  { t with skippedImages := skipped,
           downloadedCount := min (skipped.length : Int) t.totalImages }

/-- Lines 205-220: the stores after a completed transfer. -/
def recordSuccess (s : State) (threadId : Int) (filename fullPath : String) (now : Int) : State :=
  let ledger := recordDownload s.downloadedImages fullPath now threadId
  let marked := modifyThread threadId (markSkipped filename) s.watchedThreads
  updateWatchedThreads { s with downloadedImages := ledger, watchedThreads := marked }

/-- The test `!isRunning || !watchedThreads.find(t => t.id === threadId)?.active`
(lines 144 and 234). -/
def stopped (s : State) (threadId : Int) : Bool :=
  !s.isRunning ||
    !(match findThread s.watchedThreads threadId with
      | some t => t.active
      | none => false)

/-- The outer `catch` (lines 244-247). -/
def downloadFailed (s : State) (downloadKey : String) (transfers : Nat) : DownloadResult :=
  { state := { s with activeDownloads := JSMap.delete s.activeDownloads downloadKey },
    success := false, downloaded := false, transfers := transfers }

/-- The retry loop (lines 142-242) from iteration `i` on, with `fuel` iterations left. -/
def attemptLoop (env : Nat → Attempt) (threadId : Int) (filename fullPath downloadKey : String) :
    Nat → Nat → State → DownloadResult
  | 0, i, s => downloadFailed s downloadKey i
  | fuel + 1, i, s =>
    if stopped s threadId then downloadFailed s downloadKey i
    else
      let a := env i
      -- lines 165 and 173/187/194: the download is tracked while it is pending
      let pending := JSMap.set s.activeDownloads downloadKey (ActiveValue.download a.downloadId)
      let tracked : State := { s with activeDownloads := JSMap.delete pending downloadKey }
      match a.outcome with
      | Outcome.complete =>
        { state := recordSuccess tracked threadId filename fullPath a.now,
          success := true, downloaded := true, transfers := i + 1 }
      | o =>
        -- the inner `catch` (lines 224-239)
        let s1 := if o = Outcome.initFailed then s else tracked
        let s2 : State := { s1 with activeDownloads := JSMap.delete s1.activeDownloads downloadKey }
        if i = MAX_RETRIES - 1 then attemptLoop env threadId filename fullPath downloadKey fuel (i + 1) s2
        else if stopped s2 threadId then downloadFailed s2 downloadKey (i + 1)
        else attemptLoop env threadId filename fullPath downloadKey fuel (i + 1) s2

/-- The `try` block of `downloadImage` with its `catch` (lines 120-247), run with the
lock held. -/
def downloadLocked (env : Nat → Attempt) (s : State) (thread : Thread) (threadId : Int)
    (filename fullPath downloadKey : String) : DownloadResult :=
  let isAlreadyDownloaded := JSMap.has s.downloadedImages fullPath
  let isAlreadySkipped := decide (filename ∈ thread.skippedImages)
  if isAlreadyDownloaded || isAlreadySkipped then
    if !isAlreadySkipped then
      let marked := modifyThread threadId (markSkipped filename) s.watchedThreads
      { state := updateWatchedThreads { s with watchedThreads := marked },
        success := true, downloaded := false, transfers := 0 }
    else { state := s, success := true, downloaded := false, transfers := 0 }
  else if !thread.active then { state := s, success := false, downloaded := false, transfers := 0 }
  else attemptLoop env threadId filename fullPath downloadKey MAX_RETRIES 0 s

/-- The key `threadId-filename` of the lock and of the active download. -/
def downloadKeyOf (threadId : Int) (filename : String) : String :=
  numStr threadId ++ "-" ++ filename

/-- The state in which `downloadImage` runs its `try` block: a caller that finds the lock
taken waits for its holder, whose `finally` deletes the entry (line 250), and then
takes the lock (lines 113-118). -/
def lockedState (s : State) (key : String) : State :=
  let released :=
    if JSMap.has s.downloadLocks key then JSMap.delete s.downloadLocks key else s.downloadLocks
  { s with downloadLocks := JSMap.set released key () }

/-- The function `downloadImage`. -/
def downloadImage (env : Nat → Attempt) (s : State) (url : String) (threadId : Int)
    (username : Option String) : DownloadResult :=
  let filename := lastSegment url
  match findThread s.watchedThreads threadId with
  | none => { state := s, success := false, downloaded := false, transfers := 0 }
  | some thread =>
    let fullPath := getFullPath s.lastSearchParams threadId username filename
    let downloadKey := downloadKeyOf threadId filename
    let r := downloadLocked env (lockedState s downloadKey) thread threadId filename fullPath downloadKey
    -- the `finally` block (lines 248-251)
    let unlocked : State := { r.state with downloadLocks := JSMap.delete r.state.downloadLocks downloadKey }
    { r with state := unlocked }

/-! ## `fetchWithRetry` (lines 68-86) -/

/-- The error that `fetchWithRetry` throws: the process was stopped (line 70), the error
of attempt `i` (a failed request, a status that is not ok, or a body that is not JSON;
line 79), or the error after the loop (line 85). -/
inductive FetchError where
  | stopped : FetchError
  | attemptFailed : Nat → FetchError
  | afterLoop : FetchError
  deriving DecidableEq

/-- The result of `fetchWithRetry`: the parsed payload, or `none` when it throws, the
number of calls of `fetch` it made, and the error it throws, if any. -/
structure FetchResult (α : Type) where
  value : Option α
  attempts : Nat
  error : Option FetchError := none

/-- The loop of `fetchWithRetry` from iteration `i` on.  `responses i` is the parsed
payload of attempt `i`, or `none` when the request fails, the status is not ok or
the body is not JSON. -/
def fetchLoop {α : Type} (s : State) (responses : Nat → Option α) : Nat → Nat → FetchResult α
  | 0, i => { value := none, attempts := i, error := some FetchError.afterLoop }
  | fuel + 1, i =>
    if !s.isRunning && !s.isInitialized then
      { value := none, attempts := i, error := some FetchError.stopped }
    else
      match responses i with
      | some data => { value := some data, attempts := i + 1 }
      | none =>
        if i = MAX_RETRIES - 1 then
          { value := none, attempts := i + 1, error := some (FetchError.attemptFailed i) }
        else fetchLoop s responses fuel (i + 1)

/-- The function `fetchWithRetry`. -/
def fetchWithRetry {α : Type} (s : State) (responses : Nat → Option α) : FetchResult α :=
  fetchLoop s responses MAX_RETRIES 0

/-! ## Upstream thread data -/

/-- A post of the thread JSON.  `closed` and `archived` stand for `post.closed === 1`
and `post.archived === 1`; a missing field is `none`. -/
structure Post where
  closed : Bool := false
  archived : Bool := false
  tim : Option Nat := none
  ext : Option String := none
  name : Option String := none
  deriving DecidableEq

/-- The parsed thread JSON; `posts` is `none` when the payload is null or its `posts`
is not an array. -/
structure ThreadData where
  posts : Option (List Post)
  deriving DecidableEq

/-- The filter `post => post.tim && post.ext`. -/
def isImagePost (p : Post) : Bool :=
  (match p.tim with
    | some t => decide (t ≠ 0)
    | none => false) &&
  (match p.ext with
    | some e => decide (e ≠ "")
    | none => false)

/-! ## The dispatch step of `manageThreads` (lines 601-623) and the start of
`processThread` (lines 413-420) -/

/-- The key of the processing marker of a thread. -/
def markerKey (id : Int) : String := numStr id ++ "-processing"

/-- The number `activeProcessingCount` (line 602). -/
def processingCount (activeDownloads : List (String × ActiveValue)) : Nat :=
  ((JSMap.keys activeDownloads).filter (fun k => endsWith k "-processing")).length

/-- The list `threadsToProcess` (lines 603-614); empty when no slot is free. -/
def threadsToProcess (processCandidates : List Thread) (s : State) : List Thread :=
  let availableSlots : Int := (MAX_CONCURRENT_THREADS : Int) - (processingCount s.activeDownloads : Int)
  if availableSlots ≤ 0 then []
  else
    ((processCandidates.filter (fun t => !JSMap.has s.activeDownloads (markerKey t.id))).filter
      (fun t => decide (t.downloadedCount < t.totalImages) || decide (t.totalImages = 0))).take
      availableSlots.toNat

/-- What `processThread` does before its first `await` (lines 414-420): a thread with
a falsy id is refused, any other gets its processing marker. -/
def markProcessing (activeDownloads : List (String × ActiveValue)) (t : Thread) :
    List (String × ActiveValue) :=
  if t.id = 0 then activeDownloads else JSMap.set activeDownloads (markerKey t.id) ActiveValue.marker

/-- The dispatch step: every thread of `threadsToProcess` is handed to `processThread`,
which marks it before anything else runs. -/
def dispatchStep (processCandidates : List Thread) (s : State) : State :=
  let marked := (threadsToProcess processCandidates s).foldl markProcessing s.activeDownloads
  { s with activeDownloads := marked }

/-- The test `timerStartTime && (now - timerStartTime >= STUCK_TIMER)` (lines 561-562). -/
def timerExpired (timers : List (Int × Int)) (now : Int) (t : Thread) : Bool :=
  match JSMap.get? timers t.id with
  | some start => decide (start ≠ 0) && decide (now - start ≥ STUCK_TIMER)
  | none => false

/-- What a call `manageThreads()` that is not awaited does before it first suspends
(lines 542-638).  With an expired timer it suspends in the timer check at its fetch.
With no free slot it returns.  With threads to process it starts them and suspends at
`Promise.all`.  Otherwise it suspends at `await checkForNewThreads()`, whose own start
changes nothing, or, when that call is skipped, goes on to recompute `isRunning`. -/
def manageThreadsKick (now : Int) (s : State) : State :=
  if !s.isInitialized then s
  else
    let processCandidates := s.watchedThreads.filter (fun t => t.active && !t.error && !t.closed)
    let finishedCandidates := s.watchedThreads.filter (fun t =>
      !t.active && !t.closed && !t.error && decide (t.downloadedCount ≥ t.totalImages) &&
        decide (t.totalImages > 0))
    let stuckCandidates := s.watchedThreads.filter (fun t =>
      t.active && !t.error && !t.closed && JSMap.has s.threadProgressTimers t.id)
    if (stuckCandidates ++ finishedCandidates).any (timerExpired s.threadProgressTimers now) then s
    else if (MAX_CONCURRENT_THREADS : Int) - (processingCount s.activeDownloads : Int) ≤ 0 then s
    else if (threadsToProcess processCandidates s).length > 0 then dispatchStep processCandidates s
    else
      let currentActiveCount :=
        (s.watchedThreads.filter (fun t => t.active && !t.closed && !t.error)).length
      if currentActiveCount < MAX_CONCURRENT_THREADS ∧ s.isRunning = true then s
      else { s with isRunning := s.watchedThreads.any (fun t => t.active && !t.closed) }

/-! ## `resumeActiveThreads` (lines 665-757) -/

/-- The body of the loop over the ledger (lines 709-714): an entry of the thread adds
its final path segment, unless that segment is empty. -/
def rebuildStep (threadId : Int) (acc : List String) (e : String × LedgerEntry) : List String :=
  if e.2.threadId = threadId then
    if lastSegment e.1 ≠ "" then JSSet.add acc (lastSegment e.1) else acc
  else acc

/-- Lines 706-715 and 1542-1548: the set of final path segments of the ledger entries
whose `threadId` is the given id. -/
def rebuildSkipped (ledger : List (String × LedgerEntry)) (threadId : Int) : List String :=
  ledger.foldl (rebuildStep threadId) []

/-- What the host answers during a resume: the fetch attempts for a URL, and the
clock when the timer of a thread is set and when `manageThreads` is called. -/
structure ResumeEnv where
  fetch : String → Nat → Option ThreadData
  nowAt : Int → Int
  tickNow : Int

/-- Lines 700-731: the fields of a thread after its sync with the upstream total and
the rebuilt set. -/
def syncedThread (newImageCount : Int) (rebuilt : List String) (t : Thread) : Thread :=
  { t with totalImages := newImageCount, skippedImages := rebuilt,
           downloadedCount := min (rebuilt.length : Int) newImageCount, error := false }

/-- The `catch` of the loop body (lines 746-751). -/
def resumeFailed (s : State) (threadId : Int) : State :=
  let paused := modifyThread threadId (fun t => { t with error := true, active := false }) s.watchedThreads
  updateWatchedThreads { s with watchedThreads := paused }

/-- One iteration of the loop of `resumeActiveThreads` (lines 681-751) for the thread
object with the given id.  Thread objects are identified by their id, which is
exact when the ids of the registry are pairwise distinct. -/
def resumeThread (env : ResumeEnv) (s : State) (threadId : Int) : State :=
  match findThread s.watchedThreads threadId with
  | none => s
  | some thread =>
    if !thread.active || thread.closed || thread.error then s
    else
      match (fetchWithRetry s (env.fetch thread.url)).value with
      | none => resumeFailed s threadId
      | some data =>
        match data.posts with
        | none => resumeFailed s threadId
        | some [] => resumeFailed s threadId
        | some (op :: rest) =>
          if op.closed || op.archived then
            let closedLocally := modifyThread threadId
              (fun t => { t with closed := true, active := false, error := false }) s.watchedThreads
            let timers := JSMap.delete s.threadProgressTimers thread.id
            updateWatchedThreads { s with watchedThreads := closedLocally, threadProgressTimers := timers }
          else
            let newImageCount : Int := (((op :: rest).filter isImagePost).length : Int)
            let rebuilt := rebuildSkipped s.downloadedImages thread.id
            let count : Int := min (rebuilt.length : Int) newImageCount
            let rebuiltThreads := modifyThread threadId (syncedThread newImageCount rebuilt) s.watchedThreads
            let synced := updateWatchedThreads { s with watchedThreads := rebuiltThreads }
            let timers := synced.threadProgressTimers
            if count ≥ newImageCount ∧ newImageCount > 0 then
              if JSMap.has timers thread.id then synced
              else { synced with threadProgressTimers := JSMap.set timers thread.id (env.nowAt thread.id) }
            else { synced with threadProgressTimers := JSMap.delete timers thread.id }

/-- The loop of `resumeActiveThreads` over the snapshot `activeThreads`. -/
def resumeLoop (env : ResumeEnv) : List Thread → State → State
  | [], s => s
  | thread :: rest, s => resumeLoop env rest (resumeThread env s thread.id)

/-- The function `resumeActiveThreads`, up to the point where its promise resolves. -/
def resumeActiveThreads (env : ResumeEnv) (s : State) : State :=
  if !s.isRunning then s
  else
    let activeThreads := s.watchedThreads.filter (fun t => t.active && !t.closed && !t.error)
    if activeThreads.length = 0 then s
    else manageThreadsKick env.tickNow (resumeLoop env activeThreads s)

/-! ## The `syncThreadCounts` message (lines 1532-1572) -/

/-- The loop body of the `syncThreadCounts` handler: the synced thread and whether it
set `changesMade`. -/
def syncThread (ledger : List (String × LedgerEntry)) (thread : Thread) : Thread × Bool :=
  let initialSkippedSize := thread.skippedImages.length
  let initialCount := thread.downloadedCount
  let threadSpecificSkipped := rebuildSkipped ledger thread.id
  let merged := thread.skippedImages.foldl JSSet.add threadSpecificSkipped
  let rebuiltSkippedCount := merged.length
  let safeTotalImages : Int := max 0 thread.totalImages
  let newCount : Int := min (rebuiltSkippedCount : Int) safeTotalImages
  if initialCount ≠ newCount ∨ initialSkippedSize ≠ rebuiltSkippedCount then
    ({ thread with skippedImages := merged, downloadedCount := newCount }, true)
  else ({ thread with skippedImages := merged }, false)

/-- The `syncThreadCounts` handler. -/
def syncThreadCounts (s : State) : State :=
  let synced := s.watchedThreads.map (syncThread s.downloadedImages)
  let s1 : State := { s with watchedThreads := synced.map Prod.fst }
  if synced.any Prod.snd then updateWatchedThreads s1 else s1

/-! ## `handleDownloadCreated` (lines 255-319) -/

/-- White space that `parseInt` skips at the start of its argument. -/
def isStrWhiteSpace (c : Char) : Bool :=
  let n := c.toNat
  decide (n = 9) || decide (n = 10) || decide (n = 11) || decide (n = 12) || decide (n = 13) ||
    decide (n = 32) || decide (n = 160) || decide (n = 5760) || (decide (8192 ≤ n) && decide (n ≤ 8202)) ||
    decide (n = 8232) || decide (n = 8233) || decide (n = 8239) || decide (n = 8287) ||
    decide (n = 12288) || decide (n = 65279)

/-- The value of a character as a digit of the given radix, if it is one. -/
def digitValue (radix : Nat) (c : Char) : Option Nat :=
  let n := c.toNat
  let v : Option Nat :=
    if 48 ≤ n ∧ n ≤ 57 then some (n - 48)
    else if 97 ≤ n ∧ n ≤ 122 then some (n - 87)
    else if 65 ≤ n ∧ n ≤ 90 then some (n - 55)
    else none
  match v with
  | some d => if d < radix then some d else none
  | none => none

/-- The function `parseInt(string)` on integers of any size; `none` stands for `NaN`.
Leading white space is skipped, a sign is read, `0x` or `0X` selects radix 16, and
the longest run of digits is the value. -/
def parseInt (s : List Char) : Option Int :=
  let s1 := s.dropWhile isStrWhiteSpace
  let negative : Bool := decide (s1.head? = some '-')
  let s2 := if s1.head? = some '-' ∨ s1.head? = some '+' then s1.tail else s1
  let hex : Bool := decide (s2.take 2 = ['0', 'x']) || decide (s2.take 2 = ['0', 'X'])
  let radix : Nat := if hex then 16 else 10
  let s3 := if hex then s2.drop 2 else s2
  let digits := s3.takeWhile (fun c => (digitValue radix c).isSome)
  if digits = [] then none
  else
    let v : Nat := digits.foldl (fun acc c => acc * radix + (digitValue radix c).getD 0) 0
    some (if negative then -(v : Int) else (v : Int))

/-- The class `\w`. -/
def isWordChar (c : Char) : Bool := c.isAlphanum || c == '_'

/-- A character that `.` does not match. -/
def isLineTerminator (c : Char) : Bool :=
  decide (c.toNat = 10) || decide (c.toNat = 13) || decide (c.toNat = 8232) || decide (c.toNat = 8233)

/-- The three groups of `filename.match(/^(.*) \((\d+)\)(\.\w+)$/)`, or `none` when
the name does not match.  The name is read from its end: the run of word characters
that ends it, the dot and the closing bracket before that run, the run of digits
before the bracket, the opening bracket and the space before the digits. -/
def duplicateMatch (filename : List Char) : Option (List Char × List Char × List Char) :=
  let r := filename.reverse
  let w := r.takeWhile isWordChar
  match r.dropWhile isWordChar with
  | dot :: close :: r2 =>
    let d := r2.takeWhile Char.isDigit
    match r2.dropWhile Char.isDigit with
    | opening :: space :: r3 =>
      if dot = '.' ∧ close = ')' ∧ opening = '(' ∧ space = ' ' ∧ w ≠ [] ∧ d ≠ [] ∧
          r3.all (fun c => !isLineTerminator c) then
        some (r3.reverse, d.reverse, '.' :: w.reverse)
      else none
    | _ => none
  | _ => none

/-- The download item of a `chrome.downloads.onCreated` event. -/
structure DownloadItem where
  filename : String
  id : Nat

/-- The result of the listener: the stores afterwards, whether it called
`chrome.downloads.cancel`, and whether it called `chrome.downloads.erase`. -/
structure CreatedResult where
  state : State
  cancelled : Bool
  erased : Bool

/-- The listener behind `handleDownloadCreated` for one delivered event.  `cancelOk`
tells whether `chrome.downloads.cancel` reports no `lastError`. -/
def handleDownloadCreated (cancelOk : Bool) (s : State) (item : DownloadItem) : CreatedResult :=
  let ignored : CreatedResult := { state := s, cancelled := false, erased := false }
  if item.id = 0 then ignored
  else
    let fullPath := item.filename.data.map (fun c => if c = Char.ofNat 92 then '/' else c)
    let pathParts := splitOnChar '/' fullPath
    if pathParts.length < 4 then ignored
    else
      match pathParts.reverse with
      | filename :: username :: threadIdStr :: baseParts =>
        let downloadBasePath := List.intercalate ['/'] baseParts.reverse
        if filename = [] ∨ username = [] ∨ threadIdStr = [] then ignored
        else
          match parseInt threadIdStr with
          | none => ignored
          | some threadId =>
            match duplicateMatch filename with
            | none => ignored
            | some (name, _, ext) =>
              let baseFilename := String.mk (name ++ ext)
              let baseFullPath := String.mk downloadBasePath ++ "/" ++ numStr threadId ++ "/" ++
                String.mk username ++ "/" ++ baseFilename
              if JSMap.has s.downloadedImages baseFullPath then
                if cancelOk then
                  match findThread s.watchedThreads threadId with
                  | none => { state := s, cancelled := true, erased := true }
                  | some thread =>
                    if baseFilename ∈ thread.skippedImages then
                      { state := s, cancelled := true, erased := true }
                    else
                      let marked := modifyThread threadId (markSkipped baseFilename) s.watchedThreads
                      { state := updateWatchedThreads { s with watchedThreads := marked },
                        cancelled := true, erased := true }
                else { state := s, cancelled := true, erased := false }
              else ignored
      | _ => ignored

/-! ## Predicates of the specification -/

/-- The progress invariant of a thread: `0 ≤ downloadedCount ≤ totalImages` and
`downloadedCount = min(|skippedImages|, totalImages)`. -/
def ProgressInv (t : Thread) : Prop :=
  0 ≤ t.downloadedCount ∧ t.downloadedCount ≤ t.totalImages ∧
    t.downloadedCount = min (t.skippedImages.length : Int) t.totalImages

/-- The final path segments of the ledger entries owned by a thread, in ledger order. -/
def ownedSegments (ledger : List (String × LedgerEntry)) (threadId : Int) : List String :=
  (ledger.filter (fun e => decide (e.2.threadId = threadId))).map (fun e => lastSegment e.1)

/-- The number of ledger entries whose `threadId` is the given id. -/
def ownedCount (ledger : List (String × LedgerEntry)) (threadId : Int) : Nat :=
  (ledger.filter (fun e => decide (e.2.threadId = threadId))).length

/-- A thread that the loop of `resumeActiveThreads` will sync: active, not closed, not
errored, fetched from `url`. -/
def Resumable (url : String) (t : Thread) : Prop :=
  t.active = true ∧ t.closed = false ∧ t.error = false ∧ t.url = url

/-- A thread as the loop of `resumeActiveThreads` leaves it: still resumable, with the
rebuilt `skippedImages`, the reported total and the recomputed count. -/
def SyncedWith (url : String) (rebuilt : List String) (total : Int) (t : Thread) : Prop :=
  Resumable url t ∧ t.skippedImages = rebuilt ∧ t.totalImages = total ∧
    t.downloadedCount = min (rebuilt.length : Int) total

/-- The name `name (digits).ext` that the download manager gives to a file that
collides with `name.ext`. -/
def renamedFile (name digits ext : List Char) : List Char :=
  name ++ ' ' :: '(' :: digits ++ ')' :: '.' :: ext

/-- The path of the collision-renamed file of a child, relative to the download root:
the directory of the child's canonical path and the renamed file name. -/
def renamedPath (lsp : SearchParams) (threadId : Int) (username : Option String)
    (name digits ext : List Char) : String :=
  stripSlashes lsp.downloadPath ++ "/" ++ numStr threadId ++ "/" ++ sanitizedUsername username ++ "/" ++
    String.mk (renamedFile name digits ext)

/-! ## Steps that change the processing markers -/

/-- A step that can change the number of processing markers: the dispatch step of
`manageThreads` for any list of candidates, a command that removes entries of
`activeDownloads` (the `finally` of `processThread`, `stopScraping`, `toggleThread`,
`closeThread`, `removeThread`, `forgetAllDownloads`), or the tracking of a download
under a key that is not a marker key.  The other stores may change in any way. -/
inductive MarkerStep : State → State → Prop where
  | dispatch (processCandidates : List Thread) (s : State) :
      MarkerStep s (dispatchStep processCandidates s)
  | removal (s s2 : State) :
      List.Sublist s2.activeDownloads s.activeDownloads → MarkerStep s s2
  | track (s s2 : State) (key : String) (id : Nat) :
      endsWith key "-processing" = false →
      s2.activeDownloads = JSMap.set s.activeDownloads key (ActiveValue.download id) →
      MarkerStep s s2

/-! ## Concrete states and hosts used by the theorems -/

/-- A running state with one active thread that has downloaded nothing yet. -/
def freshState : State :=
  { isRunning := true, watchedThreads := [{ id := 7, active := true, totalImages := 2 }] }

/-- A host whose transfers all complete at time 5. -/
def completingHost : Nat → Attempt := fun _ => { outcome := Outcome.complete, now := 5 }

/-- A host whose transfers are all interrupted. -/
def interruptingHost : Nat → Attempt := fun _ => { outcome := Outcome.interrupted }

/-- A thread whose stored count (0) is not the one its `skippedImages` gives (1). -/
def staleThread : Thread :=
  { id := 7, active := true, totalImages := 5, downloadedCount := 0, skippedImages := ["1.jpg"] }

/-- A running state whose only thread is `staleThread`. -/
def staleState : State := { isRunning := true, watchedThreads := [staleThread] }

/-- A state whose ledger knows `1.jpg` of thread 7 while the thread does not. -/
def knownState : State :=
  { isRunning := true,
    watchedThreads := [{ id := 7, active := true, totalImages := 2 }],
    downloadedImages := [("4chan_downloads/7/Anonymous/1.jpg", { timestamp := 1, threadId := 7 })] }

/-- The event of the collision-renamed file `1 (1).jpg` of thread 7. -/
def renamedItem : DownloadItem :=
  { filename := "4chan_downloads/7/Anonymous/1 (1).jpg", id := 4 }

/-- A ledger of 18001 entries with pairwise distinct keys, all owned by thread 1. -/
def overfullLedger : List (String × LedgerEntry) :=
  (List.range 18001).map (fun i =>
    ("4chan_downloads/1/Anonymous/" ++ String.mk (List.replicate (i + 1) 'a'),
      { timestamp := (i : Int), threadId := 1 }))

/-- A running state with one active thread and the overfull ledger. -/
def overfullState : State :=
  { isRunning := true,
    watchedThreads := [{ id := 7, active := true, totalImages := 1 }],
    downloadedImages := overfullLedger }

/-- A successful download of `1.jpg` for thread 7 in the overfull state. -/
def overfullResult : DownloadResult :=
  downloadImage (fun _ => { outcome := Outcome.complete }) overfullState "https://i.4cdn.org/g/1.jpg" 7 none

/-- A state with four processing markers and three idle threads. -/
def busyState : State :=
  { isRunning := true, isInitialized := true,
    watchedThreads :=
      [{ id := 5, active := true }, { id := 6, active := true }, { id := 7, active := true }],
    activeDownloads :=
      [("1-processing", ActiveValue.marker), ("2-processing", ActiveValue.marker),
       ("3-processing", ActiveValue.marker), ("4-processing", ActiveValue.marker)] }

/-- A running state whose ledger holds two entries of thread 7 with the same final
path segment `1.jpg` (posted under two names) and one entry of thread 8; the thread's
in-memory progress is out of date. -/
def collidingState : State :=
  { isRunning := true, isInitialized := true,
    watchedThreads :=
      [{ id := 7, url := "https://a.4cdn.org/g/thread/7.json", active := true, totalImages := 9,
         downloadedCount := 4, skippedImages := ["zz"] }],
    downloadedImages :=
      [("4chan_downloads/7/Alice/1.jpg", { timestamp := 1, threadId := 7 }),
       ("4chan_downloads/7/Bob/1.jpg", { timestamp := 2, threadId := 7 }),
       ("4chan_downloads/8/Bob/2.jpg", { timestamp := 2, threadId := 8 })] }

/-- A running state whose ledger holds two entries of thread 7 with distinct final
segments and one entry of thread 8. -/
def ledgerState : State :=
  { isRunning := true, isInitialized := true,
    watchedThreads :=
      [{ id := 7, url := "https://a.4cdn.org/g/thread/7.json", active := true, totalImages := 9,
         downloadedCount := 4, skippedImages := ["zz"] }],
    downloadedImages :=
      [("4chan_downloads/7/Alice/1.jpg", { timestamp := 1, threadId := 7 }),
       ("4chan_downloads/7/Bob/2.jpg", { timestamp := 2, threadId := 7 }),
       ("4chan_downloads/8/Bob/2.jpg", { timestamp := 2, threadId := 8 })] }

/-- The posts of an open thread with three image posts and one text post. -/
def openPosts : List Post :=
  [{ tim := some 1, ext := some ".jpg" }, { tim := some 2, ext := some ".jpg" }, {},
   { tim := some 3, ext := some ".png" }]

/-- A host that answers every fetch with `openPosts` at time 100. -/
def openHost : ResumeEnv :=
  { fetch := fun _ _ => some { posts := some openPosts }, nowAt := fun _ => 100, tickNow := 100 }

/-! ## Discovery: `searchAndWatchThreads` and `checkForNewThreads` (lines 807-931) -/

/-- A thread entry of a catalog page.  A missing field is `none`; `no` is also `none`
when the entry is null or its `no` is not a number. -/
structure CatalogThread where
  no : Option Int := none
  time : Option Int := none
  sub : Option String := none
  com : Option String := none
  deriving DecidableEq

/-- What the host answers during a discovery pass: the regular expression engine
(`regex term` is `none` when `new RegExp(term, 'i')` throws, otherwise the function
`regex.test`), the fetch attempts for a URL (the parsed catalog is `none` when it is not
an array, a page is `none` when it is null or its `threads` is not an array), the
answer of `directoryExists` for a thread number, and the clock: at line 843, at line 892
for a thread number, and when `manageThreads` is called. -/
structure SearchEnv where
  regex : String → Option (String → Bool)
  catalog : String → Nat → Option (Option (List (Option (List CatalogThread))))
  directoryExists : Int → Bool
  now : Int
  threadNow : Int → Int
  tickNow : Int

/-- The result of a discovery pass: the stores afterwards, the number of calls of
`fetch` it made, and whether it ended by throwing. -/
structure SearchResult where
  state : State
  fetches : Nat
  threw : Bool := false

/-- Lines 887-899: the thread object built for a catalog entry. -/
def newThread (env : SearchEnv) (board : String) (no : Int) (td : CatalogThread) : Thread :=
  let fallbackTitle := "Thread " ++ numStr no
  let fallbackTime := env.threadNow no / 1000
  { url := "https://a.4cdn.org/" ++ board ++ "/thread/" ++ numStr no ++ ".json",
    title := (match td.sub with
      | some sub => if sub = "" then fallbackTitle else sub
      | none => fallbackTitle),
    board := board,
    id := no,
    time := (match td.time with
      | some t => if t = 0 then fallbackTime else t
      | none => fallbackTime),
    active := false, downloadedCount := 0, totalImages := 0, error := false, closed := false,
    skippedImages := [] }

/-- The test `threadData.time < sevenDaysAgo` (lines 843 and 865), with
`sevenDaysAgo = Date.now() / 1000 - 7 * 24 * 60 * 60`; a missing time compares false. -/
def olderThanSevenDays (env : SearchEnv) (td : CatalogThread) : Bool :=
  match td.time with
  | some t => decide (t * 1000 < env.now - 7 * 24 * 60 * 60 * 1000)
  | none => false

/-- The test `field && regex.test(field)` (lines 875-876). -/
def matchesField (test : String → Bool) (field : Option String) : Bool :=
  match field with
  | some text => decide (text ≠ "") && test text
  | none => false

/-- The body of the inner loop (lines 861-901): the thread pushed to
`potentialNewThreads` for a catalog entry, if any. -/
def candidateOf (env : SearchEnv) (test : String → Bool) (s : State) (board : String)
    (td : CatalogThread) : Option Thread :=
  match td.no with
  | none => none
  | some no =>
    if no = 0 then none
    else if olderThanSevenDays env td then none
    else if s.watchedThreads.any (fun t => decide (t.id = no)) then none
    else if matchesField test td.sub || matchesField test td.com then
      if env.directoryExists no then none else some (newThread env board no td)
    else none

/-- The list `potentialNewThreads` after the loops over the pages (lines 856-903). -/
def potentialNewThreads (env : SearchEnv) (test : String → Bool) (s : State) (board : String)
    (pages : List (Option (List CatalogThread))) : List Thread :=
  pages.flatMap (fun page =>
    match page with
    | some threads => threads.filterMap (candidateOf env test s board)
    | none => [])

/-- The function `searchAndWatchThreads`.  Both `try` blocks catch what is thrown inside
them, so the call always returns.  The sort is stable. -/
def searchAndWatchThreads (env : SearchEnv) (s : State) (board searchTerm : String)
    (limit : Nat) : SearchResult :=
  if !s.isRunning then { state := s, fetches := 0 }
  else
    match env.regex searchTerm with
    | none => { state := s, fetches := 0 }
    | some test =>
      let params : SearchParams := { s.lastSearchParams with board := board, searchTerm := searchTerm }
      let s1 : State := { s with lastSearchParams := params }
      let fetched := fetchWithRetry s1 (env.catalog ("https://a.4cdn.org/" ++ board ++ "/catalog.json"))
      match fetched.value with
      | some (some pages) =>
        let sorted := (potentialNewThreads env test s1 board pages).insertionSort
          (fun a b => a.time ≥ b.time)
        let threadsToAdd := sorted.take limit
        if threadsToAdd.length > 0 then
          let pushed := s1.watchedThreads ++ threadsToAdd.map (fun t => { t with active := true })
          let saved := updateWatchedThreads { s1 with watchedThreads := pushed }
          { state := manageThreadsKick env.tickNow saved, fetches := fetched.attempts }
        else { state := s1, fetches := fetched.attempts }
      | _ => { state := s1, fetches := fetched.attempts }

/-- The function `checkForNewThreads`. -/
def checkForNewThreads (env : SearchEnv) (s : State) : SearchResult :=
  if !s.isRunning || !s.isInitialized then { state := s, fetches := 0 }
  else if s.lastSearchParams.board = "" ∨ s.lastSearchParams.searchTerm = "" then
    { state := s, fetches := 0 }
  else
    let activeThreadCount := (s.watchedThreads.filter (fun t => t.active && !t.error && !t.closed)).length
    let availableSlots : Int := (MAX_CONCURRENT_THREADS : Int) - (activeThreadCount : Int)
    if availableSlots ≤ 0 then { state := s, fetches := 0 }
    else
      searchAndWatchThreads env s s.lastSearchParams.board s.lastSearchParams.searchTerm
        availableSlots.toNat

/-- A running, initialized state with an empty registry. -/
def emptyRunning : State := { isRunning := true, isInitialized := true }

/-- The test function of a compiled expression that matches the text `cats`. -/
def catTest : String → Bool := fun text => text == "cats"

/-- The pages of a catalog that lists thread 1 twice. -/
def twicePages : List (Option (List CatalogThread)) :=
  [some [{ no := some 1, time := some 1000, sub := some "cats" },
         { no := some 1, time := some 1000, sub := some "cats" }]]

/-- A host whose expression engine rejects the pattern `(`, whose catalog lists thread 1
twice, and for which no download directory exists. -/
def twiceHost : SearchEnv :=
  { regex := fun term => if term = "(" then none else some catTest,
    catalog := fun _ _ => some (some twicePages),
    directoryExists := fun _ => false,
    now := 5000, threadNow := fun _ => 5000, tickNow := 5000 }

/-- The pages of a catalog with three matching threads, one thread that does not match,
and a page without threads. -/
def catPages : List (Option (List CatalogThread)) :=
  [some [{ no := some 1, time := some 1000, sub := some "cats" },
         { no := some 2, time := some 2000, com := some "cats" },
         { no := some 3, time := some 3000, sub := some "dogs" }],
   none,
   some [{ no := some 4, time := some 1500, sub := some "cats" }]]

/-- A host whose expression engine rejects the pattern `(` and whose catalog is
`catPages`. -/
def catHost : SearchEnv :=
  { regex := fun term => if term = "(" then none else some catTest,
    catalog := fun _ _ => some (some catPages),
    directoryExists := fun _ => false,
    now := 5000, threadNow := fun _ => 5000, tickNow := 5000 }

/-! ## The timer check of `manageThreads` (lines 552-599) -/

/-- What the host answers during the timer check: the fetch attempts for a thread URL,
the clock at line 559, and the host of the discovery pass that follows the re-check of
the `k`-th thread of the loop. -/
structure TickEnv where
  fetch : String → Nat → Option ThreadData
  now : Int
  search : Nat → SearchEnv

/-- The result of the timer check: the stores afterwards and the ids of the threads
whose data was fetched. -/
structure TimerCheckResult where
  state : State
  fetched : List Int

/-- The `catch` of the timer check (lines 588-594). -/
def closeOnError (s : State) (threadId : Int) : State :=
  let ws := modifyThread threadId (fun t => { t with closed := true, active := false, error := true })
    s.watchedThreads
  let timers := JSMap.delete s.threadProgressTimers threadId
  { s with watchedThreads := ws, threadProgressTimers := timers }

/-- Lines 564-594: the stores after the re-check of a thread whose timer has expired, when
no other task runs while the fetch of line 566 is awaited: the stores of lines 571-593 are
made in the state in which the fetch was started.  The general form, with the stores that
other tasks left at the time the fetch answers, is `recheckStores`. -/
def recheckThread (env : TickEnv) (s : State) (thread : Thread) : State :=
  match (fetchWithRetry s (env.fetch thread.url)).value with
  | none => closeOnError s thread.id
  | some data =>
    match data.posts with
    | none => closeOnError s thread.id
    | some [] => closeOnError s thread.id
    | some (op :: rest) =>
      let newImageCount : Int := (((op :: rest).filter isImagePost).length : Int)
      let timers := JSMap.delete s.threadProgressTimers thread.id
      if op.closed || op.archived then
        let ws := modifyThread thread.id
          (fun t => { t with closed := true, active := false, error := false }) s.watchedThreads
        { s with watchedThreads := ws, threadProgressTimers := timers }
      else if newImageCount > thread.totalImages then
        let ws := modifyThread thread.id
          (fun t => { t with totalImages := newImageCount, active := true, error := false })
          s.watchedThreads
        { s with watchedThreads := ws, threadProgressTimers := timers }
      else
        let ws := modifyThread thread.id (fun t => { t with closed := true, active := false })
          s.watchedThreads
        { s with watchedThreads := ws, threadProgressTimers := timers }

/-- One iteration of the loop of the timer check (lines 560-599) for the thread object
with the given id, the `k`-th of the loop.  The loop never removes an id from the
registry, so the thread of a candidate is always found. -/
def timerCheckThread (env : TickEnv) (k : Nat) (s : State) (threadId : Int) : TimerCheckResult :=
  match findThread s.watchedThreads threadId with
  | none => { state := s, fetched := [] }
  | some thread =>
    if timerExpired s.threadProgressTimers env.now thread then
      let saved := updateWatchedThreads (recheckThread env s thread)
      { state := (checkForNewThreads (env.search k) saved).state, fetched := [threadId] }
    else { state := s, fetched := [] }

/-- The loop of the timer check over the snapshot of candidates, from its `k`-th
element on. -/
def timerCheckLoop (env : TickEnv) : Nat → List Thread → State → TimerCheckResult
  | _, [], s => { state := s, fetched := [] }
  | k, thread :: rest, s =>
    let first := timerCheckThread env k s thread.id
    let others := timerCheckLoop env (k + 1) rest first.state
    { state := others.state, fetched := first.fetched ++ others.fetched }

/-- The timer check of `manageThreads` (lines 553-599): the stuck and the finished
candidates are taken when the pass starts. -/
def timerCheck (env : TickEnv) (s : State) : TimerCheckResult :=
  let finishedCandidates := s.watchedThreads.filter (fun t =>
    !t.active && !t.closed && !t.error && decide (t.downloadedCount ≥ t.totalImages) &&
      decide (t.totalImages > 0))
  let stuckCandidates := s.watchedThreads.filter (fun t =>
    t.active && !t.error && !t.closed && JSMap.has s.threadProgressTimers t.id)
  timerCheckLoop env 0 (stuckCandidates ++ finishedCandidates) s

/-- Lines 567-593: what the timer check stores once the fetch of line 566 has answered
with `fetched` (`none` when it threw), in the stores `s` as they are at that moment, for
the thread object with the given id.  The object is the one the loop took from its
candidates before the fetch; line 575 reads its `totalImages` as it is now.  When the id is
no longer registered the object is outside the registry and only its timer is deleted. -/
def recheckStores (fetched : Option ThreadData) (s : State) (threadId : Int) : State :=
  match findThread s.watchedThreads threadId with
  | none => { s with threadProgressTimers := JSMap.delete s.threadProgressTimers threadId }
  | some thread =>
    match fetched with
    | none => closeOnError s threadId
    | some data =>
      match data.posts with
      | none => closeOnError s threadId
      | some [] => closeOnError s threadId
      | some (op :: rest) =>
        let newImageCount : Int := (((op :: rest).filter isImagePost).length : Int)
        let timers := JSMap.delete s.threadProgressTimers threadId
        if op.closed || op.archived then
          let ws := modifyThread threadId
            (fun t => { t with closed := true, active := false, error := false }) s.watchedThreads
          { s with watchedThreads := ws, threadProgressTimers := timers }
        else if newImageCount > thread.totalImages then
          let ws := modifyThread threadId
            (fun t => { t with totalImages := newImageCount, active := true, error := false })
            s.watchedThreads
          { s with watchedThreads := ws, threadProgressTimers := timers }
        else
          let ws := modifyThread threadId (fun t => { t with closed := true, active := false })
            s.watchedThreads
          { s with watchedThreads := ws, threadProgressTimers := timers }

/-- One iteration of the loop of the timer check (lines 560-599) in which other tasks run
while the fetch of line 566 is awaited: the fetch is started in the state `s`, `during` is
what the commands that run before it answers do to the stores, and lines 567-597 run in
the stores they left.  With `during` the identity this is `timerCheckThread`. -/
def timerCheckThreadDuring (env : TickEnv) (k : Nat) (s : State) (threadId : Int)
    (during : State → State) : TimerCheckResult :=
  match findThread s.watchedThreads threadId with
  | none => { state := s, fetched := [] }
  | some thread =>
    if timerExpired s.threadProgressTimers env.now thread then
      let fetched := (fetchWithRetry s (env.fetch thread.url)).value
      let saved := updateWatchedThreads (recheckStores fetched (during s) threadId)
      { state := (checkForNewThreads (env.search k) saved).state, fetched := [threadId] }
    else { state := s, fetched := [] }

/-- The dispatch filter of `manageThreads` (lines 552 and 613): active, not errored, not
closed, with work to do. -/
def dispatchEligible (t : Thread) : Bool :=
  (t.active && !t.error && !t.closed) &&
    (decide (t.downloadedCount < t.totalImages) || decide (t.totalImages = 0))

/-- A thread with four images, all downloaded, and a timer set at time 1000. -/
def completeThread : Thread :=
  { id := 7, url := "https://a.4cdn.org/g/thread/7.json", active := true, totalImages := 4,
    downloadedCount := 4, skippedImages := ["1.jpg", "2.jpg", "3.jpg", "4.jpg"] }

/-- A running, initialized state whose only thread is `completeThread`, with its timer. -/
def completeState : State :=
  { isRunning := true, isInitialized := true, watchedThreads := [completeThread],
    threadProgressTimers := [(7, 1000)] }

/-- The posts of an open thread with `n` image posts. -/
def imagePosts (n : Nat) : List Post :=
  (List.range n).map (fun i => { tim := some (i + 1), ext := some ".jpg" })

/-- A host that answers every fetch with `n` image posts, six minutes after time 1000,
and whose discovery finds nothing. -/
def tickHost (n : Nat) : TickEnv :=
  { fetch := fun _ _ => some { posts := some (imagePosts n) },
    now := 1000 + 6 * 60 * 1000,
    search := fun _ =>
      { regex := fun _ => some catTest, catalog := fun _ _ => some (some []),
        directoryExists := fun _ => false, now := 0, threadNow := fun _ => 0, tickNow := 0 } }

/-- A thread with two images upstream whose `skippedImages` still holds the name of a
third one, with a timer set at time 1000. -/
def shrunkThread : Thread :=
  { id := 7, url := "https://a.4cdn.org/g/thread/7.json", active := true, totalImages := 2,
    downloadedCount := 2, skippedImages := ["1.jpg", "2.jpg", "3.jpg"] }

/-- A running, initialized state whose only thread is `shrunkThread`, with its timer. -/
def shrunkState : State :=
  { isRunning := true, isInitialized := true, watchedThreads := [shrunkThread],
    threadProgressTimers := [(7, 1000)] }

/-- A thread as later saves leave it: unchanged, or with its count recomputed by
`updateWatchedThreads`. -/
def UpToRecount (t t2 : Thread) : Prop := t2 = t ∨ t2 = recount t

/-- The thread `shrunkThread` after its timer check found three images upstream. -/
def reopenedShrunk : Thread :=
  { id := 7, url := "https://a.4cdn.org/g/thread/7.json", active := true, totalImages := 3,
    downloadedCount := 3, skippedImages := ["1.jpg", "2.jpg", "3.jpg"] }

/-! ## Commands: `stopScraping`, `toggleThread`, `closeThread`, `removeThread`
(lines 1056-1311) -/

/-- The call `key.startsWith(start)`. -/
def startsWith (key : String) (start : String) : Bool := start.data.isPrefixOf key.data

/-- The thread id that line 1074 reads from a key with the expression `^(\d+)-` and
`parseInt`; `none` when the key does not start with digits followed by a dash. -/
def leadingThreadId (key : String) : Option Int :=
  let digits := key.data.takeWhile Char.isDigit
  if digits ≠ [] ∧ (key.data.dropWhile Char.isDigit).head? = some '-' then parseInt digits
  else none

/-- The test `Number.isInteger(downloadId)`: false for the value `true` of a processing
marker. -/
def isDownloadId (v : ActiveValue) : Bool :=
  match v with
  | ActiveValue.download _ => true
  | ActiveValue.marker => false

/-- The loop that cancels the downloads of a thread (lines 1177-1190, 1238-1251,
1277-1290): the entries of `activeDownloads` that stay. -/
def cancelThreadDownloads (threadId : Int) (activeDownloads : List (String × ActiveValue)) :
    List (String × ActiveValue) :=
  activeDownloads.filter (fun e =>
    !(startsWith e.1 (numStr threadId ++ "-") && (endsWith e.1 "-processing" || isDownloadId e.2)))

/-- The test of `isRunning = watchedThreads.some(t => t.active && !t.closed)`. -/
def someActive (ws : List Thread) : Bool := ws.any (fun t => t.active && !t.closed)

/-- The function `stopScraping`. -/
def stopScraping (s : State) : State :=
  let changed := s.watchedThreads.any (fun t => t.active)
  let paused := s.watchedThreads.map (fun t => if t.active then { t with active := false } else t)
  let timers := (s.watchedThreads.filter (fun t => t.active)).foldl
    (fun tm t => JSMap.delete tm t.id) s.threadProgressTimers
  let kept := s.activeDownloads.filter (fun e =>
    endsWith e.1 "-processing" ||
      !(match leadingThreadId e.1 with
        | some threadId =>
          (match findThread paused threadId with
            | some thread => !thread.active
            | none => false)
        | none => false))
  let cleared := kept.filter (fun e => !endsWith e.1 "-processing")
  let stopped : State :=
    { s with watchedThreads := paused, threadProgressTimers := timers, activeDownloads := cleared,
             isRunning := false }
  if changed then updateWatchedThreads stopped else stopped

/-- The function `toggleThread`; `now` is the clock when `manageThreads` is called. -/
def toggleThread (now : Int) (s : State) (threadId : Int) : State :=
  match findThread s.watchedThreads threadId with
  | none => s
  | some thread =>
    if thread.active then
      let ws := modifyThread threadId (fun t => { t with active := false }) s.watchedThreads
      let timers := JSMap.delete s.threadProgressTimers thread.id
      let downloads := cancelThreadDownloads threadId s.activeDownloads
      let paused : State :=
        { s with watchedThreads := ws, threadProgressTimers := timers, activeDownloads := downloads,
                 isRunning := someActive ws }
      updateWatchedThreads paused
    else if thread.closed then s
    else
      let ws := if thread.error then
          modifyThread threadId (fun t => { t with error := false }) s.watchedThreads
        else s.watchedThreads
      let activeCount := (ws.filter (fun t => t.active && !t.error && !t.closed)).length
      if activeCount ≥ MAX_CONCURRENT_THREADS then { s with watchedThreads := ws }
      else
        let resumed := modifyThread threadId (fun t => { t with active := true }) ws
        let started : State := { s with watchedThreads := resumed, isRunning := true }
        updateWatchedThreads (manageThreadsKick now (updateWatchedThreads started))

/-- The function `closeThread`.  The call `checkForNewThreads()` at its end is not awaited
and changes nothing before it suspends. -/
def closeThread (s : State) (threadId : Int) : State :=
  match findThread s.watchedThreads threadId with
  | none => s
  | some thread =>
    let ws := modifyThread threadId
      (fun t => { t with closed := true, active := false, error := false }) s.watchedThreads
    let timers := JSMap.delete s.threadProgressTimers thread.id
    let downloads := cancelThreadDownloads threadId s.activeDownloads
    let closed : State :=
      { s with watchedThreads := ws, threadProgressTimers := timers, activeDownloads := downloads,
               isRunning := someActive ws }
    updateWatchedThreads closed

/-- The call `watchedThreads.splice(threadIndex, 1)` for the index of the first thread
with the id. -/
def removeFirst (threadId : Int) : List Thread → List Thread
  | [] => []
  | t :: ts => if t.id = threadId then ts else t :: removeFirst threadId ts

/-- The function `removeThread`.  The call `checkForNewThreads()` at its end is not
awaited and changes nothing before it suspends. -/
def removeThread (s : State) (threadId : Int) : State :=
  match findThread s.watchedThreads threadId with
  | none => s
  | some _ =>
    let downloads := cancelThreadDownloads threadId s.activeDownloads
    let ws := removeFirst threadId s.watchedThreads
    let timers := JSMap.delete s.threadProgressTimers threadId
    let removed : State :=
      { s with watchedThreads := ws, threadProgressTimers := timers, activeDownloads := downloads,
               isRunning := someActive ws }
    updateWatchedThreads removed

/-- Lines 630-638: the end of a pass of `manageThreads`, from the return of the batch of
`processThread` calls on. -/
def manageThreadsFinish (env : SearchEnv) (s : State) : State :=
  let currentActiveCount := (s.watchedThreads.filter (fun t => t.active && !t.closed && !t.error)).length
  let searched :=
    if currentActiveCount < MAX_CONCURRENT_THREADS ∧ s.isRunning = true then
      (checkForNewThreads env s).state
    else s
  { searched with isRunning := someActive searched.watchedThreads }

/-! ## `initializeState` and `cleanupOldDownloads` (lines 1398-1416 and 1587-1674) -/

/-- A thread of the persisted record.  A field that is missing or falsy has the default
that line 1596-1605 gives it; `skippedImages` is `none` when the stored value is not an
array. -/
structure StoredThread where
  id : Int
  url : String := ""
  title : String := ""
  board : String := ""
  time : Int := 0
  active : Bool := false
  closed : Bool := false
  error : Bool := false
  totalImages : Int := 0
  downloadedCount : Int := 0
  skippedImages : Option (List String) := none
  deriving DecidableEq

/-- The value of a stored ledger entry by its shape: an object with a numeric `timestamp`
and a numeric `threadId`; the value `null`; or any other value (a primitive, or an object
without those two numbers). -/
inductive StoredValue where
  | entry : LedgerEntry → StoredValue
  | null : StoredValue
  | invalid : StoredValue
  deriving DecidableEq

/-- The persisted record, read with well-formed shapes: a field is `none` when it is
missing or, for `downloadedImages`, not an array; the stored ledger is an array of pairs
of a path and a value. -/
structure Stored where
  watchedThreads : Option (List StoredThread) := none
  lastSearchParams : Option SearchParams := none
  downloadedImages : Option (List (String × StoredValue)) := none
  isRunning : Bool := false

/-- The body of the `forEach` of lines 1594-1626. -/
def loadThread (stored : StoredThread) : Thread :=
  let skipped : List String :=
    match stored.skippedImages with
    | some names => names.foldl JSSet.add []
    | none => []
  let safeTotalImages : Int := max 0 stored.totalImages
  let syncedCount : Int := min (skipped.length : Int) safeTotalImages
  { id := stored.id, url := stored.url,
    title := (if stored.title = "" then "Thread " ++ numStr stored.id else stored.title),
    board := stored.board, time := stored.time, active := stored.active, closed := stored.closed,
    error := stored.error, totalImages := stored.totalImages,
    downloadedCount := (if stored.downloadedCount ≠ syncedCount then syncedCount
      else stored.downloadedCount),
    skippedImages := skipped }

/-- Lines 1632-1634: the search parameters that are loaded. -/
def loadSearchParams (stored : Option SearchParams) : SearchParams :=
  let params : SearchParams := stored.getD {}
  let path := if params.downloadPath = "" then "4chan_downloads" else params.downloadPath
  { params with downloadPath := stripSlashes path }

/-- Lines 1638-1655: the ledger that is loaded.  `new Map(entries)` keeps the last value
of a key.  The loop of line 1642 deletes an entry whose value is not an object with the two
numbers; at a value `null` the test of line 1643 throws (`typeof null` is `'object'`, and
`null.timestamp` cannot be read), and the `catch` of lines 1648-1652 replaces the whole
ledger by an empty map. -/
def loadLedger (stored : Option (List (String × StoredValue))) : List (String × LedgerEntry) :=
  match stored with
  | some entries =>
    let loaded := entries.foldl (fun m e => JSMap.set m e.1 e.2) []
    if loaded.any (fun e => decide (e.2 = StoredValue.null)) then []
    else
      loaded.filterMap (fun e =>
        match e.2 with
        | StoredValue.entry v => some (e.1, v)
        | _ => none)
  | none => []

/-- The function `cleanupOldDownloads`. -/
def cleanupOldDownloads (now : Int) (s : State) : State :=
  let oneWeekAgo := now - 7 * 24 * 60 * 60 * 1000
  { s with downloadedImages := s.downloadedImages.filter (fun e => !decide (e.2.timestamp < oneWeekAgo)) }

/-- The function `initializeState`; the stores it does not load keep their values. -/
def initializeState (now : Int) (s : State) (stored : Stored) : State :=
  let ws := (stored.watchedThreads.getD []).map loadThread
  let actualRunning := someActive ws
  let running := if stored.isRunning ≠ actualRunning then actualRunning else stored.isRunning
  let loaded : State :=
    { s with isInitialized := false, watchedThreads := ws,
             lastSearchParams := loadSearchParams stored.lastSearchParams,
             downloadedImages := loadLedger stored.downloadedImages, isRunning := running }
  let saved := updateWatchedThreads loaded
  cleanupOldDownloads now { saved with isInitialized := true }

/-- A state whose run flag is still set while its only thread is closed. -/
def staleRunning : State :=
  { isRunning := true, isInitialized := true, watchedThreads := [{ id := 7, closed := true }] }

/-- A running state with one active and one paused thread. -/
def pairState : State :=
  { isRunning := true, isInitialized := true,
    watchedThreads := [{ id := 7, active := true }, { id := 8 }] }

/-! ## The lock of `downloadImage` under interleaving (lines 112-118 and 248-251)

Several calls of `downloadImage` for one download key run as tasks that interleave at
their `await`s.  A task runs from one `await` to the next without interruption, so an
execution is a sequence of events, each of which lets one call run until it suspends or
returns. -/

/-- Where a call of `downloadImage` stands: not made yet; suspended at line 114 on the
promise with the given number; past line 118 with its own promise and suspended at an
`await` of the `try` block (a transfer or a backoff wait); or returned. -/
inductive CallPhase where
  | notCalled : CallPhase
  | waiting : Nat → CallPhase
  | holding : Nat → CallPhase
  | returned : CallPhase
  deriving DecidableEq

/-- What the lock protocol of one download key reads and writes: the promise stored in
`downloadLocks` under the key, the promises resolved so far, the number of the next
promise, and the phase of every call. -/
structure LockWorld where
  lock : Option Nat := none
  resolved : List Nat := []
  nextPromise : Nat := 0
  calls : List CallPhase
  deriving DecidableEq

/-- An event of the execution: call `i` is made and runs up to its first `await`; call
`i` resumes from line 114 after the promise it awaits was resolved; call `i` resumes in
its `try` block and runs to the end of `finally`. -/
inductive LockEvent where
  | call : Nat → LockEvent
  | wake : Nat → LockEvent
  | finish : Nat → LockEvent
  deriving DecidableEq

/-- Lines 116-118: the call creates its promise and stores it under the key, whatever is
stored there, and enters the `try` block. -/
def acquire (w : LockWorld) (i : Nat) : LockWorld :=
  { w with lock := some w.nextPromise, nextPromise := w.nextPromise + 1,
           calls := w.calls.set i (CallPhase.holding w.nextPromise) }

/-- One event.  An event that is not enabled changes nothing. -/
def lockStep (w : LockWorld) (event : LockEvent) : LockWorld :=
  match event with
  | LockEvent.call i =>
    match w.calls[i]? with
    | some CallPhase.notCalled =>
      -- lines 113-115: `if (downloadLocks.has(downloadKey)) await downloadLocks.get(downloadKey)`
      match w.lock with
      | some promise => { w with calls := w.calls.set i (CallPhase.waiting promise) }
      | none => acquire w i
    | _ => w
  | LockEvent.wake i =>
    match w.calls[i]? with
    | some (CallPhase.waiting promise) => if promise ∈ w.resolved then acquire w i else w
    | _ => w
  | LockEvent.finish i =>
    match w.calls[i]? with
    | some (CallPhase.holding promise) =>
      -- lines 249-250: `resolveLock(); downloadLocks.delete(downloadKey)`
      { w with resolved := promise :: w.resolved, lock := none,
               calls := w.calls.set i CallPhase.returned }
    | _ => w

/-- The execution of a sequence of events. -/
def lockRun (w : LockWorld) (events : List LockEvent) : LockWorld := events.foldl lockStep w

/-- The number of calls that are between lock acquisition and release. -/
def holders (w : LockWorld) : Nat :=
  (w.calls.filter (fun phase =>
    match phase with
    | CallPhase.holding _ => true
    | _ => false)).length

/-- Three calls for one download key, none made yet, and no lock. -/
def threeCalls : LockWorld :=
  { calls := [CallPhase.notCalled, CallPhase.notCalled, CallPhase.notCalled] }

/-! ## `forgetThreadDownloads` and `forgetAllDownloads` (lines 1314-1395) -/

/-- The result of `forgetThreadDownloads`: the stores afterwards and the returned value. -/
structure ForgetResult where
  state : State
  returned : Bool

/-- Lines 1323-1325 and 1372-1374: the reset of a thread. -/
def forgetReset (t : Thread) : Thread :=
  { t with skippedImages := [], downloadedCount := 0, error := false }

/-- The function `forgetThreadDownloads`; `now` is the clock when `manageThreads` is
called, a call that is not awaited. -/
def forgetThreadDownloads (now : Int) (s : State) (threadId : Int) : ForgetResult :=
  match findThread s.watchedThreads threadId with
  | none => { state := s, returned := false }
  | some thread =>
    let ws := modifyThread threadId forgetReset s.watchedThreads
    let removedCount :=
      (s.downloadedImages.filter (fun e => decide (e.2.threadId = threadId))).length
    let remainingDownloads := s.downloadedImages.filter (fun e => !decide (e.2.threadId = threadId))
    let ledger := if removedCount > 0 then remainingDownloads else s.downloadedImages
    let saved := updateWatchedThreads { s with watchedThreads := ws, downloadedImages := ledger }
    if thread.active then { state := manageThreadsKick now saved, returned := true }
    else { state := saved, returned := true }

/-- The function `forgetAllDownloads`; `now` is the clock when `manageThreads` is called,
a call that is not awaited. -/
def forgetAllDownloads (now : Int) (s : State) : State :=
  let ws := s.watchedThreads.map forgetReset
  let saved := updateWatchedThreads
    { s with downloadedImages := [], activeDownloads := [], downloadLocks := [],
             threadProgressTimers := [], watchedThreads := ws }
  if saved.isRunning then manageThreadsKick now saved else saved

/-- A registry of two paused threads with one downloaded image each, and a ledger with the
entry of each. -/
def forgetState : State :=
  { isRunning := false, isInitialized := true,
    watchedThreads :=
      [{ id := 7, totalImages := 4, downloadedCount := 1, skippedImages := ["1.jpg"] },
       { id := 8, totalImages := 5, downloadedCount := 1, skippedImages := ["a.png"] }],
    downloadedImages :=
      [("4chan_downloads/7/Anonymous/1.jpg", { timestamp := 10, threadId := 7 }),
       ("4chan_downloads/8/Anonymous/a.png", { timestamp := 11, threadId := 8 })] }

/-- A running state at the cap: five active threads with work to do, and a paused thread
that is complete (4 of 4) and still has the stuck timer that `processThread` set for it
at time 1000. -/
def cappedState : State :=
  { isRunning := true, isInitialized := true,
    watchedThreads :=
      [{ id := 1, url := "https://a.4cdn.org/g/thread/1.json", active := true, totalImages := 4 },
       { id := 2, url := "https://a.4cdn.org/g/thread/2.json", active := true, totalImages := 4 },
       { id := 3, url := "https://a.4cdn.org/g/thread/3.json", active := true, totalImages := 4 },
       { id := 4, url := "https://a.4cdn.org/g/thread/4.json", active := true, totalImages := 4 },
       { id := 5, url := "https://a.4cdn.org/g/thread/5.json", active := true, totalImages := 4 },
       { completeThread with active := false }],
    threadProgressTimers := [(7, 1000)] }

/-- The number of threads that are active, not errored and not closed. -/
def activeCount (ws : List Thread) : Nat :=
  (ws.filter (fun t => t.active && !t.error && !t.closed)).length

/-! ## `processThread` (lines 413-540) -/

/-- What the host answers during a run of `processThread`: the fetch attempts for the
thread URL, the transfer attempts for the URL of an image, the clock at line 470 and at
line 515, and the hosts of the discovery passes of line 439 and of line 537. -/
structure ProcessEnv where
  fetch : String → Nat → Option ThreadData
  transfer : String → Nat → Attempt
  timerNow : Int
  finishNow : Int
  search : SearchEnv
  searchFinally : SearchEnv

/-- The text of the template `${post.tim}${post.ext}` (line 493). -/
def postFilename (post : Post) : String :=
  (match post.tim with
    | some t => numStr (t : Int)
    | none => "undefined") ++
  (match post.ext with
    | some e => e
    | none => "undefined")

/-- Lines 444-460: the error flag is reset, the total is the number of image posts and
the count is the capped size of `skippedImages`. -/
def processSynced (currentTotalImages : Int) (t : Thread) : Thread :=
  { t with error := false, totalImages := currentTotalImages,
           downloadedCount := min (t.skippedImages.length : Int) currentTotalImages }

/-- Lines 464-475: the stuck timers after the sync of the thread `t`. -/
def processTimers (timers : List (Int × Int)) (t : Thread) (now : Int) : List (Int × Int) :=
  if t.downloadedCount < t.totalImages then JSMap.delete timers t.id
  else if t.totalImages > 0 then
    if JSMap.has timers t.id then timers else JSMap.set timers t.id now
  else JSMap.delete timers t.id

/-- Lines 492-506: the image of a post is downloaded, unless its file name is in the
`skippedImages` of the thread. -/
def imageStep (env : ProcessEnv) (s : State) (thread : Thread) (post : Post) : State :=
  let filename := postFilename post
  let imageUrl := "https://i.4cdn.org/" ++ thread.board ++ "/" ++ filename
  if filename ∈ thread.skippedImages then s
  else (downloadImage (env.transfer imageUrl) s imageUrl thread.id post.name).state

/-- The loop over the image posts (lines 485-509) for the thread object with the given
id.  The loop never removes an id from the registry, so the thread is always found. -/
def imageLoop (env : ProcessEnv) (threadId : Int) : List Post → State → State
  | [], s => s
  | post :: rest, s =>
    match findThread s.watchedThreads threadId with
    | none => s
    | some thread =>
      if !thread.active || !s.isRunning then s
      else
        let s1 := imageStep env s thread post
        match findThread s1.watchedThreads threadId with
        | none => s1
        | some after =>
          if !after.active || !s1.isRunning then s1 else imageLoop env threadId rest s1

/-- Lines 527-528: the thread is marked as errored and paused. -/
def pausedOnError (t : Thread) : Thread := { t with error := true, active := false }

/-- Lines 432-434: the thread is closed locally. -/
def closedLocally (t : Thread) : Thread := { t with closed := true, active := false, error := false }

/-- The `catch` of `processThread` (lines 525-532). -/
def processFailed (s : State) (threadId : Int) : State :=
  let paused := modifyThread threadId pausedOnError s.watchedThreads
  updateWatchedThreads { s with watchedThreads := paused }

/-- The `finally` of `processThread` (lines 533-539). -/
def processFinally (env : ProcessEnv) (s : State) (threadId : Int) : State :=
  let unmarked : State :=
    { s with activeDownloads := JSMap.delete s.activeDownloads (markerKey threadId) }
  match findThread unmarked.watchedThreads threadId with
  | none => unmarked
  | some thread =>
    if !thread.active && unmarked.isRunning then (checkForNewThreads env.searchFinally unmarked).state
    else unmarked

/-- The `try` block of `processThread` with its `catch` (lines 422-532), for the thread
object `thread`, the first registry element with its id. -/
def processBody (env : ProcessEnv) (s : State) (thread : Thread) : State :=
  match (fetchWithRetry s (env.fetch thread.url)).value with
  | none => processFailed s thread.id
  | some data =>
    match data.posts with
    | none => processFailed s thread.id
    | some [] => processFailed s thread.id
    | some (op :: rest) =>
      if op.closed || op.archived then
        let ws := modifyThread thread.id closedLocally s.watchedThreads
        let timers := JSMap.delete s.threadProgressTimers thread.id
        let saved := updateWatchedThreads { s with watchedThreads := ws, threadProgressTimers := timers }
        let unmarked : State :=
          { saved with activeDownloads := JSMap.delete saved.activeDownloads (markerKey thread.id) }
        (checkForNewThreads env.search unmarked).state
      else
        let imagePosts := (op :: rest).filter isImagePost
        let currentTotalImages : Int := (imagePosts.length : Int)
        let synced := processSynced currentTotalImages thread
        let ws := modifyThread thread.id (processSynced currentTotalImages) s.watchedThreads
        let timers := processTimers s.threadProgressTimers synced env.timerNow
        let saved := updateWatchedThreads { s with watchedThreads := ws, threadProgressTimers := timers }
        if synced.downloadedCount < synced.totalImages then
          let looped := imageLoop env thread.id imagePosts saved
          match findThread looped.watchedThreads thread.id with
          | none => looped
          | some t =>
            if t.active && decide (t.downloadedCount ≥ t.totalImages) && decide (t.totalImages > 0) then
              { looped with
                threadProgressTimers := JSMap.set looped.threadProgressTimers t.id env.finishNow }
            else looped
        else saved

/-- The function `processThread` for the thread object with the given id, run as one task
from its call to its return.  A falsy id is refused (line 414).  Thread objects are
identified by their id: the thread is the first registry element with the id, and a call
for an id that is not registered does nothing. -/
def processThread (env : ProcessEnv) (s : State) (threadId : Int) : State :=
  if threadId = 0 then s
  else
    match findThread s.watchedThreads threadId with
    | none => s
    | some thread =>
      let marked : State :=
        { s with activeDownloads := JSMap.set s.activeDownloads (markerKey threadId) ActiveValue.marker }
      processFinally env (processBody env marked thread) threadId

/-! ## A whole pass of `manageThreads` (lines 542-645) -/

/-- What the host answers during a pass of `manageThreads`: the host of the timer check,
the host of the `processThread` call for a thread id, and the host of the discovery pass of
line 633. -/
structure ManageEnv where
  tick : TickEnv
  process : Int → ProcessEnv
  finish : SearchEnv

/-- The result of a pass of `manageThreads`: the stores afterwards and the threads handed
to `processThread`, as they are when they are handed over. -/
structure ManageResult where
  state : State
  handed : List Thread

/-- The objects of the snapshot `processCandidates` of line 552 as they are in a later
registry. -/
def currentCandidates (processCandidates : List Thread) (s : State) : List Thread :=
  processCandidates.filterMap (fun t => findThread s.watchedThreads t.id)

/-- The batch of line 619 in the schedule in which the calls, all started and marked by
`threadsToProcess.map`, run to their end one after the other. -/
def processBatch (env : ManageEnv) (handed : List Thread) (s : State) : State :=
  handed.foldl (fun st t => processThread (env.process t.id) st t.id)
    { s with activeDownloads := handed.foldl markProcessing s.activeDownloads }

/-- The function `manageThreads`, run as one task from its call to its return. -/
def manageThreads (env : ManageEnv) (s : State) : ManageResult :=
  if !s.isInitialized then { state := s, handed := [] }
  else
    let processCandidates := s.watchedThreads.filter (fun t => t.active && !t.error && !t.closed)
    let checked := (timerCheck env.tick s).state
    if (MAX_CONCURRENT_THREADS : Int) - (processingCount checked.activeDownloads : Int) ≤ 0 then
      { state := checked, handed := [] }
    else
      let handed := threadsToProcess (currentCandidates processCandidates checked) checked
      { state := manageThreadsFinish env.finish (processBatch env handed checked), handed := handed }

/-! ## `resumeAllThreads` (lines 1106-1161) -/

/-- The result of `resumeAllThreads`: the stores afterwards and the returned value. -/
structure ResumeAllResult where
  state : State
  returned : Bool

/-- The loop of lines 1134-1144 over the registry: the first `slots` threads that are
paused, not errored and not closed are activated. -/
def resumeFirst : Nat → List Thread → List Thread
  | _, [] => []
  | 0, ts => ts
  | n + 1, t :: ts =>
    if !t.active && !t.error && !t.closed then
      { t with active := true, error := false } :: resumeFirst n ts
    else t :: resumeFirst (n + 1) ts

/-- The function `resumeAllThreads`.  `throttled` is the outcome of the test of line 1109
on `isResuming` and the time of the last call. -/
def resumeAllThreads (throttled : Bool) (env : ResumeEnv) (s : State) : ResumeAllResult :=
  if throttled then { state := s, returned := false }
  else
    let threadsToResume := s.watchedThreads.filter (fun t => !t.active && !t.error && !t.closed)
    let currentActiveCount :=
      (s.watchedThreads.filter (fun t => t.active && !t.error && !t.closed)).length
    let availableSlots : Int := (MAX_CONCURRENT_THREADS : Int) - (currentActiveCount : Int)
    if threadsToResume.length = 0 then
      { state := { s with isRunning := decide (currentActiveCount > 0) }, returned := false }
    else
      let resumedCount := min threadsToResume.length availableSlots.toNat
      let running : State := { s with isRunning := true }
      if resumedCount > 0 then
        let resumed : State :=
          { running with watchedThreads := resumeFirst availableSlots.toNat s.watchedThreads }
        { state := resumeActiveThreads env (updateWatchedThreads resumed), returned := true }
      else { state := running, returned := false }

/-- A discovery host whose catalog is empty. -/
def quietSearch : SearchEnv :=
  { regex := fun _ => some catTest, catalog := fun _ _ => some (some []),
    directoryExists := fun _ => false, now := 0, threadNow := fun _ => 0, tickNow := 0 }

/-- A host of `processThread` whose fetches all fail. -/
def failingHost : ProcessEnv :=
  { fetch := fun _ _ => none, transfer := fun _ _ => { outcome := Outcome.interrupted },
    timerNow := 0, finishNow := 0, search := quietSearch, searchFinally := quietSearch }

/-- A running state in which thread 7 is being processed, next to a paused thread 8. -/
def failingState : State :=
  { isRunning := true, isInitialized := true,
    watchedThreads :=
      [{ id := 7, url := "https://a.4cdn.org/g/thread/7.json", active := true, totalImages := 4,
         downloadedCount := 1, skippedImages := ["1.jpg"] },
       { id := 8, totalImages := 5, downloadedCount := 1, skippedImages := ["a.png"] }],
    activeDownloads := [("7-processing", ActiveValue.marker)] }

/-- A watched thread that is closed and not active: the first registry element with the
id `k` has `closed = true` and `active = false`. -/
def ClosedThread (ws : List Thread) (k : Int) : Prop :=
  ∃ t, findThread ws k = some t ∧ t.closed = true ∧ t.active = false

/-- A host of `manageThreads` six minutes after time 1000: every thread fetch answers with
four image posts, every transfer completes, and the catalog is empty. -/
def steadyHost : ManageEnv :=
  { tick := tickHost 4,
    process := fun _ =>
      { fetch := fun _ _ => some { posts := some (imagePosts 4) },
        transfer := fun _ _ => { outcome := Outcome.complete, now := 361000 },
        timerNow := 361000, finishNow := 361000, search := quietSearch,
        searchFinally := quietSearch },
    finish := quietSearch }

/-- The thread `completeThread` after `forgetThreadDownloads`. -/
def forgottenThread : Thread :=
  { completeThread with downloadedCount := 0, skippedImages := [] }

/-- The state `completeState` after `forgetThreadDownloads(7)` at a time when the stuck
timer of the thread has expired: the thread has work to do (0 of 4), its timer is still
set, and the `manageThreads` call started by the command has not passed its first
`await`. -/
def forgottenState : State := (forgetThreadDownloads 361000 completeState 7).state

/-! ## `initializeState` on a persisted registry of any shape (lines 1592-1626) -/

/-- The stored value of `watchedThreads` by its shape: missing or falsy; a truthy value
that is not an array (a number, a string, `true`, a plain object), which has no `forEach`;
or an array, an element of which is `none` when it is `null` or a primitive value and the
stored thread otherwise. -/
inductive StoredRegistry where
  | missing : StoredRegistry
  | notArray : StoredRegistry
  | array : List (Option StoredThread) → StoredRegistry

/-- The function `initializeState` for a stored registry of any shape; `stored` holds the
other keys of the record.  The result is `none` when the function throws: line 1594 calls
`forEach` of a value that has none, or the callback reads a property of `null` (line 1596)
or, for a primitive value, on which an assignment sets nothing, the `size` of a missing
`skippedImages` (line 1619).  Nothing catches these errors, and `isInitialized` keeps the
value `false` of line 1589. -/
def initializeStateRaw (now : Int) (s : State) (registry : StoredRegistry) (stored : Stored) :
    Option State :=
  match registry with
  | StoredRegistry.missing => some (initializeState now s { stored with watchedThreads := none })
  | StoredRegistry.notArray => none
  | StoredRegistry.array elements =>
    if elements.all Option.isSome then
      some (initializeState now s
        { stored with watchedThreads := some (elements.filterMap (fun e => e)) })
    else none

/-- The state `cappedState` before the retry of thread 7: the thread is complete and paused
with `error = true`, as the `catch` of `resumeActiveThreads` leaves a thread whose fetch
failed, and its stuck timer is still set. -/
def erroredAtCap : State :=
  { cappedState with
    watchedThreads :=
      [{ id := 1, url := "https://a.4cdn.org/g/thread/1.json", active := true, totalImages := 4 },
       { id := 2, url := "https://a.4cdn.org/g/thread/2.json", active := true, totalImages := 4 },
       { id := 3, url := "https://a.4cdn.org/g/thread/3.json", active := true, totalImages := 4 },
       { id := 4, url := "https://a.4cdn.org/g/thread/4.json", active := true, totalImages := 4 },
       { id := 5, url := "https://a.4cdn.org/g/thread/5.json", active := true, totalImages := 4 },
       { completeThread with active := false, error := true }] }

/-! # Theorems

## The registry and `updateWatchedThreads` -/

theorem mem_dedupLoop (ws : List Thread) :
    ∀ (seen : List Int) (acc : List Thread) (t : Thread),
      t ∈ dedupLoop ws seen acc → t ∈ acc ∨ t ∈ ws := by
  induction ws with
  | nil => intro seen acc t h; exact Or.inl h
  | cons w rest ih =>
    intro seen acc t h
    unfold dedupLoop at h
    split at h
    · rcases ih _ _ _ h with h1 | h1
      · exact Or.inl h1
      · exact Or.inr (List.mem_cons_of_mem _ h1)
    · rcases ih _ _ _ h with h1 | h1
      · rcases List.mem_append.mp h1 with h2 | h2
        · exact Or.inl h2
        · right
          rw [List.mem_singleton] at h2
          rw [h2]
          exact List.mem_cons_self _ _
      · exact Or.inr (List.mem_cons_of_mem _ h1)

theorem mem_deduplicate (ws : List Thread) (t : Thread)
    (h : t ∈ (deduplicateWatchedThreads ws).1) : t ∈ ws := by
  unfold deduplicateWatchedThreads at h
  simp only at h
  split at h
  · rcases mem_dedupLoop ws [] [] t h with h1 | h1
    · simp at h1
    · exact h1
  · exact h

theorem recount_count (t : Thread) :
    (recount t).downloadedCount = min (t.skippedImages.length : Int) t.totalImages := by
  unfold recount
  simp only
  split
  · rfl
  · rename_i h
    simpa using h

theorem recount_skipped (t : Thread) : (recount t).skippedImages = t.skippedImages := by
  unfold recount; simp only; split <;> rfl

theorem recount_total (t : Thread) : (recount t).totalImages = t.totalImages := by
  unfold recount; simp only; split <;> rfl

theorem recount_id (t : Thread) : (recount t).id = t.id := by
  unfold recount; simp only; split <;> rfl

theorem recount_active (t : Thread) : (recount t).active = t.active := by
  unfold recount; simp only; split <;> rfl

theorem recount_error (t : Thread) : (recount t).error = t.error := by
  unfold recount; simp only; split <;> rfl

theorem recount_closed (t : Thread) : (recount t).closed = t.closed := by
  unfold recount; simp only; split <;> rfl

theorem progressInv_recount (t : Thread) (h : 0 ≤ t.totalImages) : ProgressInv (recount t) := by
  unfold ProgressInv
  rw [recount_count, recount_skipped, recount_total]
  refine ⟨?_, ?_, rfl⟩
  · exact le_min (Int.ofNat_nonneg _) h
  · exact min_le_right _ _

theorem mem_updateWatchedThreads (s : State) (t : Thread)
    (h : t ∈ (updateWatchedThreads s).watchedThreads) :
    ∃ u ∈ s.watchedThreads, t = recount u := by
  unfold updateWatchedThreads at h
  simp only [List.mem_map] at h
  obtain ⟨u, hu, rfl⟩ := h
  exact ⟨u, mem_deduplicate _ _ hu, rfl⟩

theorem progressInv_update (s : State) (h : ∀ t ∈ s.watchedThreads, 0 ≤ t.totalImages) :
    ∀ t ∈ (updateWatchedThreads s).watchedThreads, ProgressInv t := by
  intro t ht
  obtain ⟨u, hu, rfl⟩ := mem_updateWatchedThreads s t ht
  exact progressInv_recount u (h u hu)

theorem syncThread_total (ledger : List (String × LedgerEntry)) (t : Thread) :
    (syncThread ledger t).1.totalImages = t.totalImages := by
  unfold syncThread; simp only; split <;> rfl

theorem syncThread_unchanged_inv (ledger : List (String × LedgerEntry)) (t : Thread)
    (h : 0 ≤ t.totalImages) (hc : (syncThread ledger t).2 = false) :
    ProgressInv (syncThread ledger t).1 := by
  unfold syncThread at hc ⊢
  simp only at hc ⊢
  split at hc
  · simp at hc
  · rename_i hne
    simp only [not_or, not_not] at hne
    rw [if_neg (by simp only [not_or, not_not]; exact hne)]
    unfold ProgressInv
    simp only
    rw [max_eq_right h] at hne
    refine ⟨?_, ?_, hne.1⟩
    · rw [hne.1]; exact le_min (Int.ofNat_nonneg _) h
    · rw [hne.1]; exact min_le_right _ _

theorem progressInv_syncThreadCounts (s : State) (h : ∀ t ∈ s.watchedThreads, 0 ≤ t.totalImages) :
    ∀ t ∈ (syncThreadCounts s).watchedThreads, ProgressInv t := by
  intro t ht
  unfold syncThreadCounts at ht
  simp only at ht
  split at ht
  · refine progressInv_update _ ?_ t ht
    intro u hu
    simp only [List.map_map, List.mem_map, Function.comp] at hu
    obtain ⟨v, hv, rfl⟩ := hu
    rw [syncThread_total]
    exact h v hv
  · rename_i hany
    simp only [List.map_map, List.mem_map, Function.comp] at ht
    obtain ⟨v, hv, rfl⟩ := ht
    apply syncThread_unchanged_inv _ _ (h v hv)
    simp only [List.any_eq_true, List.mem_map, not_exists, not_and, Bool.not_eq_true] at hany
    exact hany _ ⟨v, hv, rfl⟩

theorem findThread_append (xs ys : List Thread) (k : Int) :
    findThread (xs ++ ys) k = (findThread xs k).or (findThread ys k) := by
  unfold findThread
  induction xs with
  | nil => simp
  | cons x xs ih =>
    simp only [List.cons_append, List.find?_cons]
    split
    · simp
    · exact ih

theorem findThread_isSome_iff (ws : List Thread) (k : Int) :
    (findThread ws k).isSome = true ↔ ∃ t ∈ ws, t.id = k := by
  unfold findThread
  simp [List.find?_isSome]

theorem findThread_some_id {ws : List Thread} {k : Int} {t : Thread}
    (h : findThread ws k = some t) : t.id = k := by
  unfold findThread at h
  have := List.find?_some h
  simpa using this

theorem findThread_some_mem {ws : List Thread} {k : Int} {t : Thread}
    (h : findThread ws k = some t) : t ∈ ws := by
  unfold findThread at h
  exact List.mem_of_find?_eq_some h

theorem findThread_dedupLoop (ws : List Thread) (k : Int) :
    ∀ (seen : List Int) (acc : List Thread),
      (∀ i, i ∈ seen ↔ ∃ t ∈ acc, t.id = i) →
      findThread (dedupLoop ws seen acc) k = findThread (acc ++ ws) k := by
  induction ws with
  | nil => intro seen acc _; simp [dedupLoop]
  | cons w rest ih =>
    intro seen acc hinv
    unfold dedupLoop
    split
    · rename_i hseen
      rw [ih seen acc hinv, findThread_append, findThread_append]
      by_cases hk : w.id = k
      · have hsome : (findThread acc k).isSome = true := by
          rw [findThread_isSome_iff]
          rw [← hk]
          exact (hinv w.id).mp hseen
        cases hf : findThread acc k with
        | none => rw [hf] at hsome; simp at hsome
        | some u => simp
      · congr 1
        unfold findThread
        simp [List.find?_cons, hk]
    · rename_i hseen
      rw [ih (seen ++ [w.id]) (acc ++ [w])]
      · simp
      · intro i
        simp only [List.mem_append, List.mem_singleton]
        constructor
        · rintro (h | h)
          · obtain ⟨t, ht, hid⟩ := (hinv i).mp h
            exact ⟨t, Or.inl ht, hid⟩
          · exact ⟨w, Or.inr rfl, h.symm⟩
        · rintro ⟨t, ht | ht, hid⟩
          · exact Or.inl ((hinv i).mpr ⟨t, ht, hid⟩)
          · right; rw [← hid, ht]

theorem findThread_deduplicate (ws : List Thread) (k : Int) :
    findThread (deduplicateWatchedThreads ws).1 k = findThread ws k := by
  unfold deduplicateWatchedThreads
  simp only
  split
  · rw [findThread_dedupLoop ws k [] []]
    · simp
    · intro i; simp
  · rfl

theorem findThread_map (f : Thread → Thread) (hf : ∀ t, (f t).id = t.id) (ws : List Thread)
    (k : Int) : findThread (ws.map f) k = (findThread ws k).map f := by
  unfold findThread
  induction ws with
  | nil => simp
  | cons w rest ih =>
    simp only [List.map_cons, List.find?_cons, hf]
    split
    · simp
    · exact ih

theorem findThread_update (s : State) (k : Int) :
    findThread (updateWatchedThreads s).watchedThreads k =
      (findThread s.watchedThreads k).map recount := by
  unfold updateWatchedThreads
  simp only
  rw [findThread_map recount recount_id, findThread_deduplicate]

theorem findThread_modifyThread (f : Thread → Thread) (hf : ∀ t, (f t).id = t.id)
    (ws : List Thread) (k : Int) :
    findThread (modifyThread k f ws) k = (findThread ws k).map f := by
  induction ws with
  | nil => simp [modifyThread, findThread]
  | cons w rest ih =>
    unfold modifyThread
    by_cases hk : w.id = k
    · simp [hk, findThread, List.find?_cons, hf]
    · simp only [hk, if_false]
      unfold findThread at ih ⊢
      simp only [List.find?_cons, hk, decide_False]
      exact ih


theorem JSMap.has_delete_self {α : Type} (m : List (String × α)) (k : String) :
    JSMap.has (JSMap.delete m k) k = false := by
  unfold JSMap.has JSMap.delete JSMap.keys
  simp

theorem mem_add_self (xs : List String) (x : String) : x ∈ JSSet.add xs x := by
  unfold JSSet.add
  split
  · assumption
  · simp

theorem markSkipped_id (f : String) (t : Thread) : (markSkipped f t).id = t.id := rfl

theorem markSkipped_count (f : String) (t : Thread) :
    (markSkipped f t).downloadedCount =
      min ((markSkipped f t).skippedImages.length : Int) (markSkipped f t).totalImages := rfl

theorem mem_markSkipped (f : String) (t : Thread) : f ∈ (markSkipped f t).skippedImages :=
  mem_add_self _ _

/-- The registry after a thread is marked and the registry is saved. -/
theorem findThread_update_mark (s : State) (k : Int) (f : String) (ledger : List (String × LedgerEntry)) :
    findThread (updateWatchedThreads
      { s with downloadedImages := ledger,
               watchedThreads := modifyThread k (markSkipped f) s.watchedThreads }).watchedThreads k =
      (findThread s.watchedThreads k).map (fun t => recount (markSkipped f t)) := by
  rw [findThread_update]
  simp only
  rw [findThread_modifyThread _ (markSkipped_id f)]
  rw [Option.map_map]
  rfl

theorem lock_released_aux (env : Nat → Attempt) (s : State) (url : String) (threadId : Int)
    (username : Option String) (h : findThread s.watchedThreads threadId ≠ none) :
    JSMap.has (downloadImage env s url threadId username).state.downloadLocks
      (downloadKeyOf threadId (lastSegment url)) = false := by
  unfold downloadImage
  cases hf : findThread s.watchedThreads threadId with
  | none => exact absurd hf h
  | some thread =>
    simp only
    exact JSMap.has_delete_self _ _


/-- Every run of the retry loop either fails and changes nothing but the table of
active downloads, or records one completed transfer. -/
theorem attemptLoop_cases (env : Nat → Attempt) (threadId : Int) (filename fullPath key : String) :
    ∀ (fuel i : Nat) (s : State),
      (∃ ad, (attemptLoop env threadId filename fullPath key fuel i s).state =
            { s with activeDownloads := ad } ∧
          (attemptLoop env threadId filename fullPath key fuel i s).success = false ∧
          (attemptLoop env threadId filename fullPath key fuel i s).downloaded = false) ∨
      (∃ ad j, stopped s threadId = false ∧
          (attemptLoop env threadId filename fullPath key fuel i s).state =
            recordSuccess { s with activeDownloads := ad } threadId filename fullPath (env j).now ∧
          (attemptLoop env threadId filename fullPath key fuel i s).success = true ∧
          (attemptLoop env threadId filename fullPath key fuel i s).downloaded = true) := by
  intro fuel
  induction fuel with
  | zero =>
    intro i s
    left
    exact ⟨_, rfl, rfl, rfl⟩
  | succ fuel ih =>
    intro i s
    unfold attemptLoop
    by_cases hstop : stopped s threadId = true
    · left
      rw [if_pos hstop]
      exact ⟨_, rfl, rfl, rfl⟩
    · rw [if_neg hstop]
      have hstop' : stopped s threadId = false := by simpa using hstop
      simp only
      cases hout : (env i).outcome with
      | complete =>
        right
        exact ⟨_, i, hstop', rfl, rfl, rfl⟩
      | initFailed =>
        simp only [if_true]
        split
        · rcases ih (i + 1) { s with activeDownloads := JSMap.delete s.activeDownloads key } with
            ⟨ad, h1, h2, h3⟩ | ⟨ad, j, h0, h1, h2, h3⟩
          · left; exact ⟨ad, h1, h2, h3⟩
          · right; exact ⟨ad, j, hstop', h1, h2, h3⟩
        · split
          · left; exact ⟨_, rfl, rfl, rfl⟩
          · rcases ih (i + 1) { s with activeDownloads := JSMap.delete s.activeDownloads key } with
              ⟨ad, h1, h2, h3⟩ | ⟨ad, j, h0, h1, h2, h3⟩
            · left; exact ⟨ad, h1, h2, h3⟩
            · right; exact ⟨ad, j, hstop', h1, h2, h3⟩
      | interrupted =>
        simp only [if_false, reduceCtorEq]
        split
        · rcases ih (i + 1) _ with ⟨ad, h1, h2, h3⟩ | ⟨ad, j, h0, h1, h2, h3⟩
          · left; exact ⟨ad, h1, h2, h3⟩
          · right; exact ⟨ad, j, hstop', h1, h2, h3⟩
        · split
          · left; exact ⟨_, rfl, rfl, rfl⟩
          · rcases ih (i + 1) _ with ⟨ad, h1, h2, h3⟩ | ⟨ad, j, h0, h1, h2, h3⟩
            · left; exact ⟨ad, h1, h2, h3⟩
            · right; exact ⟨ad, j, hstop', h1, h2, h3⟩
      | timedOut =>
        simp only [if_false, reduceCtorEq]
        split
        · rcases ih (i + 1) _ with ⟨ad, h1, h2, h3⟩ | ⟨ad, j, h0, h1, h2, h3⟩
          · left; exact ⟨ad, h1, h2, h3⟩
          · right; exact ⟨ad, j, hstop', h1, h2, h3⟩
        · split
          · left; exact ⟨_, rfl, rfl, rfl⟩
          · rcases ih (i + 1) _ with ⟨ad, h1, h2, h3⟩ | ⟨ad, j, h0, h1, h2, h3⟩
            · left; exact ⟨ad, h1, h2, h3⟩
            · right; exact ⟨ad, j, hstop', h1, h2, h3⟩


@[simp] theorem lockedState_watchedThreads (s : State) (k : String) :
    (lockedState s k).watchedThreads = s.watchedThreads := rfl

@[simp] theorem lockedState_downloadedImages (s : State) (k : String) :
    (lockedState s k).downloadedImages = s.downloadedImages := rfl

@[simp] theorem lockedState_isRunning (s : State) (k : String) :
    (lockedState s k).isRunning = s.isRunning := rfl

@[simp] theorem lockedState_lastSearchParams (s : State) (k : String) :
    (lockedState s k).lastSearchParams = s.lastSearchParams := rfl

theorem downloadImage_eq (env : Nat → Attempt) (s : State) (url : String) (threadId : Int)
    (username : Option String) (thread : Thread)
    (hfind : findThread s.watchedThreads threadId = some thread) :
    downloadImage env s url threadId username =
      { downloadLocked env (lockedState s (downloadKeyOf threadId (lastSegment url))) thread threadId
          (lastSegment url) (getFullPath s.lastSearchParams threadId username (lastSegment url))
          (downloadKeyOf threadId (lastSegment url)) with
        state :=
          { (downloadLocked env (lockedState s (downloadKeyOf threadId (lastSegment url))) thread threadId
              (lastSegment url) (getFullPath s.lastSearchParams threadId username (lastSegment url))
              (downloadKeyOf threadId (lastSegment url))).state with
            downloadLocks := JSMap.delete
              (downloadLocked env (lockedState s (downloadKeyOf threadId (lastSegment url))) thread threadId
                (lastSegment url) (getFullPath s.lastSearchParams threadId username (lastSegment url))
                (downloadKeyOf threadId (lastSegment url))).state.downloadLocks
              (downloadKeyOf threadId (lastSegment url)) } } := by
  unfold downloadImage
  rw [hfind]

theorem short_circuit_aux (env : Nat → Attempt) (s : State) (url : String) (threadId : Int)
    (username : Option String) (thread : Thread)
    (hfind : findThread s.watchedThreads threadId = some thread)
    (hknown : JSMap.has s.downloadedImages
        (getFullPath s.lastSearchParams threadId username (lastSegment url)) = true ∨
      lastSegment url ∈ thread.skippedImages) :
    (downloadImage env s url threadId username).transfers = 0 ∧
    (downloadImage env s url threadId username).state.downloadedImages = s.downloadedImages ∧
    (downloadImage env s url threadId username).success = true ∧
    (downloadImage env s url threadId username).downloaded = false ∧
    (lastSegment url ∈ thread.skippedImages →
      (downloadImage env s url threadId username).state.watchedThreads = s.watchedThreads) ∧
    (lastSegment url ∉ thread.skippedImages →
      findThread (downloadImage env s url threadId username).state.watchedThreads threadId =
        some (recount (markSkipped (lastSegment url) thread))) := by
  rw [downloadImage_eq env s url threadId username thread hfind]
  unfold downloadLocked
  by_cases hsk : lastSegment url ∈ thread.skippedImages
  · simp [hsk]
  · have hled : JSMap.has s.downloadedImages
        (getFullPath s.lastSearchParams threadId username (lastSegment url)) = true := by
      rcases hknown with h | h
      · exact h
      · exact absurd h hsk
    refine ⟨?_, ?_, ?_, ?_, ?_, ?_⟩
    · simp [hled, hsk]
    · simp [hled, hsk, updateWatchedThreads]
    · simp [hled, hsk]
    · simp [hled, hsk]
    · intro h; exact absurd h hsk
    · intro _
      have := findThread_update_mark (lockedState s (downloadKeyOf threadId (lastSegment url)))
        threadId (lastSegment url) s.downloadedImages
      simp only [lockedState_downloadedImages, lockedState_watchedThreads, hled, hsk, decide_False,
        Bool.or_false, if_true, Bool.not_false]
      simp only [lockedState_watchedThreads] at this
      simp only [updateWatchedThreads] at this ⊢
      rw [this, hfind]
      rfl


theorem stopped_activeDownloads (s : State) (ad : List (String × ActiveValue)) (threadId : Int) :
    stopped { s with activeDownloads := ad } threadId = stopped s threadId := rfl

theorem stopped_false_of (s : State) (threadId : Int) (thread : Thread)
    (hfind : findThread s.watchedThreads threadId = some thread) (hactive : thread.active = true)
    (hrun : s.isRunning = true) : stopped s threadId = false := by
  unfold stopped
  rw [hfind]
  simp [hactive, hrun]

/-- When every attempt is interrupted the loop uses up its budget and fails. -/
theorem attemptLoop_all_interrupted (env : Nat → Attempt) (threadId : Int)
    (filename fullPath key : String) (hint : ∀ i, (env i).outcome = Outcome.interrupted) :
    ∀ (fuel i : Nat) (s : State), stopped s threadId = false → i + fuel = MAX_RETRIES →
      (attemptLoop env threadId filename fullPath key fuel i s).transfers = MAX_RETRIES ∧
      (attemptLoop env threadId filename fullPath key fuel i s).success = false ∧
      (attemptLoop env threadId filename fullPath key fuel i s).downloaded = false ∧
      ∃ ad, (attemptLoop env threadId filename fullPath key fuel i s).state =
        { s with activeDownloads := ad } := by
  intro fuel
  induction fuel with
  | zero =>
    intro i s _ hi
    simp only [Nat.add_zero] at hi
    exact ⟨hi, rfl, rfl, _, rfl⟩
  | succ fuel ih =>
    intro i s hstop hi
    unfold attemptLoop
    rw [if_neg (by simp [hstop])]
    simp only [hint i, if_false, reduceCtorEq]
    have hnext := ih (i + 1)
      { s with activeDownloads := JSMap.delete (JSMap.delete
          (JSMap.set s.activeDownloads key (ActiveValue.download (env i).downloadId)) key) key }
      hstop (by omega)
    have hstop2 : ¬ stopped s threadId = true := by simp [hstop]
    split
    · exact hnext
    · split
      · rename_i h
        exact absurd h hstop2
      · exact hnext

theorem retry_exhaustion_aux (env : Nat → Attempt) (s : State) (url : String) (threadId : Int)
    (username : Option String) (thread : Thread)
    (hfind : findThread s.watchedThreads threadId = some thread)
    (hactive : thread.active = true) (hrun : s.isRunning = true)
    (hledger : JSMap.has s.downloadedImages
      (getFullPath s.lastSearchParams threadId username (lastSegment url)) = false)
    (hskip : lastSegment url ∉ thread.skippedImages)
    (hint : ∀ i, (env i).outcome = Outcome.interrupted) :
    (downloadImage env s url threadId username).transfers = MAX_RETRIES ∧
    (downloadImage env s url threadId username).success = false ∧
    (downloadImage env s url threadId username).downloaded = false ∧
    (downloadImage env s url threadId username).state.watchedThreads = s.watchedThreads ∧
    (downloadImage env s url threadId username).state.downloadedImages = s.downloadedImages := by
  rw [downloadImage_eq env s url threadId username thread hfind]
  unfold downloadLocked
  simp only [lockedState_downloadedImages, hledger, hskip, decide_False, Bool.or_false,
    Bool.false_eq_true, if_false, hactive, Bool.not_true]
  obtain ⟨h1, h2, h3, ad, h4⟩ := attemptLoop_all_interrupted env threadId (lastSegment url)
    (getFullPath s.lastSearchParams threadId username (lastSegment url))
    (downloadKeyOf threadId (lastSegment url)) hint MAX_RETRIES 0
    (lockedState s (downloadKeyOf threadId (lastSegment url)))
    (stopped_false_of _ threadId thread (by simpa using hfind) hactive (by simpa using hrun))
    (by simp)
  refine ⟨h1, h2, h3, ?_, ?_⟩
  · simp only [h4]; rfl
  · simp only [h4]; rfl


/-! ## The ledger -/

theorem JSMap.mem_keys_set {α : Type} (m : List (String × α)) (k : String) (v : α) :
    k ∈ JSMap.keys (JSMap.set m k v) := by
  unfold JSMap.set
  split
  · rename_i h
    unfold JSMap.keys at h ⊢
    simp only [List.mem_map] at h ⊢
    obtain ⟨e, he, hk⟩ := h
    exact ⟨(k, v), ⟨e, he, by simp [hk]⟩, rfl⟩
  · simp [JSMap.keys]

theorem JSMap.length_set_le {α : Type} (m : List (String × α)) (k : String) (v : α) :
    (JSMap.set m k v).length ≤ m.length + 1 := by
  unfold JSMap.set
  split <;> simp

theorem JSMap.length_set_of_not_mem {α : Type} (m : List (String × α)) (k : String) (v : α)
    (h : k ∉ JSMap.keys m) : JSMap.set m k v = m ++ [(k, v)] := by
  unfold JSMap.set
  rw [if_neg h]

theorem JSMap.length_delete_lt {α : Type} (m : List (String × α)) (k : String)
    (h : k ∈ JSMap.keys m) : (JSMap.delete m k).length < m.length := by
  unfold JSMap.keys at h
  simp only [List.mem_map] at h
  obtain ⟨e, he, hk⟩ := h
  unfold JSMap.delete
  apply List.length_filter_lt_length_iff_exists.mpr
  exact ⟨e, he, by simp [hk]⟩

theorem JSMap.delete_of_not_mem {α : Type} (m : List (String × α)) (k : String)
    (h : k ∉ JSMap.keys m) : JSMap.delete m k = m := by
  unfold JSMap.delete
  rw [List.filter_eq_self]
  intro e he
  simp only [ne_eq, decide_not, Bool.not_eq_true', decide_eq_false_iff_not]
  intro hk
  exact h (by unfold JSMap.keys; exact List.mem_map.mpr ⟨e, he, hk⟩)

theorem JSMap.length_le_delete_succ {α : Type} (m : List (String × α)) (k : String)
    (h : (JSMap.keys m).Nodup) : m.length ≤ (JSMap.delete m k).length + 1 := by
  induction m with
  | nil => simp
  | cons e m ih =>
    unfold JSMap.keys at h
    simp only [List.map_cons, List.nodup_cons] at h
    by_cases hk : e.1 = k
    · have hnot : k ∉ JSMap.keys m := by rw [← hk]; exact h.1
      have h1 : JSMap.delete (e :: m) k = JSMap.delete m k := by
        unfold JSMap.delete
        simp [List.filter_cons, hk]
      rw [h1, JSMap.delete_of_not_mem m k hnot]
      simp
    · have h1 : JSMap.delete (e :: m) k = e :: JSMap.delete m k := by
        unfold JSMap.delete
        simp [List.filter_cons, hk]
      rw [h1]
      have := ih h.2
      simp only [List.length_cons]
      omega

theorem head_sorted_mem (ledger : List (String × LedgerEntry)) (oldest : String × LedgerEntry)
    (h : (ledger.insertionSort (fun a b => a.2.timestamp ≤ b.2.timestamp)).head? = some oldest) :
    oldest ∈ ledger := by
  have h1 : oldest ∈ ledger.insertionSort (fun a b => a.2.timestamp ≤ b.2.timestamp) :=
    List.mem_of_mem_head? h
  exact (List.perm_insertionSort _ ledger).mem_iff.mp h1

theorem size_evictOldest_le (ledger : List (String × LedgerEntry))
    (h : JSMap.size ledger ≤ MAX_DOWNLOADED_IMAGES + 1) :
    JSMap.size (evictOldest ledger) ≤ MAX_DOWNLOADED_IMAGES := by
  unfold evictOldest
  split
  · rename_i hgt
    split
    · rename_i oldest hhead
      have hmem := head_sorted_mem ledger oldest hhead
      have hlt := JSMap.length_delete_lt ledger oldest.1
        (by unfold JSMap.keys; exact List.mem_map.mpr ⟨oldest, hmem, rfl⟩)
      unfold JSMap.size at h ⊢
      omega
    · rename_i hhead
      have hnil : ledger.insertionSort (fun a b => a.2.timestamp ≤ b.2.timestamp) = [] := by
        simpa using hhead
      have hlen := (List.perm_insertionSort (fun a b : String × LedgerEntry =>
        a.2.timestamp ≤ b.2.timestamp) ledger).length_eq
      rw [hnil] at hlen
      unfold JSMap.size at hgt ⊢
      simp only [List.length_nil] at hlen
      omega
  · rename_i hgt
    omega

theorem size_recordDownload_le (ledger : List (String × LedgerEntry)) (fullPath : String)
    (now threadId : Int) (h : JSMap.size ledger ≤ MAX_DOWNLOADED_IMAGES) :
    JSMap.size (recordDownload ledger fullPath now threadId) ≤ MAX_DOWNLOADED_IMAGES := by
  unfold recordDownload
  apply size_evictOldest_le
  have := JSMap.length_set_le ledger fullPath { timestamp := now, threadId := threadId }
  unfold JSMap.size at h ⊢
  omega

theorem size_evictOldest_ge (ledger : List (String × LedgerEntry)) (h : (JSMap.keys ledger).Nodup) :
    JSMap.size ledger ≤ JSMap.size (evictOldest ledger) + 1 := by
  unfold evictOldest
  split
  · split
    · exact JSMap.length_le_delete_succ ledger _ h
    · omega
  · omega


theorem updateWatchedThreads_downloadedImages (s : State) :
    (updateWatchedThreads s).downloadedImages = s.downloadedImages := rfl

theorem recordSuccess_downloadedImages (s : State) (threadId : Int) (filename fullPath : String)
    (now : Int) :
    (recordSuccess s threadId filename fullPath now).downloadedImages =
      recordDownload s.downloadedImages fullPath now threadId := rfl

theorem findThread_recordSuccess (s : State) (threadId : Int) (filename fullPath : String)
    (now : Int) :
    findThread (recordSuccess s threadId filename fullPath now).watchedThreads threadId =
      (findThread s.watchedThreads threadId).map (fun t => recount (markSkipped filename t)) := by
  unfold recordSuccess
  exact findThread_update_mark s threadId filename _

/-- The ledger after any call of `downloadImage`: unchanged, or one download recorded. -/
theorem downloadImage_ledger (env : Nat → Attempt) (s : State) (url : String) (threadId : Int)
    (username : Option String) :
    (downloadImage env s url threadId username).state.downloadedImages = s.downloadedImages ∨
    ∃ now, (downloadImage env s url threadId username).state.downloadedImages =
      recordDownload s.downloadedImages
        (getFullPath s.lastSearchParams threadId username (lastSegment url)) now threadId := by
  cases hfind : findThread s.watchedThreads threadId with
  | none =>
    left
    unfold downloadImage
    rw [hfind]
  | some thread =>
    rw [downloadImage_eq env s url threadId username thread hfind]
    unfold downloadLocked
    simp only
    split
    · left
      split <;> rfl
    · split
      · left; rfl
      · rcases attemptLoop_cases env threadId (lastSegment url)
          (getFullPath s.lastSearchParams threadId username (lastSegment url))
          (downloadKeyOf threadId (lastSegment url)) MAX_RETRIES 0
          (lockedState s (downloadKeyOf threadId (lastSegment url))) with
          ⟨ad, h1, _, _⟩ | ⟨ad, j, _, h1, _, _⟩
        · left
          rw [h1]
          rfl
        · right
          refine ⟨(env j).now, ?_⟩
          rw [h1]
          rfl

/-- After a call that reports a new download the filename is in the thread's
`skippedImages`. -/
theorem downloaded_then_skipped (env : Nat → Attempt) (s : State) (url : String) (threadId : Int)
    (username : Option String)
    (h : (downloadImage env s url threadId username).downloaded = true) :
    ∃ t, findThread (downloadImage env s url threadId username).state.watchedThreads threadId =
        some t ∧ lastSegment url ∈ t.skippedImages := by
  cases hfind : findThread s.watchedThreads threadId with
  | none =>
    unfold downloadImage at h
    rw [hfind] at h
    simp at h
  | some thread =>
    rw [downloadImage_eq env s url threadId username thread hfind] at h ⊢
    unfold downloadLocked at h ⊢
    simp only at h ⊢
    split at h
    · split at h <;> simp at h
    · split at h
      · simp at h
      · rename_i h1 h2
        rw [if_neg h1, if_neg h2]
        rcases attemptLoop_cases env threadId (lastSegment url)
          (getFullPath s.lastSearchParams threadId username (lastSegment url))
          (downloadKeyOf threadId (lastSegment url)) MAX_RETRIES 0
          (lockedState s (downloadKeyOf threadId (lastSegment url))) with
          ⟨ad, _, _, h5⟩ | ⟨ad, j, _, h4, _, _⟩
        · rw [h5] at h
          simp at h
        · rw [h4]
          refine ⟨recount (markSkipped (lastSegment url) thread), ?_, ?_⟩
          · have := findThread_recordSuccess
              { lockedState s (downloadKeyOf threadId (lastSegment url)) with activeDownloads := ad }
              threadId (lastSegment url)
              (getFullPath s.lastSearchParams threadId username (lastSegment url)) (env j).now
            simp only [lockedState_watchedThreads] at this
            rw [hfind] at this
            exact this
          · rw [recount_skipped]
            exact mem_markSkipped _ _

theorem idempotent_aux (env env2 : Nat → Attempt) (s : State) (url : String) (threadId : Int)
    (username : Option String)
    (h : (downloadImage env s url threadId username).downloaded = true) :
    (downloadImage env2 (downloadImage env s url threadId username).state url threadId
        username).success = true ∧
    (downloadImage env2 (downloadImage env s url threadId username).state url threadId
        username).downloaded = false ∧
    (downloadImage env2 (downloadImage env s url threadId username).state url threadId
        username).transfers = 0 ∧
    (downloadImage env2 (downloadImage env s url threadId username).state url threadId
        username).state.downloadedImages =
      (downloadImage env s url threadId username).state.downloadedImages := by
  obtain ⟨t, hfind, hmem⟩ := downloaded_then_skipped env s url threadId username h
  obtain ⟨h1, h2, h3, h4, _, _⟩ := short_circuit_aux env2 _ url threadId username t hfind (Or.inr hmem)
  exact ⟨h3, h4, h1, h2⟩


theorem downloadImage_success (env : Nat → Attempt) (s : State) (url : String) (threadId : Int)
    (username : Option String) (thread : Thread)
    (hfind : findThread s.watchedThreads threadId = some thread)
    (hactive : thread.active = true) (hrun : s.isRunning = true)
    (hledger : JSMap.has s.downloadedImages
      (getFullPath s.lastSearchParams threadId username (lastSegment url)) = false)
    (hskip : lastSegment url ∉ thread.skippedImages)
    (hc : (env 0).outcome = Outcome.complete) :
    (downloadImage env s url threadId username).success = true ∧
    (downloadImage env s url threadId username).downloaded = true ∧
    (downloadImage env s url threadId username).transfers = 1 ∧
    (downloadImage env s url threadId username).state.downloadedImages =
      recordDownload s.downloadedImages
        (getFullPath s.lastSearchParams threadId username (lastSegment url)) (env 0).now threadId := by
  rw [downloadImage_eq env s url threadId username thread hfind]
  unfold downloadLocked
  simp only [lockedState_downloadedImages, hledger, hskip, decide_False, Bool.or_false,
    Bool.false_eq_true, if_false, hactive, Bool.not_true]
  have hstop : stopped (lockedState s (downloadKeyOf threadId (lastSegment url))) threadId = false :=
    stopped_false_of _ threadId thread (by simpa using hfind) hactive (by simpa using hrun)
  have hM : MAX_RETRIES = 2 + 1 := rfl
  rw [hM]
  unfold attemptLoop
  rw [if_neg (by simp [hstop])]
  simp only [hc]
  exact ⟨trivial, trivial, trivial, rfl⟩

theorem overfullLedger_keys_nodup : (JSMap.keys overfullLedger).Nodup := by
  unfold JSMap.keys overfullLedger
  rw [List.map_map]
  apply List.Nodup.map _ (List.nodup_range _)
  intro i j hij
  simp only [Function.comp] at hij
  have h1 := congrArg (fun s : String => s.data.length) hij
  simp only [String.data_append, List.length_append, List.length_replicate] at h1
  omega

theorem overfullLedger_size : JSMap.size overfullLedger = 18001 := by
  unfold JSMap.size overfullLedger
  simp

theorem overfullLedger_fresh :
    "4chan_downloads/7/Anonymous/1.jpg" ∉ JSMap.keys overfullLedger := by
  unfold JSMap.keys overfullLedger
  rw [List.map_map]
  intro h
  simp only [List.mem_map, Function.comp] at h
  obtain ⟨i, _, hi⟩ := h
  have h1 := congrArg (fun s : String => s.data[16]?) hi
  simp only [String.data_append] at h1
  rw [List.getElem?_append_left (by decide)] at h1
  revert h1
  decide


theorem JSMap.has_eq_false_of_not_mem {α : Type} (m : List (String × α)) (k : String)
    (h : k ∉ JSMap.keys m) : JSMap.has m k = false := by
  unfold JSMap.has
  exact decide_eq_false h

theorem overfullState_ledger : overfullState.downloadedImages = overfullLedger := by
  simp only [overfullState]

theorem overfull_path :
    getFullPath overfullState.lastSearchParams 7 none (lastSegment "https://i.4cdn.org/g/1.jpg") =
      "4chan_downloads/7/Anonymous/1.jpg" := by decide

theorem overfull_record_size (now : Int) :
    MAX_DOWNLOADED_IMAGES <
      JSMap.size (recordDownload overfullLedger "4chan_downloads/7/Anonymous/1.jpg" now 7) := by
  unfold recordDownload
  rw [JSMap.length_set_of_not_mem _ _ _ overfullLedger_fresh]
  have hnodup : (JSMap.keys (overfullLedger ++
      [("4chan_downloads/7/Anonymous/1.jpg", ({ timestamp := now, threadId := 7 } : LedgerEntry))])).Nodup := by
    unfold JSMap.keys
    rw [List.map_append]
    apply List.Nodup.append overfullLedger_keys_nodup (by simp)
    intro k hk hk2
    simp only [List.map_cons, List.map_nil, List.mem_singleton] at hk2
    rw [hk2] at hk
    exact overfullLedger_fresh hk
  have h := size_evictOldest_ge _ hnodup
  have h2 := overfullLedger_size
  unfold JSMap.size at h h2 ⊢
  rw [List.length_append, h2] at h
  unfold MAX_DOWNLOADED_IMAGES
  simp only [List.length_singleton] at h
  omega

/-! ## The claims -/

/-- C2. Idempotent materialize: when a call of `downloadImage` returns
`{success: true, downloaded: true}`, the next call with the same arguments returns
`{success: true, downloaded: false}`, starts no transfer and leaves the ledger, and so
the set of its keys, as it was. -/
theorem C2_idempotent_materialize (env env2 : Nat → Attempt) (s : State) (url : String)
    (threadId : Int) (username : Option String)
    (h : (downloadImage env s url threadId username).success = true ∧
      (downloadImage env s url threadId username).downloaded = true) :
    (downloadImage env2 (downloadImage env s url threadId username).state url threadId
        username).success = true ∧
    (downloadImage env2 (downloadImage env s url threadId username).state url threadId
        username).downloaded = false ∧
    (downloadImage env2 (downloadImage env s url threadId username).state url threadId
        username).transfers = 0 ∧
    JSMap.keys (downloadImage env2 (downloadImage env s url threadId username).state url threadId
        username).state.downloadedImages =
      JSMap.keys (downloadImage env s url threadId username).state.downloadedImages := by
  obtain ⟨h1, h2, h3, h4⟩ := idempotent_aux env env2 s url threadId username h.2
  exact ⟨h1, h2, h3, by rw [h4]⟩

/-- C3, as stated, fails: a ledger that already holds 18001 entries (pairwise distinct
keys) holds 18001 entries again after a successful `downloadImage`, because one entry
is recorded and only one is evicted. -/
theorem C3_ledger_over_capacity :
    (JSMap.keys overfullState.downloadedImages).Nodup ∧
    overfullResult.success = true ∧ overfullResult.downloaded = true ∧
    MAX_DOWNLOADED_IMAGES < JSMap.size overfullResult.state.downloadedImages := by
  have hledger : JSMap.has overfullState.downloadedImages
      (getFullPath overfullState.lastSearchParams 7 none
        (lastSegment "https://i.4cdn.org/g/1.jpg")) = false := by
    rw [overfull_path, overfullState_ledger]
    exact JSMap.has_eq_false_of_not_mem _ _ overfullLedger_fresh
  have hs := downloadImage_success (fun _ => { outcome := Outcome.complete }) overfullState
    "https://i.4cdn.org/g/1.jpg" 7 none { id := 7, active := true, totalImages := 1 }
    rfl rfl rfl hledger (by decide) rfl
  unfold overfullResult
  refine ⟨?_, hs.1, hs.2.1, ?_⟩
  · rw [overfullState_ledger]
    exact overfullLedger_keys_nodup
  · rw [hs.2.2.2, overfull_path, overfullState_ledger]
    exact overfull_record_size _

/-- C3, amended. Ledger capacity: when the ledger holds at most `MAX_DOWNLOADED_IMAGES`
(18000) entries before a call of `downloadImage`, it holds at most 18000 entries after
it, whatever the outcome of the call; in particular after the insertion of a
successful download (record the entry, then evict). -/
theorem C3_ledger_capacity (env : Nat → Attempt) (s : State) (url : String) (threadId : Int)
    (username : Option String) (h : JSMap.size s.downloadedImages ≤ MAX_DOWNLOADED_IMAGES) :
    JSMap.size (downloadImage env s url threadId username).state.downloadedImages ≤
      MAX_DOWNLOADED_IMAGES ∧
    ∀ (fullPath : String) (now : Int),
      JSMap.size (recordDownload s.downloadedImages fullPath now threadId) ≤ MAX_DOWNLOADED_IMAGES := by
  refine ⟨?_, fun fullPath now => size_recordDownload_le _ _ _ _ h⟩
  rcases downloadImage_ledger env s url threadId username with h1 | ⟨now, h1⟩
  · rw [h1]; exact h
  · rw [h1]; exact size_recordDownload_le _ _ _ _ h


/-- Witness of C2: a first download of `1.jpg` that completes. -/
theorem C2_idempotent_materialize_witness :
    ((downloadImage completingHost freshState "https://i.4cdn.org/g/1.jpg" 7 none).success = true ∧
      (downloadImage completingHost freshState "https://i.4cdn.org/g/1.jpg" 7 none).downloaded = true) ∧
    (downloadImage completingHost
        (downloadImage completingHost freshState "https://i.4cdn.org/g/1.jpg" 7 none).state
        "https://i.4cdn.org/g/1.jpg" 7 none).transfers = 0 :=
  ⟨by decide,
    (C2_idempotent_materialize completingHost completingHost freshState
      "https://i.4cdn.org/g/1.jpg" 7 none (by decide)).2.2.1⟩

/-- Witness of C3: the ledger of a fresh state is within its limit. -/
theorem C3_ledger_capacity_witness :
    JSMap.size freshState.downloadedImages ≤ MAX_DOWNLOADED_IMAGES ∧
    JSMap.size (downloadImage completingHost freshState "https://i.4cdn.org/g/1.jpg" 7
      none).state.downloadedImages ≤ MAX_DOWNLOADED_IMAGES :=
  ⟨by decide,
    (C3_ledger_capacity completingHost freshState "https://i.4cdn.org/g/1.jpg" 7 none
      (by decide)).1⟩

/-- C6. Retry exhaustion: for an active thread of a running process and a child that is
neither in the ledger nor in the thread's `skippedImages`, when every transfer attempt
is interrupted `downloadImage` makes exactly `MAX_RETRIES` (3) attempts, returns
`{success: false, downloaded: false}`, leaves the thread as it was (still active, its
`error` flag and `skippedImages` unchanged) and leaves the ledger as it was. -/
theorem C6_retry_exhaustion (env : Nat → Attempt) (s : State) (url : String) (threadId : Int)
    (username : Option String) (thread : Thread)
    (hfind : findThread s.watchedThreads threadId = some thread)
    (hactive : thread.active = true) (hrun : s.isRunning = true)
    (hledger : JSMap.has s.downloadedImages
      (getFullPath s.lastSearchParams threadId username (lastSegment url)) = false)
    (hskip : lastSegment url ∉ thread.skippedImages)
    (hint : ∀ i, (env i).outcome = Outcome.interrupted) :
    (downloadImage env s url threadId username).transfers = 3 ∧
    (downloadImage env s url threadId username).success = false ∧
    (downloadImage env s url threadId username).downloaded = false ∧
    (∃ t, findThread (downloadImage env s url threadId username).state.watchedThreads threadId =
        some t ∧ t.active = true ∧ t.error = thread.error ∧
        t.skippedImages = thread.skippedImages) ∧
    (downloadImage env s url threadId username).state.watchedThreads = s.watchedThreads ∧
    (downloadImage env s url threadId username).state.downloadedImages = s.downloadedImages := by
  obtain ⟨h1, h2, h3, h4, h5⟩ :=
    retry_exhaustion_aux env s url threadId username thread hfind hactive hrun hledger hskip hint
  refine ⟨h1, h2, h3, ⟨thread, ?_, hactive, rfl, rfl⟩, h4, h5⟩
  rw [h4]
  exact hfind

/-- Witness of C6: three interrupted attempts for `1.jpg` of thread 7. -/
theorem C6_retry_exhaustion_witness :
    (downloadImage interruptingHost freshState "https://i.4cdn.org/g/1.jpg" 7 none).transfers = 3 ∧
    (downloadImage interruptingHost freshState "https://i.4cdn.org/g/1.jpg" 7 none).success = false :=
  have h := C6_retry_exhaustion interruptingHost freshState "https://i.4cdn.org/g/1.jpg" 7 none
    { id := 7, active := true, totalImages := 2 } (by decide) (by decide) (by decide) (by decide)
    (by decide) (fun _ => rfl)
  ⟨h.1, h.2.1⟩

/-- C9. Already-done short-circuit: for a registered thread (active or not) whose count
is the capped size of its set, as every writer of the registry leaves it, and a child whose
computed path is a ledger key or whose filename is in the thread's `skippedImages`,
`downloadImage` starts no transfer, leaves the ledger unchanged and returns
`{success: true, downloaded: false}`; afterwards the filename is in `skippedImages` and
`downloadedCount = min(|skippedImages|, totalImages)`.  When the filename was already in
`skippedImages` the registry is not touched at all. -/
theorem C9_already_done_short_circuit (env : Nat → Attempt) (s : State) (url : String)
    (threadId : Int) (username : Option String) (thread : Thread)
    (hfind : findThread s.watchedThreads threadId = some thread)
    (hcount : thread.downloadedCount = min (thread.skippedImages.length : Int) thread.totalImages)
    (hknown : JSMap.has s.downloadedImages
        (getFullPath s.lastSearchParams threadId username (lastSegment url)) = true ∨
      lastSegment url ∈ thread.skippedImages) :
    (downloadImage env s url threadId username).transfers = 0 ∧
    (downloadImage env s url threadId username).state.downloadedImages = s.downloadedImages ∧
    (downloadImage env s url threadId username).success = true ∧
    (downloadImage env s url threadId username).downloaded = false ∧
    (lastSegment url ∈ thread.skippedImages →
      (downloadImage env s url threadId username).state.watchedThreads = s.watchedThreads) ∧
    ∃ t, findThread (downloadImage env s url threadId username).state.watchedThreads threadId =
        some t ∧ lastSegment url ∈ t.skippedImages ∧
      t.downloadedCount = min (t.skippedImages.length : Int) t.totalImages := by
  obtain ⟨h1, h2, h3, h4, h5, h6⟩ := short_circuit_aux env s url threadId username thread hfind hknown
  refine ⟨h1, h2, h3, h4, h5, ?_⟩
  by_cases hsk : lastSegment url ∈ thread.skippedImages
  · refine ⟨thread, ?_, hsk, hcount⟩
    rw [h5 hsk]; exact hfind
  · refine ⟨recount (markSkipped (lastSegment url) thread), h6 hsk, ?_, ?_⟩
    · rw [recount_skipped]; exact mem_markSkipped _ _
    · rw [recount_count, recount_skipped, recount_total]

/-- Witness of C9: the ledger knows the file, the thread does not. -/
theorem C9_already_done_short_circuit_witness :
    findThread knownState.watchedThreads 7 = some { id := 7, active := true, totalImages := 2 } ∧
    JSMap.has knownState.downloadedImages
      (getFullPath knownState.lastSearchParams 7 none (lastSegment "https://i.4cdn.org/g/1.jpg")) = true ∧
    (downloadImage completingHost knownState "https://i.4cdn.org/g/1.jpg" 7 none).transfers = 0 :=
  ⟨by decide, by decide,
    (C9_already_done_short_circuit completingHost knownState "https://i.4cdn.org/g/1.jpg" 7 none
      { id := 7, active := true, totalImages := 2 } (by decide) (by decide)
      (Or.inl (by decide))).1⟩

/-- C10. Lock release on every exit path: for every call of `downloadImage` that
resolves its owning thread, whatever the host answers and whatever the outcome,
`downloadLocks` has no entry for the key `threadId-filename` when the call returns. -/
theorem C10_lock_released (env : Nat → Attempt) (s : State) (url : String) (threadId : Int)
    (username : Option String) (h : findThread s.watchedThreads threadId ≠ none) :
    JSMap.has (downloadImage env s url threadId username).state.downloadLocks
      (downloadKeyOf threadId (lastSegment url)) = false :=
  lock_released_aux env s url threadId username h

/-- Witness of C10: a call whose attempts are all interrupted. -/
theorem C10_lock_released_witness :
    findThread freshState.watchedThreads 7 ≠ none ∧
    JSMap.has (downloadImage interruptingHost freshState "https://i.4cdn.org/g/1.jpg" 7
      none).state.downloadLocks (downloadKeyOf 7 (lastSegment "https://i.4cdn.org/g/1.jpg")) = false :=
  ⟨by decide, C10_lock_released interruptingHost freshState "https://i.4cdn.org/g/1.jpg" 7 none
    (by decide)⟩


/-! ## The processing markers -/

theorem JSMap.keys_set_of_mem {α : Type} (m : List (String × α)) (k : String) (v : α)
    (h : k ∈ JSMap.keys m) : JSMap.keys (JSMap.set m k v) = JSMap.keys m := by
  unfold JSMap.set
  rw [if_pos h]
  unfold JSMap.keys
  rw [List.map_map]
  apply List.map_congr_left
  intro e _
  simp only [Function.comp]
  split
  · rename_i hk; exact hk.symm
  · rfl

theorem JSMap.keys_set_of_not_mem {α : Type} (m : List (String × α)) (k : String) (v : α)
    (h : k ∉ JSMap.keys m) : JSMap.keys (JSMap.set m k v) = JSMap.keys m ++ [k] := by
  unfold JSMap.set
  rw [if_neg h]
  simp [JSMap.keys]

theorem processingCount_set_le (ad : List (String × ActiveValue)) (k : String) (v : ActiveValue) :
    processingCount (JSMap.set ad k v) ≤ processingCount ad + 1 := by
  unfold processingCount
  by_cases h : k ∈ JSMap.keys ad
  · rw [JSMap.keys_set_of_mem ad k v h]
    omega
  · rw [JSMap.keys_set_of_not_mem ad k v h, List.filter_append, List.length_append]
    have := List.length_filter_le (fun k => endsWith k "-processing") [k]
    simp only [List.length_singleton] at this
    omega

theorem processingCount_set_other (ad : List (String × ActiveValue)) (k : String) (v : ActiveValue)
    (hk : endsWith k "-processing" = false) :
    processingCount (JSMap.set ad k v) = processingCount ad := by
  unfold processingCount
  by_cases h : k ∈ JSMap.keys ad
  · rw [JSMap.keys_set_of_mem ad k v h]
  · rw [JSMap.keys_set_of_not_mem ad k v h, List.filter_append]
    simp [List.filter_cons, hk]

theorem processingCount_sublist (ad ad2 : List (String × ActiveValue))
    (h : List.Sublist ad2 ad) : processingCount ad2 ≤ processingCount ad := by
  unfold processingCount JSMap.keys
  exact ((h.map Prod.fst).filter _).length_le

theorem processingCount_markProcessing (ad : List (String × ActiveValue)) (t : Thread) :
    processingCount (markProcessing ad t) ≤ processingCount ad + 1 := by
  unfold markProcessing
  split
  · omega
  · exact processingCount_set_le _ _ _

theorem processingCount_foldl_mark (ts : List Thread) :
    ∀ ad : List (String × ActiveValue),
      processingCount (ts.foldl markProcessing ad) ≤ processingCount ad + ts.length := by
  induction ts with
  | nil => intro ad; simp
  | cons t ts ih =>
    intro ad
    simp only [List.foldl_cons, List.length_cons]
    have h1 := ih (markProcessing ad t)
    have h2 := processingCount_markProcessing ad t
    omega

theorem length_threadsToProcess_le (cands : List Thread) (s : State) :
    (threadsToProcess cands s).length ≤
      MAX_CONCURRENT_THREADS - processingCount s.activeDownloads := by
  unfold threadsToProcess
  simp only
  split
  · simp
  · rw [List.length_take]
    have : ((MAX_CONCURRENT_THREADS : Int) - (processingCount s.activeDownloads : Int)).toNat =
        MAX_CONCURRENT_THREADS - processingCount s.activeDownloads := by omega
    rw [this]
    exact Nat.min_le_left _ _

theorem processingCount_dispatchStep (cands : List Thread) (s : State) :
    processingCount (dispatchStep cands s).activeDownloads ≤
      processingCount s.activeDownloads + (threadsToProcess cands s).length := by
  unfold dispatchStep
  exact processingCount_foldl_mark _ _

theorem markerStep_cap (s s2 : State) (h : MarkerStep s s2)
    (hs : processingCount s.activeDownloads ≤ MAX_CONCURRENT_THREADS) :
    processingCount s2.activeDownloads ≤ MAX_CONCURRENT_THREADS := by
  cases h with
  | dispatch cands =>
    have h1 := processingCount_dispatchStep cands s
    have h2 := length_threadsToProcess_le cands s
    omega
  | removal _ _ hsub =>
    have := processingCount_sublist _ _ hsub
    omega
  | track _ _ key id hkey hset =>
    rw [hset, processingCount_set_other _ _ _ hkey]
    exact hs

theorem markerReach_cap (s0 s : State) (h : Relation.ReflTransGen MarkerStep s0 s)
    (h0 : processingCount s0.activeDownloads ≤ MAX_CONCURRENT_THREADS) :
    processingCount s.activeDownloads ≤ MAX_CONCURRENT_THREADS := by
  induction h with
  | refl => exact h0
  | tail _ hstep ih => exact markerStep_cap _ _ hstep ih

/-- C4. Concurrency cap: in every state reachable from a state with at most
`MAX_CONCURRENT_THREADS` (5) processing markers by dispatch steps of `manageThreads`, by
commands that remove entries of `activeDownloads`, and by the tracking of downloads,
at most 5 keys of `activeDownloads` end in `-processing`; and one dispatch step hands
at most `MAX_CONCURRENT_THREADS` minus the current marker count threads to
`processThread`, so that the count after it is again at most 5. -/
theorem C4_concurrency_cap (s0 s : State)
    (h0 : processingCount s0.activeDownloads ≤ MAX_CONCURRENT_THREADS)
    (hreach : Relation.ReflTransGen MarkerStep s0 s) :
    processingCount s.activeDownloads ≤ 5 ∧
    ∀ processCandidates : List Thread,
      (threadsToProcess processCandidates s).length ≤ 5 - processingCount s.activeDownloads ∧
      processingCount (dispatchStep processCandidates s).activeDownloads ≤
        processingCount s.activeDownloads + (threadsToProcess processCandidates s).length ∧
      processingCount (dispatchStep processCandidates s).activeDownloads ≤ 5 := by
  have hcap := markerReach_cap s0 s hreach h0
  refine ⟨hcap, fun cands => ?_⟩
  have h1 := processingCount_dispatchStep cands s
  have h2 := length_threadsToProcess_le cands s
  have hM : MAX_CONCURRENT_THREADS = 5 := rfl
  rw [hM] at h2 hcap
  exact ⟨h2, h1, by omega⟩

/-- Witness of C4: from four markers a dispatch step of three idle threads marks one
thread, and the marker of thread 1 is then removed. -/
theorem C4_concurrency_cap_witness :
    processingCount busyState.activeDownloads ≤ MAX_CONCURRENT_THREADS ∧
    processingCount (dispatchStep busyState.watchedThreads busyState).activeDownloads = 5 ∧
    processingCount
      ({ dispatchStep busyState.watchedThreads busyState with
          activeDownloads := JSMap.delete
            (dispatchStep busyState.watchedThreads busyState).activeDownloads
            "1-processing" } : State).activeDownloads ≤ 5 :=
  ⟨by decide, by decide,
    (C4_concurrency_cap busyState
      { dispatchStep busyState.watchedThreads busyState with
          activeDownloads := JSMap.delete
            (dispatchStep busyState.watchedThreads busyState).activeDownloads
            "1-processing" }
      (by decide)
      (Relation.ReflTransGen.tail
        (Relation.ReflTransGen.single (MarkerStep.dispatch busyState.watchedThreads busyState))
        (MarkerStep.removal _ _ (List.filter_sublist _)))).1⟩


/-! ## Splitting paths -/

theorem splitOnChar_ne_nil (sep : Char) (cs : List Char) : splitOnChar sep cs ≠ [] := by
  cases cs with
  | nil => simp [splitOnChar]
  | cons c cs =>
    unfold splitOnChar
    split
    · simp
    · split <;> simp

theorem splitOnChar_cons (sep c : Char) (cs : List Char) :
    ∃ seg rest, splitOnChar sep cs = seg :: rest ∧
      splitOnChar sep (c :: cs) = if c = sep then [] :: seg :: rest else (c :: seg) :: rest := by
  cases h : splitOnChar sep cs with
  | nil => exact absurd h (splitOnChar_ne_nil sep cs)
  | cons seg rest =>
    refine ⟨seg, rest, rfl, ?_⟩
    rw [splitOnChar, h]

theorem splitOnChar_of_not_mem (sep : Char) (cs : List Char) (h : sep ∉ cs) :
    splitOnChar sep cs = [cs] := by
  induction cs with
  | nil => rfl
  | cons c cs ih =>
    simp only [List.mem_cons, not_or] at h
    obtain ⟨seg, rest, h1, h2⟩ := splitOnChar_cons sep c cs
    rw [h2, if_neg (fun hc => h.1 hc.symm)]
    rw [ih h.2] at h1
    simp only [List.cons.injEq] at h1
    rw [← h1.1, ← h1.2]

theorem splitOnChar_append (sep : Char) (a b : List Char) :
    splitOnChar sep (a ++ sep :: b) = splitOnChar sep a ++ splitOnChar sep b := by
  induction a with
  | nil =>
    obtain ⟨seg, rest, h1, h2⟩ := splitOnChar_cons sep sep b
    simp only [List.nil_append]
    rw [h2, if_pos rfl, h1]
    rfl
  | cons c a ih =>
    obtain ⟨seg, rest, h1, h2⟩ := splitOnChar_cons sep c (a ++ sep :: b)
    obtain ⟨seg0, rest0, h3, h4⟩ := splitOnChar_cons sep c a
    simp only [List.cons_append]
    rw [h2, h4]
    rw [ih, h3] at h1
    simp only [List.cons_append, List.cons.injEq] at h1
    rw [← h1.1, ← h1.2]
    split <;> rfl

theorem intercalate_splitOnChar (sep : Char) (cs : List Char) :
    List.intercalate [sep] (splitOnChar sep cs) = cs := by
  induction cs with
  | nil => rfl
  | cons c cs ih =>
    obtain ⟨seg, rest, h1, h2⟩ := splitOnChar_cons sep c cs
    rw [h2]
    rw [h1] at ih
    split
    · rename_i hc
      rw [hc]
      cases rest with
      | nil =>
        simp only [List.intercalate, List.intersperse, List.flatten] at ih ⊢
        simpa using ih
      | cons r rest =>
        simp only [List.intercalate, List.intersperse, List.flatten] at ih ⊢
        simpa using ih
    · cases rest with
      | nil =>
        simp only [List.intercalate, List.intersperse, List.flatten] at ih ⊢
        simpa using ih
      | cons r rest =>
        simp only [List.intercalate, List.intersperse, List.flatten] at ih ⊢
        simpa using ih

theorem lastSegment_append (a f : String) (h : '/' ∉ f.data) :
    lastSegment (a ++ "/" ++ f) = f := by
  unfold lastSegment
  have h1 : (a ++ "/" ++ f).data = a.data ++ '/' :: f.data := by
    simp [String.data_append]
  rw [h1, splitOnChar_append, splitOnChar_of_not_mem _ _ h]
  simp [List.getLastD_eq_getLast?]


/-! ## Sanitized names -/

theorem sanitizeChar_safe (c d : Char) (h : d ∈ sanitizeChar c) : isSafeChar d = true := by
  unfold sanitizeChar at h
  split at h
  · rename_i hc
    simp only [List.mem_singleton] at h
    rw [h]; exact hc
  · split at h
    · simp only [List.mem_cons, List.mem_singleton, List.not_mem_nil, or_false, or_self] at h
      rw [h]; decide
    · simp only [List.mem_singleton] at h
      rw [h]; decide

theorem sanitize_safe (s : String) (d : Char) (h : d ∈ (sanitize s).data) : isSafeChar d = true := by
  unfold sanitize at h
  simp only [List.mem_flatMap] at h
  obtain ⟨c, _, hc⟩ := h
  exact sanitizeChar_safe c d hc

theorem sanitizeChar_ne_nil (c : Char) : sanitizeChar c ≠ [] := by
  unfold sanitizeChar
  split
  · simp
  · split <;> simp

theorem sanitize_ne_empty (s : String) (h : s ≠ "") : sanitize s ≠ "" := by
  intro h1
  have h2 : (sanitize s).data = [] := by rw [h1]
  unfold sanitize at h2
  simp only at h2
  cases hs : s.data with
  | nil => exact h (String.ext hs)
  | cons c cs =>
    rw [hs, List.flatMap_cons] at h2
    exact sanitizeChar_ne_nil c (List.append_eq_nil.mp h2).1

theorem sanitize_of_safe (s : String) (h : ∀ c ∈ s.data, isSafeChar c = true) : sanitize s = s := by
  apply String.ext
  unfold sanitize
  simp only
  have : ∀ l : List Char, (∀ c ∈ l, isSafeChar c = true) → l.flatMap sanitizeChar = l := by
    intro l
    induction l with
    | nil => intro _; rfl
    | cons c cs ih =>
      intro hl
      rw [List.flatMap_cons, ih (fun d hd => hl d (List.mem_cons_of_mem _ hd))]
      unfold sanitizeChar
      rw [if_pos (hl c (List.mem_cons_self _ _))]
      rfl
  exact this s.data h

theorem sanitizedFilename_safe (f : String) (d : Char) (h : d ∈ (sanitizedFilename f).data) :
    isSafeChar d = true := by
  unfold sanitizedFilename at h
  split at h
  · revert d; decide
  · exact sanitize_safe f d h

theorem sanitizedFilename_ne_empty (f : String) : sanitizedFilename f ≠ "" := by
  unfold sanitizedFilename
  split
  · decide
  · rename_i h; exact sanitize_ne_empty f h

theorem sanitizedFilename_of_safe (f : String) (hne : f ≠ "")
    (h : ∀ c ∈ f.data, isSafeChar c = true) : sanitizedFilename f = f := by
  unfold sanitizedFilename
  rw [if_neg hne]
  exact sanitize_of_safe f h

theorem sanitizedUsername_safe (u : Option String) (d : Char)
    (h : d ∈ (sanitizedUsername u).data) : isSafeChar d = true := by
  unfold sanitizedUsername at h
  split at h
  · revert d; decide
  · split at h
    · revert d; decide
    · exact sanitize_safe _ d h

theorem sanitizedUsername_ne_empty (u : Option String) : sanitizedUsername u ≠ "" := by
  unfold sanitizedUsername
  split
  · decide
  · split
    · decide
    · rename_i h; exact sanitize_ne_empty _ h

theorem lastSegment_getFullPath (lsp : SearchParams) (threadId : Int) (username : Option String)
    (filename : String) :
    lastSegment (getFullPath lsp threadId username filename) = sanitizedFilename filename := by
  unfold getFullPath
  simp only
  rw [lastSegment_append]
  intro h
  have := sanitizedFilename_safe filename _ h
  revert this
  decide


/-! ## Rebuilding `skippedImages` from the ledger -/

/-- The step of the fold in `rebuildSkipped`. -/
theorem rebuildStep_owned (threadId : Int) (acc : List String) (e : String × LedgerEntry)
    (hown : e.2.threadId = threadId) (hne : lastSegment e.1 ≠ "") :
    rebuildStep threadId acc e = JSSet.add acc (lastSegment e.1) := by
  unfold rebuildStep
  rw [if_pos hown, if_pos hne]

theorem rebuildStep_empty (threadId : Int) (acc : List String) (e : String × LedgerEntry)
    (hne : lastSegment e.1 = "") : rebuildStep threadId acc e = acc := by
  unfold rebuildStep
  split
  · rw [if_neg (by simpa using hne)]
  · rfl

theorem rebuildStep_other (threadId : Int) (acc : List String) (e : String × LedgerEntry)
    (hown : e.2.threadId ≠ threadId) : rebuildStep threadId acc e = acc := by
  unfold rebuildStep
  rw [if_neg hown]

theorem ownedSegments_cons_pos (threadId : Int) (e : String × LedgerEntry)
    (ledger : List (String × LedgerEntry)) (hown : e.2.threadId = threadId) :
    ownedSegments (e :: ledger) threadId = lastSegment e.1 :: ownedSegments ledger threadId := by
  unfold ownedSegments
  rw [List.filter_cons_of_pos (by simpa using hown)]
  rfl

theorem ownedSegments_cons_neg (threadId : Int) (e : String × LedgerEntry)
    (ledger : List (String × LedgerEntry)) (hown : e.2.threadId ≠ threadId) :
    ownedSegments (e :: ledger) threadId = ownedSegments ledger threadId := by
  unfold ownedSegments
  rw [List.filter_cons_of_neg (by simpa using hown)]

theorem rebuild_foldl_mem (threadId : Int) (ledger : List (String × LedgerEntry)) :
    ∀ (acc : List String) (x : String),
      x ∈ ledger.foldl (rebuildStep threadId) acc ↔
        x ∈ acc ∨ (x ∈ ownedSegments ledger threadId ∧ x ≠ "") := by
  induction ledger with
  | nil => intro acc x; simp [ownedSegments]
  | cons e ledger ih =>
    intro acc x
    simp only [List.foldl_cons]
    rw [ih]
    by_cases hown : e.2.threadId = threadId
    · rw [ownedSegments_cons_pos _ _ _ hown]
      simp only [List.mem_cons]
      by_cases hne : lastSegment e.1 = ""
      · rw [rebuildStep_empty _ _ _ hne]
        constructor
        · rintro (h | ⟨h1, h2⟩)
          · exact Or.inl h
          · exact Or.inr ⟨Or.inr h1, h2⟩
        · rintro (h | ⟨h1 | h1, h2⟩)
          · exact Or.inl h
          · exact absurd (h1.trans hne) h2
          · exact Or.inr ⟨h1, h2⟩
      · rw [rebuildStep_owned _ _ _ hown hne]
        unfold JSSet.add
        split
        · rename_i hmem
          constructor
          · rintro (h | ⟨h1, h2⟩)
            · exact Or.inl h
            · exact Or.inr ⟨Or.inr h1, h2⟩
          · rintro (h | ⟨h1 | h1, h2⟩)
            · exact Or.inl h
            · left; rw [h1]; exact hmem
            · exact Or.inr ⟨h1, h2⟩
        · simp only [List.mem_append, List.mem_singleton]
          constructor
          · rintro ((h | h) | ⟨h1, h2⟩)
            · exact Or.inl h
            · right; exact ⟨Or.inl h, by rw [h]; exact hne⟩
            · exact Or.inr ⟨Or.inr h1, h2⟩
          · rintro (h | ⟨h1 | h1, h2⟩)
            · exact Or.inl (Or.inl h)
            · exact Or.inl (Or.inr h1)
            · exact Or.inr ⟨h1, h2⟩
    · rw [ownedSegments_cons_neg _ _ _ hown, rebuildStep_other _ _ _ hown]

theorem mem_rebuildSkipped (ledger : List (String × LedgerEntry)) (threadId : Int) (x : String) :
    x ∈ rebuildSkipped ledger threadId ↔ x ∈ ownedSegments ledger threadId ∧ x ≠ "" := by
  unfold rebuildSkipped
  rw [rebuild_foldl_mem]
  simp

theorem length_ownedSegments (ledger : List (String × LedgerEntry)) (threadId : Int) :
    (ownedSegments ledger threadId).length = ownedCount ledger threadId := by
  unfold ownedSegments ownedCount
  simp

theorem rebuild_foldl_length (threadId : Int) (ledger : List (String × LedgerEntry)) :
    ∀ (acc : List String),
      (ledger.foldl (rebuildStep threadId) acc).length ≤
        acc.length + (ownedSegments ledger threadId).length := by
  induction ledger with
  | nil => intro acc; simp
  | cons e ledger ih =>
    intro acc
    simp only [List.foldl_cons]
    refine le_trans (ih _) ?_
    by_cases hown : e.2.threadId = threadId
    · rw [ownedSegments_cons_pos _ _ _ hown, List.length_cons]
      by_cases hne : lastSegment e.1 = ""
      · rw [rebuildStep_empty _ _ _ hne]; omega
      · rw [rebuildStep_owned _ _ _ hown hne]
        unfold JSSet.add
        split
        · omega
        · simp only [List.length_append, List.length_singleton]; omega
    · rw [ownedSegments_cons_neg _ _ _ hown, rebuildStep_other _ _ _ hown]

theorem rebuild_foldl_exact (threadId : Int) (ledger : List (String × LedgerEntry)) :
    ∀ (acc : List String),
      (acc ++ ownedSegments ledger threadId).Nodup → "" ∉ ownedSegments ledger threadId →
      ledger.foldl (rebuildStep threadId) acc = acc ++ ownedSegments ledger threadId := by
  induction ledger with
  | nil => intro acc _ _; simp [ownedSegments]
  | cons e ledger ih =>
    intro acc hnodup hne
    simp only [List.foldl_cons]
    by_cases hown : e.2.threadId = threadId
    · rw [ownedSegments_cons_pos _ _ _ hown] at hnodup hne ⊢
      simp only [List.mem_cons, not_or] at hne
      have hseg : lastSegment e.1 ≠ "" := fun h => hne.1 h.symm
      have hnotin : lastSegment e.1 ∉ acc := by
        intro hin
        exact (List.nodup_append.mp hnodup).2.2 hin (List.mem_cons_self _ _)
      rw [rebuildStep_owned _ _ _ hown hseg]
      unfold JSSet.add
      rw [if_neg hnotin]
      rw [ih (acc ++ [lastSegment e.1]) (by simpa [List.append_assoc] using hnodup) hne.2]
      simp
    · rw [ownedSegments_cons_neg _ _ _ hown] at hnodup hne ⊢
      rw [rebuildStep_other _ _ _ hown]
      exact ih acc hnodup hne

theorem length_rebuildSkipped_le (ledger : List (String × LedgerEntry)) (threadId : Int) :
    (rebuildSkipped ledger threadId).length ≤ ownedCount ledger threadId := by
  unfold rebuildSkipped
  have := rebuild_foldl_length threadId ledger []
  rw [length_ownedSegments] at this
  simpa using this

theorem rebuildSkipped_exact (ledger : List (String × LedgerEntry)) (threadId : Int)
    (hnodup : (ownedSegments ledger threadId).Nodup) (hne : "" ∉ ownedSegments ledger threadId) :
    rebuildSkipped ledger threadId = ownedSegments ledger threadId := by
  unfold rebuildSkipped
  have := rebuild_foldl_exact threadId ledger [] (by simpa using hnodup) hne
  simpa using this

theorem mem_ownedSegments_of_mem (ledger : List (String × LedgerEntry)) (threadId : Int)
    (path : String) (entry : LedgerEntry) (hmem : (path, entry) ∈ ledger)
    (hown : entry.threadId = threadId) : lastSegment path ∈ ownedSegments ledger threadId := by
  unfold ownedSegments
  simp only [List.mem_map, List.mem_filter, decide_eq_true_eq]
  exact ⟨(path, entry), ⟨hmem, hown⟩, rfl⟩


/-! ## `resumeActiveThreads` -/

theorem fetchLoop_congr {α : Type} (s s2 : State) (responses : Nat → Option α)
    (h1 : s2.isRunning = s.isRunning) (h2 : s2.isInitialized = s.isInitialized) :
    ∀ fuel i, fetchLoop s2 responses fuel i = fetchLoop s responses fuel i := by
  intro fuel
  induction fuel with
  | zero => intro i; rfl
  | succ fuel ih =>
    intro i
    unfold fetchLoop
    rw [h1, h2]
    split
    · rfl
    · split
      · rfl
      · split
        · rfl
        · exact ih (i + 1)

theorem fetchWithRetry_congr {α : Type} (s s2 : State) (responses : Nat → Option α)
    (h1 : s2.isRunning = s.isRunning) (h2 : s2.isInitialized = s.isInitialized) :
    fetchWithRetry s2 responses = fetchWithRetry s responses :=
  fetchLoop_congr s s2 responses h1 h2 _ _

theorem findThread_modifyThread_ne (f : Thread → Thread) (hf : ∀ t, (f t).id = t.id)
    (ws : List Thread) (j k : Int) (hjk : k ≠ j) :
    findThread (modifyThread j f ws) k = findThread ws k := by
  induction ws with
  | nil => rfl
  | cons w rest ih =>
    unfold modifyThread
    by_cases hj : w.id = j
    · rw [if_pos hj]
      unfold findThread
      have h1 : ¬ (f w).id = k := by rw [hf, hj]; exact fun h => hjk h.symm
      have h2 : ¬ w.id = k := by rw [hj]; exact fun h => hjk h.symm
      simp [List.find?_cons, h1, h2]
    · rw [if_neg hj]
      unfold findThread at ih ⊢
      simp only [List.find?_cons]
      split
      · rfl
      · exact ih

/-- Every iteration of the resume loop leaves the stores alone or rewrites one thread,
saves the registry and sets the timers. -/
theorem resumeThread_shape (env : ResumeEnv) (cur : State) (j : Int) :
    resumeThread env cur j = cur ∨
    ∃ (f : Thread → Thread) (timers : List (Int × Int)), (∀ t, (f t).id = t.id) ∧
      resumeThread env cur j =
        { cur with
          watchedThreads :=
            (deduplicateWatchedThreads (modifyThread j f cur.watchedThreads)).1.map recount,
          threadProgressTimers := timers } := by
  unfold resumeThread
  split
  · left; rfl
  · rename_i thread hfind
    split
    · left; rfl
    · split
      · right
        exact ⟨fun t => { t with error := true, active := false }, cur.threadProgressTimers,
          fun _ => rfl, rfl⟩
      · rename_i data hdata
        split
        · right
          exact ⟨fun t => { t with error := true, active := false }, cur.threadProgressTimers,
            fun _ => rfl, rfl⟩
        · right
          exact ⟨fun t => { t with error := true, active := false }, cur.threadProgressTimers,
            fun _ => rfl, rfl⟩
        · rename_i op rest hposts
          split
          · right
            exact ⟨fun t => { t with closed := true, active := false, error := false },
              JSMap.delete cur.threadProgressTimers thread.id, fun _ => rfl, rfl⟩
          · simp only
            split
            · split
              · right
                exact ⟨syncedThread (((op :: rest).filter isImagePost).length : Int)
                    (rebuildSkipped cur.downloadedImages thread.id), cur.threadProgressTimers, fun _ => rfl, rfl⟩
              · right
                exact ⟨syncedThread (((op :: rest).filter isImagePost).length : Int)
                    (rebuildSkipped cur.downloadedImages thread.id),
                  JSMap.set cur.threadProgressTimers thread.id (env.nowAt thread.id),
                  fun _ => rfl, rfl⟩
            · right
              exact ⟨syncedThread (((op :: rest).filter isImagePost).length : Int)
                  (rebuildSkipped cur.downloadedImages thread.id),
                JSMap.delete cur.threadProgressTimers thread.id, fun _ => rfl, rfl⟩

theorem resumeThread_frame (env : ResumeEnv) (cur : State) (j : Int) :
    (resumeThread env cur j).isRunning = cur.isRunning ∧
    (resumeThread env cur j).isInitialized = cur.isInitialized ∧
    (resumeThread env cur j).downloadedImages = cur.downloadedImages ∧
    (resumeThread env cur j).activeDownloads = cur.activeDownloads := by
  rcases resumeThread_shape env cur j with h | ⟨f, timers, _, h⟩
  · rw [h]; exact ⟨rfl, rfl, rfl, rfl⟩
  · rw [h]; exact ⟨rfl, rfl, rfl, rfl⟩

theorem findThread_resumeThread_ne (env : ResumeEnv) (cur : State) (j k : Int) (hjk : k ≠ j) :
    findThread (resumeThread env cur j).watchedThreads k = findThread cur.watchedThreads k ∨
    findThread (resumeThread env cur j).watchedThreads k =
      (findThread cur.watchedThreads k).map recount := by
  rcases resumeThread_shape env cur j with h | ⟨f, timers, hf, h⟩
  · left; rw [h]
  · right
    rw [h]
    simp only
    rw [findThread_map recount recount_id, findThread_deduplicate,
      findThread_modifyThread_ne f hf _ j k hjk]

theorem resumable_recount (url : String) (t : Thread) (h : Resumable url t) :
    Resumable url (recount t) := by
  unfold Resumable at h ⊢
  unfold recount
  simp only
  split <;> exact h

theorem syncedWith_recount (url : String) (rebuilt : List String) (total : Int) (t : Thread)
    (h : SyncedWith url rebuilt total t) : SyncedWith url rebuilt total (recount t) := by
  obtain ⟨h1, h2, h3, h4⟩ := h
  refine ⟨resumable_recount url t h1, ?_, ?_, ?_⟩
  · rw [recount_skipped]; exact h2
  · rw [recount_total]; exact h3
  · rw [recount_count, h2, h3]


theorem resumeThread_syncs (env : ResumeEnv) (cur : State) (k : Int) (t : Thread) (url : String)
    (op : Post) (rest : List Post)
    (hfind : findThread cur.watchedThreads k = some t) (hres : Resumable url t)
    (hfetch : (fetchWithRetry cur (env.fetch url)).value = some { posts := some (op :: rest) })
    (hclosed : op.closed = false) (harchived : op.archived = false) :
    ∃ t2, findThread (resumeThread env cur k).watchedThreads k = some t2 ∧
      SyncedWith url (rebuildSkipped cur.downloadedImages k)
        (((op :: rest).filter isImagePost).length : Int) t2 := by
  obtain ⟨hact, hcl, herr, hurl⟩ := hres
  have hid : t.id = k := findThread_some_id hfind
  have hws : (resumeThread env cur k).watchedThreads =
      ((deduplicateWatchedThreads (modifyThread k
        (syncedThread (((op :: rest).filter isImagePost).length : Int)
          (rebuildSkipped cur.downloadedImages k)) cur.watchedThreads)).1.map recount) := by
    unfold resumeThread
    rw [hfind]
    simp only [hact, hcl, herr, hurl, hfetch, hclosed, harchived, hid, Bool.not_true,
      Bool.or_self, Bool.false_eq_true, if_false]
    split
    · split <;> rfl
    · rfl
  rw [hws, findThread_map recount recount_id, findThread_deduplicate,
    findThread_modifyThread (syncedThread _ _) (fun _ => rfl), hfind]
  refine ⟨_, rfl, ?_⟩
  apply syncedWith_recount
  exact ⟨⟨hact, hcl, rfl, hurl⟩, rfl, rfl, rfl⟩

/-- What the loop needs to know about the state it runs in: the fetch of the thread's
URL succeeds with an open thread, and the ledger is the given one. -/
theorem resumeLoop_synced (env : ResumeEnv) (k : Int) (url : String) (op : Post)
    (rest : List Post) (ledger : List (String × LedgerEntry))
    (hclosed : op.closed = false) (harchived : op.archived = false) :
    ∀ (snapshot : List Thread) (cur : State),
      (fetchWithRetry cur (env.fetch url)).value = some { posts := some (op :: rest) } →
      cur.downloadedImages = ledger →
      (∃ t, findThread cur.watchedThreads k = some t ∧
        SyncedWith url (rebuildSkipped ledger k)
          (((op :: rest).filter isImagePost).length : Int) t) →
      ∃ t, findThread (resumeLoop env snapshot cur).watchedThreads k = some t ∧
        SyncedWith url (rebuildSkipped ledger k)
          (((op :: rest).filter isImagePost).length : Int) t := by
  intro snapshot
  induction snapshot with
  | nil => intro cur _ _ h; exact h
  | cons x xs ih =>
    intro cur hfetch hledger ⟨t, hfind, hsync⟩
    unfold resumeLoop
    obtain ⟨f1, f2, f3, _⟩ := resumeThread_frame env cur x.id
    apply ih
    · rw [fetchWithRetry_congr cur _ _ f1 f2]; exact hfetch
    · rw [f3]; exact hledger
    · by_cases hx : k = x.id
      · rw [← hx]
        have := resumeThread_syncs env cur k t url op rest hfind hsync.1 hfetch hclosed harchived
        rw [hledger] at this
        exact this
      · rcases findThread_resumeThread_ne env cur x.id k hx with h | h
        · exact ⟨t, by rw [h]; exact hfind, hsync⟩
        · exact ⟨recount t, by rw [h, hfind]; rfl, syncedWith_recount _ _ _ _ hsync⟩

theorem resumeLoop_pending (env : ResumeEnv) (k : Int) (url : String) (op : Post)
    (rest : List Post) (ledger : List (String × LedgerEntry))
    (hclosed : op.closed = false) (harchived : op.archived = false) :
    ∀ (snapshot : List Thread) (cur : State),
      (fetchWithRetry cur (env.fetch url)).value = some { posts := some (op :: rest) } →
      cur.downloadedImages = ledger →
      (∃ t, findThread cur.watchedThreads k = some t ∧ Resumable url t) →
      k ∈ snapshot.map (fun t => t.id) →
      ∃ t, findThread (resumeLoop env snapshot cur).watchedThreads k = some t ∧
        SyncedWith url (rebuildSkipped ledger k)
          (((op :: rest).filter isImagePost).length : Int) t := by
  intro snapshot
  induction snapshot with
  | nil => intro cur _ _ _ hk; simp at hk
  | cons x xs ih =>
    intro cur hfetch hledger ⟨t, hfind, hres⟩ hk
    unfold resumeLoop
    obtain ⟨f1, f2, f3, _⟩ := resumeThread_frame env cur x.id
    have hfetch2 : (fetchWithRetry (resumeThread env cur x.id) (env.fetch url)).value =
        some { posts := some (op :: rest) } := by
      rw [fetchWithRetry_congr cur _ _ f1 f2]; exact hfetch
    have hledger2 : (resumeThread env cur x.id).downloadedImages = ledger := by
      rw [f3]; exact hledger
    by_cases hx : k = x.id
    · apply resumeLoop_synced env k url op rest ledger hclosed harchived xs _ hfetch2 hledger2
      rw [← hx]
      have := resumeThread_syncs env cur k t url op rest hfind hres hfetch hclosed harchived
      rw [hledger] at this
      exact this
    · apply ih _ hfetch2 hledger2
      · rcases findThread_resumeThread_ne env cur x.id k hx with h | h
        · exact ⟨t, by rw [h]; exact hfind, hres⟩
        · exact ⟨recount t, by rw [h, hfind]; rfl, resumable_recount _ _ hres⟩
      · simp only [List.map_cons, List.mem_cons] at hk
        rcases hk with hk | hk
        · exact absurd hk hx
        · exact hk

theorem findThread_of_nodup (ws : List Thread) (p : Thread)
    (hnodup : (ws.map (fun t => t.id)).Nodup) (hp : p ∈ ws) : findThread ws p.id = some p := by
  induction ws with
  | nil => simp at hp
  | cons w rest ih =>
    simp only [List.map_cons, List.nodup_cons, List.mem_map, not_exists, not_and] at hnodup
    unfold findThread
    simp only [List.find?_cons]
    rcases List.mem_cons.mp hp with h | h
    · rw [h]; simp
    · have hne : ¬ w.id = p.id := fun heq => hnodup.1 p h heq.symm
      simp only [hne, decide_False]
      exact ih hnodup.2 h

theorem manageThreadsKick_watchedThreads (now : Int) (s : State) :
    (manageThreadsKick now s).watchedThreads = s.watchedThreads := by
  unfold manageThreadsKick
  split
  · rfl
  · simp only
    split
    · rfl
    · split
      · rfl
      · split
        · rfl
        · split
          · rfl
          · rfl

theorem resume_synced (env : ResumeEnv) (s : State) (p : Thread) (op : Post) (rest : List Post)
    (hrun : s.isRunning = true)
    (hnodup : (s.watchedThreads.map (fun t => t.id)).Nodup)
    (hp : p ∈ s.watchedThreads)
    (hactive : p.active = true) (hclosed : p.closed = false) (herror : p.error = false)
    (hfetch : (fetchWithRetry s (env.fetch p.url)).value = some { posts := some (op :: rest) })
    (hopen : op.closed = false) (harchived : op.archived = false) :
    ∃ t, findThread (resumeActiveThreads env s).watchedThreads p.id = some t ∧
      SyncedWith p.url (rebuildSkipped s.downloadedImages p.id)
        (((op :: rest).filter isImagePost).length : Int) t := by
  have hmem : p ∈ s.watchedThreads.filter (fun t => t.active && !t.closed && !t.error) := by
    rw [List.mem_filter]
    exact ⟨hp, by simp [hactive, hclosed, herror]⟩
  unfold resumeActiveThreads
  rw [if_neg (by simp [hrun])]
  simp only
  rw [if_neg (by
    intro h
    rw [List.length_eq_zero] at h
    rw [h] at hmem
    simp at hmem)]
  rw [manageThreadsKick_watchedThreads]
  apply resumeLoop_pending env p.id p.url op rest s.downloadedImages hopen harchived _ s hfetch rfl
  · exact ⟨p, findThread_of_nodup _ p hnodup hp, hactive, hclosed, herror, rfl⟩
  · exact List.mem_map.mpr ⟨p, hmem, rfl⟩

/-- C5, as stated, fails: the ledger holds K = 2 entries of thread 7, the upstream report
has T = 3 image posts, and after `resumeActiveThreads` the thread has one element in
`skippedImages` and `downloadedCount = 1`, not 2 and `min(2, 3)`: the two entries end
in the same path segment. -/
theorem C5_resume_size_below_K :
    ownedCount collidingState.downloadedImages 7 = 2 ∧
    (openPosts.filter isImagePost).length = 3 ∧
    findThread (resumeActiveThreads openHost collidingState).watchedThreads 7 =
      some { id := 7, url := "https://a.4cdn.org/g/thread/7.json", active := true,
             totalImages := 3, downloadedCount := 1, skippedImages := ["1.jpg"] } :=
  ⟨by decide, by decide, by decide⟩

/-- C5, amended. Reconciliation convergence: in a registry with pairwise distinct ids,
for every active, non-closed, non-errored thread P, every ledger, and every successful
upstream report that has at least one post, is not closed or archived and has T image
posts, after `resumeActiveThreads` the thread's `skippedImages` is the set rebuilt from
the ledger, that is the distinct non-empty final path segments of the entries whose
`threadId` is `P.id`, whatever `skippedImages` and `downloadedCount` were before.  Its
size is at most the number K of those entries, and equal to K when their final segments
are non-empty and pairwise distinct; `totalImages` is T and `downloadedCount` is
`min(|skippedImages|, T)`. -/
theorem C5_reconciliation_convergence (env : ResumeEnv) (s : State) (p : Thread) (op : Post)
    (rest : List Post)
    (hrun : s.isRunning = true)
    (hnodup : (s.watchedThreads.map (fun t => t.id)).Nodup)
    (hp : p ∈ s.watchedThreads)
    (hactive : p.active = true) (hclosed : p.closed = false) (herror : p.error = false)
    (hfetch : (fetchWithRetry s (env.fetch p.url)).value = some { posts := some (op :: rest) })
    (hopen : op.closed = false) (harchived : op.archived = false) :
    ∃ t, findThread (resumeActiveThreads env s).watchedThreads p.id = some t ∧
      t.skippedImages = rebuildSkipped s.downloadedImages p.id ∧
      (∀ x, x ∈ t.skippedImages ↔ x ∈ ownedSegments s.downloadedImages p.id ∧ x ≠ "") ∧
      t.skippedImages.length ≤ ownedCount s.downloadedImages p.id ∧
      ((ownedSegments s.downloadedImages p.id).Nodup → "" ∉ ownedSegments s.downloadedImages p.id →
        t.skippedImages.length = ownedCount s.downloadedImages p.id) ∧
      t.totalImages = (((op :: rest).filter isImagePost).length : Int) ∧
      t.downloadedCount =
        min (t.skippedImages.length : Int) (((op :: rest).filter isImagePost).length : Int) := by
  obtain ⟨t, hfind, _, hsk, htot, hcount⟩ :=
    resume_synced env s p op rest hrun hnodup hp hactive hclosed herror hfetch hopen harchived
  refine ⟨t, hfind, hsk, ?_, ?_, ?_, htot, ?_⟩
  · intro x
    rw [hsk]
    exact mem_rebuildSkipped _ _ x
  · rw [hsk]
    exact length_rebuildSkipped_le _ _
  · intro h1 h2
    rw [hsk, rebuildSkipped_exact _ _ h1 h2, length_ownedSegments]
  · rw [hsk]
    exact hcount

/-- Witness of C5: a ledger with two entries of thread 7 that end in distinct segments. -/
theorem C5_reconciliation_convergence_witness :
    (ledgerState.watchedThreads.map (fun t => t.id)).Nodup ∧
    ownedCount ledgerState.downloadedImages 7 = 2 ∧
    (findThread (resumeActiveThreads openHost ledgerState).watchedThreads 7).map
        (fun t => t.skippedImages) =
      some (rebuildSkipped ledgerState.downloadedImages 7) :=
  have h := C5_reconciliation_convergence openHost ledgerState
    { id := 7, url := "https://a.4cdn.org/g/thread/7.json", active := true, totalImages := 9,
      downloadedCount := 4, skippedImages := ["zz"] }
    { tim := some 1, ext := some ".jpg" }
    [{ tim := some 2, ext := some ".jpg" }, {}, { tim := some 3, ext := some ".png" }]
    (by decide) (by decide) (by decide) (by decide) (by decide) (by decide) (by decide)
    (by decide) (by decide)
  ⟨by decide, by decide, h.elim (fun t ht => by rw [ht.1, Option.map_some', ht.2.1])⟩

/-- C8, as stated, fails: the file `a b.jpg` is downloaded and recorded under the path
that ends in `a_b.jpg`; the set rebuilt from the ledger is `["a_b.jpg"]` and does not
contain `a b.jpg`. -/
theorem C8_rebuilt_name_is_sanitized :
    (downloadImage completingHost freshState "https://i.4cdn.org/g/a b.jpg" 7 none).downloaded = true ∧
    JSMap.has
      (downloadImage completingHost freshState "https://i.4cdn.org/g/a b.jpg" 7 none).state.downloadedImages
      (getFullPath freshState.lastSearchParams 7 none "a b.jpg") = true ∧
    rebuildSkipped
      (downloadImage completingHost freshState "https://i.4cdn.org/g/a b.jpg" 7 none).state.downloadedImages
      7 = ["a_b.jpg"] ∧
    "a b.jpg" ∉ rebuildSkipped
      (downloadImage completingHost freshState "https://i.4cdn.org/g/a b.jpg" 7 none).state.downloadedImages
      7 :=
  ⟨by decide, by decide, by decide, by decide⟩

/-- C8, amended. No re-download after restart: when the ledger holds an entry of thread
`threadId` under `getFullPath(threadId, username, filename)`, the set that
`resumeActiveThreads` rebuilds from the ledger contains the sanitized filename, the
final segment of that path; it contains the filename itself whenever the filename is
non-empty and made of characters of `[a-zA-Z0-9_.-]` only. -/
theorem C8_no_redownload_after_restart (ledger : List (String × LedgerEntry))
    (lsp : SearchParams) (threadId : Int) (username : Option String) (filename : String)
    (entry : LedgerEntry)
    (hmem : (getFullPath lsp threadId username filename, entry) ∈ ledger)
    (hown : entry.threadId = threadId) :
    sanitizedFilename filename ∈ rebuildSkipped ledger threadId ∧
    (filename ≠ "" → (∀ c ∈ filename.data, isSafeChar c = true) →
      filename ∈ rebuildSkipped ledger threadId) := by
  have h1 : sanitizedFilename filename ∈ rebuildSkipped ledger threadId := by
    rw [mem_rebuildSkipped]
    refine ⟨?_, sanitizedFilename_ne_empty filename⟩
    have := mem_ownedSegments_of_mem ledger threadId _ entry hmem hown
    rw [lastSegment_getFullPath] at this
    exact this
  refine ⟨h1, fun hne hsafe => ?_⟩
  rw [sanitizedFilename_of_safe filename hne hsafe] at h1
  exact h1

/-- Witness of C8: the entry of `1.jpg` in the colliding ledger. -/
theorem C8_no_redownload_after_restart_witness :
    (getFullPath {} 7 (some "Alice") "1.jpg", ({ timestamp := 1, threadId := 7 } : LedgerEntry)) ∈
      collidingState.downloadedImages ∧
    "1.jpg" ∈ rebuildSkipped collidingState.downloadedImages 7 :=
  ⟨by decide,
    (C8_no_redownload_after_restart collidingState.downloadedImages {} 7 (some "Alice") "1.jpg"
      { timestamp := 1, threadId := 7 } (by decide) rfl).2 (by decide) (by decide)⟩


/-! ## Numbers in paths -/

theorem digitChar_facts : ∀ d, d < 10 →
    digitValue 10 (digitChar d) = some d ∧ isStrWhiteSpace (digitChar d) = false ∧
    digitChar d ≠ '-' ∧ digitChar d ≠ '+' ∧ digitChar d ≠ 'x' ∧ digitChar d ≠ 'X' ∧
    digitChar d ≠ '/' ∧ digitChar d ≠ Char.ofNat 92 := by
  decide

/-- The value that `parseInt` gives to a run of decimal digits. -/
theorem natToDigits_spec : ∀ (fuel n : Nat), n < fuel →
    natToDigits fuel n ≠ [] ∧
    (∀ c ∈ natToDigits fuel n, ∃ d, d < 10 ∧ c = digitChar d) ∧
    (natToDigits fuel n).foldl (fun acc c => acc * 10 + (digitValue 10 c).getD 0) 0 = n := by
  intro fuel
  induction fuel with
  | zero => intro n h; omega
  | succ fuel ih =>
    intro n hn
    unfold natToDigits
    by_cases h10 : n < 10
    · rw [if_pos h10]
      refine ⟨by simp, ?_, ?_⟩
      · intro c hc
        rw [List.mem_singleton] at hc
        exact ⟨n, h10, hc⟩
      · simp [(digitChar_facts n h10).1]
    · rw [if_neg h10]
      obtain ⟨_, h2, h3⟩ := ih (n / 10) (by omega)
      have hmod : n % 10 < 10 := Nat.mod_lt _ (by decide)
      refine ⟨by simp, ?_, ?_⟩
      · intro c hc
        rcases List.mem_append.mp hc with hc | hc
        · exact h2 c hc
        · rw [List.mem_singleton] at hc
          exact ⟨n % 10, hmod, hc⟩
      · rw [List.foldl_append, h3]
        simp only [List.foldl_cons, List.foldl_nil, (digitChar_facts _ hmod).1, Option.getD_some]
        omega

theorem parseInt_digits (ds : List Char) (hne : ds ≠ [])
    (hds : ∀ c ∈ ds, ∃ d, d < 10 ∧ c = digitChar d) :
    ds.dropWhile isStrWhiteSpace = ds ∧ ds.head? ≠ some '-' ∧ ds.head? ≠ some '+' ∧
    ds.take 2 ≠ ['0', 'x'] ∧ ds.take 2 ≠ ['0', 'X'] ∧
    ds.takeWhile (fun c => (digitValue 10 c).isSome) = ds := by
  cases ds with
  | nil => exact absurd rfl hne
  | cons c cs =>
    obtain ⟨d, hd, hc⟩ := hds c (List.mem_cons_self _ _)
    obtain ⟨f1, f2, f3, f4, f5, f6, _, _⟩ := digitChar_facts d hd
    refine ⟨?_, ?_, ?_, ?_, ?_, ?_⟩
    · rw [List.dropWhile_cons_of_neg (by rw [hc, f2]; simp)]
    · simp only [List.head?_cons, ne_eq, Option.some.injEq]; rw [hc]; exact f3
    · simp only [List.head?_cons, ne_eq, Option.some.injEq]; rw [hc]; exact f4
    · intro h
      cases cs with
      | nil => simp at h
      | cons c2 cs2 =>
        simp only [List.take, List.cons.injEq, and_true] at h
        obtain ⟨d2, hd2, hc2⟩ := hds c2 (by simp)
        exact (digitChar_facts d2 hd2).2.2.2.2.1 (by rw [← hc2]; exact h.2)
    · intro h
      cases cs with
      | nil => simp at h
      | cons c2 cs2 =>
        simp only [List.take, List.cons.injEq, and_true] at h
        obtain ⟨d2, hd2, hc2⟩ := hds c2 (by simp)
        exact (digitChar_facts d2 hd2).2.2.2.2.2.1 (by rw [← hc2]; exact h.2)
    · rw [List.takeWhile_eq_self_iff]
      intro x hx
      obtain ⟨dx, hdx, hcx⟩ := hds x hx
      rw [hcx, (digitChar_facts dx hdx).1]
      rfl

theorem parseInt_natDigits (n : Nat) :
    parseInt (natToDigits (n + 1) n) = some (n : Int) := by
  obtain ⟨hne, hds, hval⟩ := natToDigits_spec (n + 1) n (Nat.lt_succ_self n)
  obtain ⟨h1, h2, h3, h4, h5, h6⟩ := parseInt_digits _ hne hds
  unfold parseInt
  simp only [h1, h2, h3, h4, h5, or_self, if_false, decide_False, Bool.or_self, Bool.false_eq_true,
    h6, hne, hval]

theorem parseInt_numChars (i : Int) : parseInt (numChars i) = some i := by
  unfold numChars
  split
  · rename_i hneg
    obtain ⟨hne, hds, hval⟩ := natToDigits_spec (i.natAbs + 1) i.natAbs (Nat.lt_succ_self _)
    obtain ⟨h1, h2, h3, h4, h5, h6⟩ := parseInt_digits _ hne hds
    unfold parseInt
    have hw : ('-' :: natToDigits (i.natAbs + 1) i.natAbs).dropWhile isStrWhiteSpace =
        '-' :: natToDigits (i.natAbs + 1) i.natAbs :=
      List.dropWhile_cons_of_neg (by decide)
    simp only [hw, List.head?_cons, true_or, if_true, List.tail_cons, decide_True, h4, h5,
      decide_False, Bool.or_self, Bool.false_eq_true, if_false, h6, hne, hval]
    congr 1
    omega
  · rename_i hnn
    rw [parseInt_natDigits]
    congr 1
    omega

theorem numChars_spec (i : Int) :
    numChars i ≠ [] ∧ '/' ∉ numChars i ∧ Char.ofNat 92 ∉ numChars i := by
  obtain ⟨hne, hds, _⟩ := natToDigits_spec (i.natAbs + 1) i.natAbs (Nat.lt_succ_self _)
  have hno : ∀ c ∈ natToDigits (i.natAbs + 1) i.natAbs, c ≠ '/' ∧ c ≠ Char.ofNat 92 := by
    intro c hc
    obtain ⟨d, hd, hcd⟩ := hds c hc
    rw [hcd]
    exact ⟨(digitChar_facts d hd).2.2.2.2.2.2.1, (digitChar_facts d hd).2.2.2.2.2.2.2⟩
  unfold numChars
  split
  · refine ⟨by simp, ?_, ?_⟩
    · intro h
      rcases List.mem_cons.mp h with h | h
      · revert h; decide
      · exact (hno _ h).1 rfl
    · intro h
      rcases List.mem_cons.mp h with h | h
      · revert h; decide
      · exact (hno _ h).2 rfl
  · exact ⟨hne, fun h => (hno _ h).1 rfl, fun h => (hno _ h).2 rfl⟩


/-! ## The duplicate pattern -/

theorem takeWhile_append_stop {α : Type} (p : α → Bool) (a : List α) (b : α) (c : List α)
    (ha : ∀ x ∈ a, p x = true) (hb : p b = false) :
    (a ++ b :: c).takeWhile p = a ∧ (a ++ b :: c).dropWhile p = b :: c := by
  induction a with
  | nil => simp [List.takeWhile_cons, List.dropWhile_cons, hb]
  | cons x xs ih =>
    have hx := ha x (List.mem_cons_self _ _)
    obtain ⟨h1, h2⟩ := ih (fun y hy => ha y (List.mem_cons_of_mem _ hy))
    simp only [List.cons_append, List.takeWhile_cons, List.dropWhile_cons, hx, if_true, h1, h2,
      and_self]

/-- A name of the form `name (digits).ext` matches the duplicate pattern, with the
groups `name`, `digits` and `.ext`. -/
theorem duplicateMatch_renamed (name digits ext : List Char)
    (hname : ∀ c ∈ name, isLineTerminator c = false)
    (hdigits : digits ≠ []) (hdig : ∀ c ∈ digits, c.isDigit = true)
    (hext : ext ≠ []) (hword : ∀ c ∈ ext, isWordChar c = true) :
    duplicateMatch (name ++ ' ' :: '(' :: digits ++ ')' :: '.' :: ext) =
      some (name, digits, '.' :: ext) := by
  have hrev : (name ++ ' ' :: '(' :: digits ++ ')' :: '.' :: ext).reverse =
      ext.reverse ++ '.' :: ')' :: (digits.reverse ++ '(' :: ' ' :: name.reverse) := by
    simp [List.reverse_append, List.reverse_cons]
  obtain ⟨h1, h2⟩ := takeWhile_append_stop isWordChar ext.reverse '.'
    (')' :: (digits.reverse ++ '(' :: ' ' :: name.reverse))
    (fun x hx => hword x (List.mem_reverse.mp hx)) (by decide)
  obtain ⟨h3, h4⟩ := takeWhile_append_stop Char.isDigit digits.reverse '('
    (' ' :: name.reverse) (fun x hx => hdig x (List.mem_reverse.mp hx)) (by decide)
  unfold duplicateMatch
  simp only [hrev, h1, h2, h3, h4]
  have hall : (name.reverse.all fun c => !isLineTerminator c) = true := by
    rw [List.all_eq_true]
    intro c hc
    rw [hname c (List.mem_reverse.mp hc)]
    rfl
  have hw : ext.reverse ≠ [] := by simpa using hext
  have hd : digits.reverse ≠ [] := by simpa using hdigits
  simp [hall, hw, hd]


/-- A name that matches the duplicate pattern has the form `name (digits).ext`, and
the groups are its three parts. -/
theorem duplicateMatch_sound (f g1 g2 g3 : List Char)
    (h : duplicateMatch f = some (g1, g2, g3)) :
    ∃ w, g3 = '.' :: w ∧ f = g1 ++ ' ' :: '(' :: g2 ++ ')' :: '.' :: w ∧
      w ≠ [] ∧ (∀ c ∈ w, isWordChar c = true) ∧
      g2 ≠ [] ∧ (∀ c ∈ g2, c.isDigit = true) ∧
      ∀ c ∈ g1, isLineTerminator c = false := by
  unfold duplicateMatch at h
  simp only at h
  split at h
  · rename_i dot close r2 hdrop
    split at h
    · rename_i opening space r3 hdrop2
      split at h
      · rename_i hc
        obtain ⟨hdot, hclose, hopen, hspace, hw, hd, hall⟩ := hc
        simp only [Option.some.injEq, Prod.mk.injEq] at h
        obtain ⟨h1, h2, h3⟩ := h
        have e1 := List.takeWhile_append_dropWhile isWordChar f.reverse
        have e2 := List.takeWhile_append_dropWhile Char.isDigit r2
        rw [hdrop] at e1
        rw [hdrop2, hopen, hspace] at e2
        refine ⟨(f.reverse.takeWhile isWordChar).reverse, h3.symm, ?_, ?_, ?_, ?_, ?_, ?_⟩
        · have hf : f.reverse = f.reverse.takeWhile isWordChar ++
              '.' :: ')' :: (r2.takeWhile Char.isDigit ++ '(' :: ' ' :: r3) := by
            rw [e2, ← hdot, ← hclose]
            exact e1.symm
          have hrr := congrArg List.reverse hf
          rw [List.reverse_reverse] at hrr
          rw [← h1, ← h2]
          generalize f.reverse.takeWhile isWordChar = w at hrr ⊢
          rw [hrr]
          simp [List.reverse_append, List.reverse_cons]
        · simpa using hw
        · intro c hc
          rw [List.mem_reverse] at hc
          exact (List.mem_takeWhile_imp hc)
        · rw [← h2]; simpa using hd
        · intro c hc
          rw [← h2, List.mem_reverse] at hc
          exact (List.mem_takeWhile_imp hc)
        · intro c hc
          rw [← h1, List.mem_reverse] at hc
          rw [List.all_eq_true] at hall
          have := hall c hc
          simpa using this
      · simp at h
    · simp at h
  · simp at h

/-! ## `handleDownloadCreated` -/

theorem safe_not_special (c : Char) (h : isSafeChar c = true) :
    c ≠ '/' ∧ c ≠ Char.ofNat 92 ∧ isLineTerminator c = false := by
  refine ⟨?_, ?_, ?_⟩
  · intro hc; rw [hc] at h; revert h; decide
  · intro hc; rw [hc] at h; revert h; decide
  · unfold isLineTerminator
    simp only [Bool.or_eq_false_iff, decide_eq_false_iff_not]
    have key : ∀ n : Nat, isSafeChar (Char.ofNat n) = false → c.toNat ≠ n := by
      intro n hn hc
      have hcn : c = Char.ofNat n := by rw [← hc, Char.ofNat_toNat]
      rw [hcn, hn] at h
      exact Bool.false_ne_true h
    exact ⟨⟨⟨key 10 (by decide), key 13 (by decide)⟩, key 8232 (by decide)⟩, key 8233 (by decide)⟩

theorem digit_not_special (c : Char) (h : c.isDigit = true) :
    c ≠ '/' ∧ c ≠ Char.ofNat 92 := by
  refine ⟨?_, ?_⟩
  · intro hc; rw [hc] at h; revert h; decide
  · intro hc; rw [hc] at h; revert h; decide

theorem word_not_special (c : Char) (h : isWordChar c = true) :
    c ≠ '/' ∧ c ≠ Char.ofNat 92 := by
  refine ⟨?_, ?_⟩
  · intro hc; rw [hc] at h; revert h; decide
  · intro hc; rw [hc] at h; revert h; decide


theorem map_backslash_id (l : List Char) (h : Char.ofNat 92 ∉ l) :
    l.map (fun c => if c = Char.ofNat 92 then '/' else c) = l := by
  induction l with
  | nil => rfl
  | cons c cs ih =>
    simp only [List.mem_cons, not_or] at h
    rw [List.map_cons, ih h.2, if_neg (fun hc => h.1 hc.symm)]

theorem created_path_parts (clean tidS user renamed : List Char)
    (h1 : '/' ∉ tidS) (h2 : '/' ∉ user) (h3 : '/' ∉ renamed) :
    splitOnChar '/' (clean ++ '/' :: (tidS ++ '/' :: (user ++ '/' :: renamed))) =
      splitOnChar '/' clean ++ [tidS, user, renamed] := by
  rw [splitOnChar_append, splitOnChar_append, splitOnChar_append, splitOnChar_of_not_mem _ _ h1,
    splitOnChar_of_not_mem _ _ h2, splitOnChar_of_not_mem _ _ h3]
  rfl

theorem renamedFile_spec (name digits ext : List Char) (sf : String)
    (hcanon : sf.data = name ++ '.' :: ext) (hsafe : ∀ c ∈ sf.data, isSafeChar c = true)
    (hdig : ∀ c ∈ digits, c.isDigit = true) :
    '/' ∉ renamedFile name digits ext ∧ Char.ofNat 92 ∉ renamedFile name digits ext ∧
    renamedFile name digits ext ≠ [] ∧ ∀ c ∈ name, isLineTerminator c = false := by
  have hname : ∀ c ∈ name, isSafeChar c = true := fun c hc =>
    hsafe c (by rw [hcanon]; exact List.mem_append_left _ hc)
  have hext : ∀ c ∈ ext, isSafeChar c = true := fun c hc =>
    hsafe c (by rw [hcanon]; exact List.mem_append_right _ (List.mem_cons_of_mem _ hc))
  have hall : ∀ c ∈ renamedFile name digits ext, c ≠ '/' ∧ c ≠ Char.ofNat 92 := by
    intro c hc
    unfold renamedFile at hc
    simp only [List.mem_append, List.mem_cons] at hc
    rcases hc with (hc | hc | hc | hc) | hc | hc | hc
    · exact ⟨(safe_not_special c (hname c hc)).1, (safe_not_special c (hname c hc)).2.1⟩
    · rw [hc]; decide
    · rw [hc]; decide
    · exact digit_not_special c (hdig c hc)
    · rw [hc]; decide
    · rw [hc]; decide
    · exact ⟨(safe_not_special c (hext c hc)).1, (safe_not_special c (hext c hc)).2.1⟩
  refine ⟨fun h => (hall _ h).1 rfl, fun h => (hall _ h).2 rfl, ?_, ?_⟩
  · unfold renamedFile; simp
  · intro c hc
    exact (safe_not_special c (hname c hc)).2.2


/-- What the listener does with the event of a collision-renamed file of a child whose
canonical path is in the ledger. -/
theorem handleDownloadCreated_renamed (cancelOk : Bool) (s : State) (item : DownloadItem)
    (threadId : Int) (username : Option String) (filename : String) (name digits ext : List Char)
    (hid : item.id ≠ 0)
    (hledger : JSMap.has s.downloadedImages
      (getFullPath s.lastSearchParams threadId username filename) = true)
    (hcanon : (sanitizedFilename filename).data = name ++ '.' :: ext)
    (hext : ext ≠ []) (hword : ∀ c ∈ ext, isWordChar c = true)
    (hdigits : digits ≠ []) (hdig : ∀ c ∈ digits, c.isDigit = true)
    (hevent : item.filename = renamedPath s.lastSearchParams threadId username name digits ext)
    (hroot : Char.ofNat 92 ∉ (stripSlashes s.lastSearchParams.downloadPath).data) :
    handleDownloadCreated cancelOk s item =
      if cancelOk then
        match findThread s.watchedThreads threadId with
        | none => { state := s, cancelled := true, erased := true }
        | some thread =>
          if sanitizedFilename filename ∈ thread.skippedImages then
            { state := s, cancelled := true, erased := true }
          else
            { state := updateWatchedThreads
                { s with watchedThreads :=
                    modifyThread threadId (markSkipped (sanitizedFilename filename)) s.watchedThreads },
              cancelled := true, erased := true }
      else { state := s, cancelled := true, erased := false } := by
  obtain ⟨r1, r2, r3, r4⟩ := renamedFile_spec name digits ext (sanitizedFilename filename) hcanon
    (sanitizedFilename_safe filename) hdig
  obtain ⟨n1, n2, n3⟩ := numChars_spec threadId
  have u1 : '/' ∉ (sanitizedUsername username).data := fun h =>
    (safe_not_special _ (sanitizedUsername_safe username _ h)).1 rfl
  have u2 : Char.ofNat 92 ∉ (sanitizedUsername username).data := fun h =>
    (safe_not_special _ (sanitizedUsername_safe username _ h)).2.1 rfl
  have u3 : (sanitizedUsername username).data ≠ [] := fun h =>
    sanitizedUsername_ne_empty username (String.ext h)
  have hdata : item.filename.data =
      (stripSlashes s.lastSearchParams.downloadPath).data ++ '/' ::
        (numChars threadId ++ '/' ::
          ((sanitizedUsername username).data ++ '/' :: renamedFile name digits ext)) := by
    rw [hevent]
    unfold renamedPath numStr
    simp [String.data_append]
  have hmap : item.filename.data.map (fun c => if c = Char.ofNat 92 then '/' else c) =
      item.filename.data := by
    apply map_backslash_id
    rw [hdata]
    simp only [List.mem_append, List.mem_cons, not_or]
    exact ⟨hroot, by decide, n3, by decide, u2, by decide, r2⟩
  have hparts := created_path_parts (stripSlashes s.lastSearchParams.downloadPath).data
    (numChars threadId) (sanitizedUsername username).data (renamedFile name digits ext) n2 u1 r1
  have hbase : String.mk (name ++ '.' :: ext) = sanitizedFilename filename := String.ext hcanon.symm
  have hpath : String.mk (stripSlashes s.lastSearchParams.downloadPath).data ++ "/" ++
      numStr threadId ++ "/" ++ String.mk (sanitizedUsername username).data ++ "/" ++
      sanitizedFilename filename = getFullPath s.lastSearchParams threadId username filename := rfl
  have hlen : ¬ (splitOnChar '/' (stripSlashes s.lastSearchParams.downloadPath).data ++
      [numChars threadId, (sanitizedUsername username).data, renamedFile name digits ext]).length
        < 4 := by
    have := List.length_pos.mpr (splitOnChar_ne_nil '/'
      (stripSlashes s.lastSearchParams.downloadPath).data)
    simp only [List.length_append, List.length_cons, List.length_nil]
    omega
  rw [hdata] at hmap
  unfold handleDownloadCreated
  simp only [hid, if_false, hdata, hmap, hparts, hlen, List.reverse_append, List.reverse_cons,
    List.reverse_nil, List.nil_append, List.cons_append, List.reverse_reverse,
    intercalate_splitOnChar, r3, u3, n1, or_self, parseInt_numChars]
  rw [show renamedFile name digits ext = name ++ ' ' :: '(' :: digits ++ ')' :: '.' :: ext from rfl,
    duplicateMatch_renamed name digits ext r4 hdigits hdig hext hword]
  simp only [hbase, hpath, hledger, if_true]


theorem nodup_add (xs : List String) (x : String) (h : xs.Nodup) : (JSSet.add xs x).Nodup := by
  unfold JSSet.add
  split
  · exact h
  · rename_i hx
    rw [List.nodup_append]
    refine ⟨h, List.nodup_singleton x, ?_⟩
    intro a ha hb
    rw [List.mem_singleton] at hb
    exact hx (hb ▸ ha)

/-- C7, as stated, fails: the file `1 (1).jpg` is the renamed form of `1.jpg`, whose
canonical path is in the ledger, but `chrome.downloads.cancel` reports an error; the
download is not erased and `1.jpg` does not enter the thread's `skippedImages`. -/
theorem C7_cancel_refused :
    JSMap.has knownState.downloadedImages
      (getFullPath knownState.lastSearchParams 7 none "1.jpg") = true ∧
    renamedItem.filename =
      renamedPath knownState.lastSearchParams 7 none "1".data "1".data "jpg".data ∧
    (handleDownloadCreated false knownState renamedItem).erased = false ∧
    findThread (handleDownloadCreated false knownState renamedItem).state.watchedThreads 7 =
      some { id := 7, active := true, totalImages := 2, skippedImages := [] } :=
  ⟨by decide, by decide, by decide, by decide⟩

/-- C7, amended. Dedup under duplicate-name collision: take a download-created event with
a non-zero id whose filename is, relative to a download root without backslashes, the
collision-renamed form `name (n).ext` of a child of a registered thread whose canonical
path is a key of the ledger.  When `chrome.downloads.cancel` succeeds,
`handleDownloadCreated` cancels and erases that download and afterwards the canonical
filename `name.ext` is in the thread's `skippedImages`, exactly once; the count is
recomputed as `min(|skippedImages|, totalImages)` when the filename was not in the set
before, and a thread that already had it is left untouched.  When the cancel fails, the
listener erases nothing and leaves the stores as they were. -/
theorem C7_dedup_under_collision (s : State) (item : DownloadItem) (threadId : Int)
    (username : Option String) (filename : String) (thread : Thread) (name digits ext : List Char)
    (hid : item.id ≠ 0)
    (hledger : JSMap.has s.downloadedImages
      (getFullPath s.lastSearchParams threadId username filename) = true)
    (hcanon : (sanitizedFilename filename).data = name ++ '.' :: ext)
    (hext : ext ≠ []) (hword : ∀ c ∈ ext, isWordChar c = true)
    (hdigits : digits ≠ []) (hdig : ∀ c ∈ digits, c.isDigit = true)
    (hevent : item.filename = renamedPath s.lastSearchParams threadId username name digits ext)
    (hroot : Char.ofNat 92 ∉ (stripSlashes s.lastSearchParams.downloadPath).data)
    (hfind : findThread s.watchedThreads threadId = some thread) :
    (handleDownloadCreated true s item).cancelled = true ∧
    (handleDownloadCreated true s item).erased = true ∧
    (∃ t, findThread (handleDownloadCreated true s item).state.watchedThreads threadId = some t ∧
      sanitizedFilename filename ∈ t.skippedImages ∧
      (thread.skippedImages.Nodup → t.skippedImages.count (sanitizedFilename filename) = 1) ∧
      (sanitizedFilename filename ∉ thread.skippedImages ∨
          thread.downloadedCount = min (thread.skippedImages.length : Int) thread.totalImages →
        t.downloadedCount = min (t.skippedImages.length : Int) t.totalImages) ∧
      (sanitizedFilename filename ∈ thread.skippedImages → t = thread)) ∧
    (handleDownloadCreated false s item).cancelled = true ∧
    (handleDownloadCreated false s item).erased = false ∧
    (handleDownloadCreated false s item).state = s := by
  have htrue := handleDownloadCreated_renamed true s item threadId username filename name digits ext
    hid hledger hcanon hext hword hdigits hdig hevent hroot
  have hfalse := handleDownloadCreated_renamed false s item threadId username filename name digits
    ext hid hledger hcanon hext hword hdigits hdig hevent hroot
  have hF : handleDownloadCreated false s item =
      { state := s, cancelled := true, erased := false } := by
    rw [hfalse]; rfl
  have hT : handleDownloadCreated true s item =
      if sanitizedFilename filename ∈ thread.skippedImages then
        { state := s, cancelled := true, erased := true }
      else
        { state := updateWatchedThreads
            { s with watchedThreads :=
                modifyThread threadId (markSkipped (sanitizedFilename filename)) s.watchedThreads },
          cancelled := true, erased := true } := by
    rw [htrue, hfind]; rfl
  refine ⟨?_, ?_, ?_, by rw [hF], by rw [hF], by rw [hF]⟩
  · rw [hT]; split <;> rfl
  · rw [hT]; split <;> rfl
  · rw [hT]
    by_cases hsk : sanitizedFilename filename ∈ thread.skippedImages
    · rw [if_pos hsk]
      refine ⟨thread, hfind, hsk, ?_, ?_, fun _ => rfl⟩
      · intro hn; exact List.count_eq_one_of_mem hn hsk
      · rintro (h | h)
        · exact absurd hsk h
        · exact h
    · rw [if_neg hsk]
      refine ⟨recount (markSkipped (sanitizedFilename filename) thread), ?_, ?_, ?_, ?_,
        fun h => absurd h hsk⟩
      · have := findThread_update_mark s threadId (sanitizedFilename filename) s.downloadedImages
        rw [hfind] at this
        exact this
      · rw [recount_skipped]; exact mem_markSkipped _ _
      · intro hn
        rw [recount_skipped]
        exact List.count_eq_one_of_mem (nodup_add _ _ hn) (mem_markSkipped _ _)
      · intro _
        rw [recount_count, recount_skipped, recount_total]

/-- Witness of C7: the renamed file `1 (1).jpg` of thread 7, whose `1.jpg` is in the
ledger. -/
theorem C7_dedup_under_collision_witness :
    JSMap.has knownState.downloadedImages
      (getFullPath knownState.lastSearchParams 7 none "1.jpg") = true ∧
    renamedItem.filename =
      renamedPath knownState.lastSearchParams 7 none "1".data "1".data "jpg".data ∧
    (handleDownloadCreated true knownState renamedItem).cancelled = true ∧
    (handleDownloadCreated true knownState renamedItem).erased = true :=
  have h := C7_dedup_under_collision knownState renamedItem 7 none "1.jpg"
    { id := 7, active := true, totalImages := 2 } "1".data "1".data "jpg".data
    (by decide) (by decide) (by decide) (by decide) (by decide) (by decide) (by decide)
    (by decide) (by decide) (by decide)
  ⟨by decide, by decide, h.1, h.2.1⟩


/-! ## The progress invariant after the commands -/

theorem mem_modifyThread (k : Int) (f : Thread → Thread) (ws : List Thread) (t : Thread)
    (h : t ∈ modifyThread k f ws) : t ∈ ws ∨ ∃ u ∈ ws, t = f u := by
  induction ws with
  | nil => simp [modifyThread] at h
  | cons w rest ih =>
    unfold modifyThread at h
    split at h
    · rcases List.mem_cons.mp h with h1 | h1
      · exact Or.inr ⟨w, List.mem_cons_self _ _, h1⟩
      · exact Or.inl (List.mem_cons_of_mem _ h1)
    · rcases List.mem_cons.mp h with h1 | h1
      · left; rw [h1]; exact List.mem_cons_self _ _
      · rcases ih h1 with h2 | ⟨u, hu, h2⟩
        · exact Or.inl (List.mem_cons_of_mem _ h2)
        · exact Or.inr ⟨u, List.mem_cons_of_mem _ hu, h2⟩

/-- A registry that was saved after one thread was rewritten satisfies the progress
invariant, when the rewrite keeps totals non-negative. -/
theorem progressInv_saved (k : Int) (f : Thread → Thread) (ws : List Thread)
    (h : ∀ t ∈ ws, 0 ≤ t.totalImages) (hf : ∀ t, 0 ≤ t.totalImages → 0 ≤ (f t).totalImages) :
    ∀ t ∈ (deduplicateWatchedThreads (modifyThread k f ws)).1.map recount,
      ProgressInv t ∧ 0 ≤ t.totalImages := by
  intro t ht
  rw [List.mem_map] at ht
  obtain ⟨u, hu, rfl⟩ := ht
  have hu2 := mem_deduplicate _ _ hu
  have htot : 0 ≤ u.totalImages := by
    rcases mem_modifyThread k f ws u hu2 with h1 | ⟨v, hv, h1⟩
    · exact h u h1
    · rw [h1]; exact hf v (h v hv)
  exact ⟨progressInv_recount u htot, by rw [recount_total]; exact htot⟩

theorem downloadImage_registry (env : Nat → Attempt) (s : State) (url : String) (threadId : Int)
    (username : Option String) :
    (downloadImage env s url threadId username).state.watchedThreads = s.watchedThreads ∨
    (downloadImage env s url threadId username).state.watchedThreads =
      (deduplicateWatchedThreads
        (modifyThread threadId (markSkipped (lastSegment url)) s.watchedThreads)).1.map recount := by
  cases hfind : findThread s.watchedThreads threadId with
  | none =>
    left
    unfold downloadImage
    rw [hfind]
  | some thread =>
    rw [downloadImage_eq env s url threadId username thread hfind]
    unfold downloadLocked
    simp only
    split
    · split
      · right; rfl
      · left; rfl
    · split
      · left; rfl
      · rcases attemptLoop_cases env threadId (lastSegment url)
          (getFullPath s.lastSearchParams threadId username (lastSegment url))
          (downloadKeyOf threadId (lastSegment url)) MAX_RETRIES 0
          (lockedState s (downloadKeyOf threadId (lastSegment url))) with
          ⟨ad, h1, _, _⟩ | ⟨ad, j, _, h1, _, _⟩
        · left
          rw [h1]
          rfl
        · right
          rw [h1]
          rfl

theorem handleDownloadCreated_registry (cancelOk : Bool) (s : State) (item : DownloadItem) :
    (handleDownloadCreated cancelOk s item).state.watchedThreads = s.watchedThreads ∨
    ∃ (k : Int) (f : String),
      (handleDownloadCreated cancelOk s item).state.watchedThreads =
        (deduplicateWatchedThreads (modifyThread k (markSkipped f) s.watchedThreads)).1.map recount := by
  unfold handleDownloadCreated
  simp only
  split
  · left; rfl
  · split
    · left; rfl
    · split
      · split
        · left; rfl
        · split
          · left; rfl
          · split
            · left; rfl
            · split
              · split
                · split
                  · left; rfl
                  · split
                    · left; rfl
                    · right; exact ⟨_, _, rfl⟩
                · left; rfl
              · left; rfl
      · left; rfl

theorem resumeThread_inv (env : ResumeEnv) (cur : State) (j : Int)
    (h : ∀ t ∈ cur.watchedThreads, 0 ≤ t.totalImages) :
    (resumeThread env cur j).watchedThreads = cur.watchedThreads ∨
    ∀ t ∈ (resumeThread env cur j).watchedThreads, ProgressInv t ∧ 0 ≤ t.totalImages := by
  unfold resumeThread
  split
  · left; rfl
  · rename_i thread hfind
    split
    · left; rfl
    · split
      · right; exact progressInv_saved j _ _ h (fun _ ht => ht)
      · split
        · right; exact progressInv_saved j _ _ h (fun _ ht => ht)
        · right; exact progressInv_saved j _ _ h (fun _ ht => ht)
        · rename_i op rest hposts
          split
          · right; exact progressInv_saved j _ _ h (fun _ ht => ht)
          · right
            have := progressInv_saved j
              (syncedThread (((op :: rest).filter isImagePost).length : Int)
                (rebuildSkipped cur.downloadedImages thread.id)) _ h
              (fun _ _ => Int.ofNat_nonneg _)
            simp only
            split
            · split <;> exact this
            · exact this

theorem resumeLoop_inv (env : ResumeEnv) :
    ∀ (snapshot : List Thread) (cur : State), (∀ t ∈ cur.watchedThreads, 0 ≤ t.totalImages) →
      (resumeLoop env snapshot cur).watchedThreads = cur.watchedThreads ∨
      ∀ t ∈ (resumeLoop env snapshot cur).watchedThreads, ProgressInv t ∧ 0 ≤ t.totalImages := by
  intro snapshot
  induction snapshot with
  | nil => intro cur _; left; rfl
  | cons x xs ih =>
    intro cur h
    unfold resumeLoop
    rcases resumeThread_inv env cur x.id h with h1 | h1
    · rcases ih (resumeThread env cur x.id) (by rw [h1]; exact h) with h2 | h2
      · left; rw [h2, h1]
      · right; exact h2
    · rcases ih (resumeThread env cur x.id) (fun t ht => (h1 t ht).2) with h2 | h2
      · right; rw [h2]; exact h1
      · right; exact h2

theorem resumeActiveThreads_inv (env : ResumeEnv) (s : State)
    (h : ∀ t ∈ s.watchedThreads, 0 ≤ t.totalImages) :
    (resumeActiveThreads env s).watchedThreads = s.watchedThreads ∨
    ∀ t ∈ (resumeActiveThreads env s).watchedThreads, ProgressInv t := by
  unfold resumeActiveThreads
  split
  · left; rfl
  · simp only
    split
    · left; rfl
    · rw [manageThreadsKick_watchedThreads]
      rcases resumeLoop_inv env _ s h with h1 | h1
      · left; exact h1
      · right; exact fun t ht => (h1 t ht).1


/-! ## The progress invariant (claim C1) -/

/-- C1. Progress invariant: in a registry whose threads all have `totalImages ≥ 0`,
after `updateWatchedThreads` every watched thread has
`0 ≤ downloadedCount ≤ totalImages` and `downloadedCount = min(|skippedImages|, totalImages)`.
Hence the same holds after the commands that end by calling it: after the
`syncThreadCounts` handler (whether or not it saves), and after `downloadImage`, the
`onCreated` duplicate handler and `resumeActiveThreads` whenever they change the
registry at all. -/
theorem C1_progress_invariant (s : State) (h : ∀ t ∈ s.watchedThreads, 0 ≤ t.totalImages) :
    (∀ t ∈ (updateWatchedThreads s).watchedThreads, ProgressInv t) ∧
    (∀ t ∈ (syncThreadCounts s).watchedThreads, ProgressInv t) ∧
    (∀ (env : Nat → Attempt) (url : String) (threadId : Int) (username : Option String),
      (downloadImage env s url threadId username).state.watchedThreads = s.watchedThreads ∨
      ∀ t ∈ (downloadImage env s url threadId username).state.watchedThreads, ProgressInv t) ∧
    (∀ (cancelOk : Bool) (item : DownloadItem),
      (handleDownloadCreated cancelOk s item).state.watchedThreads = s.watchedThreads ∨
      ∀ t ∈ (handleDownloadCreated cancelOk s item).state.watchedThreads, ProgressInv t) ∧
    (∀ env : ResumeEnv,
      (resumeActiveThreads env s).watchedThreads = s.watchedThreads ∨
      ∀ t ∈ (resumeActiveThreads env s).watchedThreads, ProgressInv t) := by
  refine ⟨progressInv_update s h, progressInv_syncThreadCounts s h, ?_, ?_,
    fun env => resumeActiveThreads_inv env s h⟩
  · intro env url threadId username
    rcases downloadImage_registry env s url threadId username with h1 | h1
    · exact Or.inl h1
    · right
      rw [h1]
      exact fun t ht =>
        (progressInv_saved threadId (markSkipped (lastSegment url)) _ h (fun _ hu => hu) t ht).1
  · intro cancelOk item
    rcases handleDownloadCreated_registry cancelOk s item with h1 | ⟨k, f, h1⟩
    · exact Or.inl h1
    · right
      rw [h1]
      exact fun t ht => (progressInv_saved k (markSkipped f) _ h (fun _ hu => hu) t ht).1

/-- Witness of C1: a registry whose thread has a stale count. -/
theorem C1_progress_invariant_witness :
    (∀ t ∈ staleState.watchedThreads, 0 ≤ t.totalImages) ∧
    (∀ t ∈ (updateWatchedThreads staleState).watchedThreads, ProgressInv t) :=
  ⟨by decide, (C1_progress_invariant staleState (by decide)).1⟩

/-! ## `deduplicateWatchedThreads` keeps the first thread of each id -/

theorem dedupLoop_shape (ws : List Thread) :
    ∀ (seen : List Int) (acc : List Thread),
      ∃ l, dedupLoop ws seen acc = acc ++ l ∧ List.Sublist l ws ∧
        (l.map (fun t => t.id)).Nodup ∧ (∀ t ∈ l, t.id ∉ seen) ∧
        (∀ t ∈ ws, t.id ∈ seen ∨ t.id ∈ l.map (fun t => t.id)) := by
  induction ws with
  | nil =>
    intro seen acc
    exact ⟨[], by simp [dedupLoop], List.Sublist.refl _, List.nodup_nil, by simp, by simp⟩
  | cons w rest ih =>
    intro seen acc
    unfold dedupLoop
    split
    · rename_i hseen
      obtain ⟨l, hl, hsub, hnd, hns, hall⟩ := ih seen acc
      refine ⟨l, hl, List.Sublist.cons _ hsub, hnd, hns, ?_⟩
      intro t ht
      rcases List.mem_cons.mp ht with h | h
      · left; rw [h]; exact hseen
      · exact hall t h
    · rename_i hseen
      obtain ⟨l, hl, hsub, hnd, hns, hall⟩ := ih (seen ++ [w.id]) (acc ++ [w])
      refine ⟨w :: l, ?_, List.Sublist.cons₂ _ hsub, ?_, ?_, ?_⟩
      · rw [hl]; simp
      · rw [List.map_cons, List.nodup_cons]
        refine ⟨?_, hnd⟩
        intro hmem
        obtain ⟨t, ht, hid⟩ := List.mem_map.mp hmem
        exact hns t ht (by simp [hid])
      · intro t ht
        rcases List.mem_cons.mp ht with h | h
        · rw [h]; exact hseen
        · intro hs
          exact hns t h (List.mem_append_left _ hs)
      · intro t ht
        rcases List.mem_cons.mp ht with h | h
        · right; rw [h]; simp
        · rcases hall t h with h1 | h1
          · rcases List.mem_append.mp h1 with h2 | h2
            · exact Or.inl h2
            · right
              rw [List.mem_singleton] at h2
              rw [h2]; simp
          · right; exact List.mem_cons_of_mem _ h1

theorem dedupLoop_of_nodup (ws : List Thread) :
    ∀ (seen : List Int) (acc : List Thread),
      (ws.map (fun t => t.id)).Nodup → (∀ t ∈ ws, t.id ∉ seen) →
      dedupLoop ws seen acc = acc ++ ws := by
  induction ws with
  | nil => intro seen acc _ _; simp [dedupLoop]
  | cons w rest ih =>
    intro seen acc hnd hns
    rw [List.map_cons, List.nodup_cons] at hnd
    unfold dedupLoop
    rw [if_neg (hns w (List.mem_cons_self _ _))]
    rw [ih (seen ++ [w.id]) (acc ++ [w]) hnd.2]
    · simp
    · intro t ht hmem
      rcases List.mem_append.mp hmem with h | h
      · exact hns t (List.mem_cons_of_mem _ ht) h
      · rw [List.mem_singleton] at h
        exact hnd.1 (List.mem_map.mpr ⟨t, ht, h⟩)

theorem deduplicate_shape (ws : List Thread) :
    (deduplicateWatchedThreads ws).1 = dedupLoop ws [] [] ∧
    ((deduplicateWatchedThreads ws).2 = true ↔ (dedupLoop ws [] []).length ≠ ws.length) := by
  unfold deduplicateWatchedThreads
  simp only
  split
  · rename_i h
    exact ⟨rfl, by simp [h]⟩
  · rename_i h
    have hlen : (dedupLoop ws [] []).length = ws.length := by simpa using h
    obtain ⟨l, hl, hsub, -, -, -⟩ := dedupLoop_shape ws [] []
    rw [List.nil_append] at hl
    refine ⟨?_, by simp [hlen]⟩
    rw [hl] at hlen ⊢
    exact (hsub.eq_of_length hlen).symm

theorem deduplicate_nodup (ws : List Thread) :
    ((deduplicateWatchedThreads ws).1.map (fun t => t.id)).Nodup := by
  rw [(deduplicate_shape ws).1]
  obtain ⟨l, hl, -, hnd, -, -⟩ := dedupLoop_shape ws [] []
  rw [hl, List.nil_append]
  exact hnd

theorem deduplicate_sublist (ws : List Thread) :
    List.Sublist (deduplicateWatchedThreads ws).1 ws := by
  rw [(deduplicate_shape ws).1]
  obtain ⟨l, hl, hsub, -, -, -⟩ := dedupLoop_shape ws [] []
  rw [hl, List.nil_append]
  exact hsub

theorem deduplicate_of_nodup (ws : List Thread) (h : (ws.map (fun t => t.id)).Nodup) :
    deduplicateWatchedThreads ws = (ws, false) := by
  have hloop : dedupLoop ws [] [] = ws := by
    rw [dedupLoop_of_nodup ws [] [] h (by simp)]
    simp
  unfold deduplicateWatchedThreads
  simp only [hloop]
  simp

/-- C18. Registry dedup keeps the first: `deduplicateWatchedThreads` leaves a subsequence
of the input (order preserved) whose ids are pairwise distinct, in which every id of the
input is still present and the thread kept for an id is the first one of the input with
that id; it returns `true` exactly when the list became shorter, that is when at least
one entry was removed; and applied a second time it changes nothing and returns
`false`. -/
theorem C18_dedup_keeps_first (ws : List Thread) :
    List.Sublist (deduplicateWatchedThreads ws).1 ws ∧
    ((deduplicateWatchedThreads ws).1.map (fun t => t.id)).Nodup ∧
    (∀ t ∈ ws, t.id ∈ (deduplicateWatchedThreads ws).1.map (fun t => t.id)) ∧
    (∀ k, findThread (deduplicateWatchedThreads ws).1 k = findThread ws k) ∧
    ((deduplicateWatchedThreads ws).2 = true ↔
      (deduplicateWatchedThreads ws).1.length < ws.length) ∧
    deduplicateWatchedThreads (deduplicateWatchedThreads ws).1 =
      ((deduplicateWatchedThreads ws).1, false) := by
  refine ⟨deduplicate_sublist ws, deduplicate_nodup ws, ?_, findThread_deduplicate ws, ?_,
    deduplicate_of_nodup _ (deduplicate_nodup ws)⟩
  · intro t ht
    rw [(deduplicate_shape ws).1]
    obtain ⟨l, hl, -, -, -, hall⟩ := dedupLoop_shape ws [] []
    rw [hl, List.nil_append]
    rcases hall t ht with h | h
    · simp at h
    · exact h
  · rw [(deduplicate_shape ws).2, ← (deduplicate_shape ws).1]
    have hle := (deduplicate_sublist ws).length_le
    omega

/-! ## Oldest-first eviction -/

theorem JSMap.nodup_keys_set {α : Type} (m : List (String × α)) (k : String) (v : α)
    (h : (JSMap.keys m).Nodup) : (JSMap.keys (JSMap.set m k v)).Nodup := by
  by_cases hk : k ∈ JSMap.keys m
  · rw [JSMap.keys_set_of_mem m k v hk]; exact h
  · rw [JSMap.keys_set_of_not_mem m k v hk]
    apply List.Nodup.append h (by simp)
    intro x hx hx2
    rw [List.mem_singleton] at hx2
    rw [hx2] at hx
    exact hk hx

theorem JSMap.length_le_length_set {α : Type} (m : List (String × α)) (k : String) (v : α) :
    m.length ≤ (JSMap.set m k v).length := by
  unfold JSMap.set
  split <;> simp

theorem JSMap.mem_delete {α : Type} (m : List (String × α)) (k : String) (e : String × α) :
    e ∈ JSMap.delete m k ↔ e ∈ m ∧ e.1 ≠ k := by
  unfold JSMap.delete
  simp [List.mem_filter]

theorem JSMap.key_injective {α : Type} (m : List (String × α)) (h : (JSMap.keys m).Nodup)
    (a b : String × α) (ha : a ∈ m) (hb : b ∈ m) (hk : a.1 = b.1) : a = b := by
  unfold JSMap.keys at h
  exact List.inj_on_of_nodup_map h ha hb hk

theorem head_sorted_le (ledger : List (String × LedgerEntry)) (oldest : String × LedgerEntry)
    (h : (ledger.insertionSort (fun a b => a.2.timestamp ≤ b.2.timestamp)).head? = some oldest) :
    ∀ e ∈ ledger, oldest.2.timestamp ≤ e.2.timestamp := by
  intro e he
  haveI : IsTotal (String × LedgerEntry) (fun a b => a.2.timestamp ≤ b.2.timestamp) :=
    ⟨fun a b => le_total a.2.timestamp b.2.timestamp⟩
  haveI : IsTrans (String × LedgerEntry) (fun a b => a.2.timestamp ≤ b.2.timestamp) :=
    ⟨fun _ _ _ hab hbc => le_trans hab hbc⟩
  have hsorted := List.sorted_insertionSort (fun a b : String × LedgerEntry =>
    a.2.timestamp ≤ b.2.timestamp) ledger
  have hmem : e ∈ ledger.insertionSort (fun a b => a.2.timestamp ≤ b.2.timestamp) :=
    (List.perm_insertionSort _ ledger).mem_iff.mpr he
  cases hs : ledger.insertionSort (fun a b => a.2.timestamp ≤ b.2.timestamp) with
  | nil => rw [hs] at hmem; simp at hmem
  | cons x rest =>
    rw [hs] at h hsorted hmem
    simp only [List.head?_cons, Option.some.injEq] at h
    subst h
    rcases List.mem_cons.mp hmem with h1 | h1
    · rw [h1]
    · exact List.rel_of_sorted_cons hsorted e h1

theorem evictOldest_over (ledger : List (String × LedgerEntry))
    (hover : JSMap.size ledger > MAX_DOWNLOADED_IMAGES) :
    ∃ oldest, (ledger.insertionSort (fun a b => a.2.timestamp ≤ b.2.timestamp)).head? = some oldest ∧
      evictOldest ledger = JSMap.delete ledger oldest.1 := by
  unfold evictOldest
  rw [if_pos hover]
  cases hs : (ledger.insertionSort (fun a b => a.2.timestamp ≤ b.2.timestamp)).head? with
  | some oldest => exact ⟨oldest, rfl, rfl⟩
  | none =>
    exfalso
    have hnil : ledger.insertionSort (fun a b => a.2.timestamp ≤ b.2.timestamp) = [] := by
      simpa using hs
    have hlen := (List.perm_insertionSort (fun a b : String × LedgerEntry =>
      a.2.timestamp ≤ b.2.timestamp) ledger).length_eq
    rw [hnil] at hlen
    unfold JSMap.size at hover
    simp only [List.length_nil] at hlen
    omega

/-- C20. Oldest-first eviction: whenever recording a successful download (line 206) makes
the ledger larger than `MAX_DOWNLOADED_IMAGES`, exactly one entry is removed (the size
drops by one, every other entry stays, nothing is added) and the timestamp of the
removed entry is less than or equal to the timestamp of every entry that remains. -/
theorem C20_oldest_first_eviction (ledger : List (String × LedgerEntry)) (fullPath : String)
    (now threadId : Int) (hkeys : (JSMap.keys ledger).Nodup)
    (hover : JSMap.size (JSMap.set ledger fullPath { timestamp := now, threadId := threadId }) >
      MAX_DOWNLOADED_IMAGES) :
    JSMap.size (recordDownload ledger fullPath now threadId) + 1 =
      JSMap.size (JSMap.set ledger fullPath { timestamp := now, threadId := threadId }) ∧
    ∃ oldest ∈ JSMap.set ledger fullPath { timestamp := now, threadId := threadId },
      oldest ∉ recordDownload ledger fullPath now threadId ∧
      (∀ e ∈ JSMap.set ledger fullPath { timestamp := now, threadId := threadId },
        e ≠ oldest → e ∈ recordDownload ledger fullPath now threadId) ∧
      (∀ e ∈ recordDownload ledger fullPath now threadId,
        e ∈ JSMap.set ledger fullPath { timestamp := now, threadId := threadId }) ∧
      ∀ e ∈ recordDownload ledger fullPath now threadId,
        oldest.2.timestamp ≤ e.2.timestamp := by
  have hnd := JSMap.nodup_keys_set ledger fullPath
    ({ timestamp := now, threadId := threadId } : LedgerEntry) hkeys
  obtain ⟨oldest, hhead, hev⟩ := evictOldest_over _ hover
  have hmem := head_sorted_mem _ oldest hhead
  have hmin := head_sorted_le _ oldest hhead
  have hrec : recordDownload ledger fullPath now threadId =
      JSMap.delete (JSMap.set ledger fullPath { timestamp := now, threadId := threadId })
        oldest.1 := by
    unfold recordDownload
    exact hev
  rw [hrec]
  refine ⟨?_, oldest, hmem, ?_, ?_, ?_, ?_⟩
  · have h1 := JSMap.length_delete_lt _ oldest.1
      (by unfold JSMap.keys; exact List.mem_map.mpr ⟨oldest, hmem, rfl⟩)
    have h2 := JSMap.length_le_delete_succ _ oldest.1 hnd
    unfold JSMap.size
    omega
  · intro h
    exact ((JSMap.mem_delete _ _ _).mp h).2 rfl
  · intro e he hne
    rw [JSMap.mem_delete]
    refine ⟨he, ?_⟩
    intro hk
    exact hne (JSMap.key_injective _ hnd e oldest he hmem hk)
  · intro e he
    exact ((JSMap.mem_delete _ _ _).mp he).1
  · intro e he
    exact hmin e ((JSMap.mem_delete _ _ _).mp he).1

theorem C20_oldest_first_eviction_witness :
    (JSMap.keys overfullLedger).Nodup ∧
    JSMap.size (JSMap.set overfullLedger "4chan_downloads/7/Anonymous/1.jpg"
      { timestamp := 5, threadId := 7 }) > MAX_DOWNLOADED_IMAGES ∧
    JSMap.size (recordDownload overfullLedger "4chan_downloads/7/Anonymous/1.jpg" 5 7) + 1 =
      JSMap.size (JSMap.set overfullLedger "4chan_downloads/7/Anonymous/1.jpg"
        { timestamp := 5, threadId := 7 }) :=
  have hover : JSMap.size (JSMap.set overfullLedger "4chan_downloads/7/Anonymous/1.jpg"
      { timestamp := 5, threadId := 7 }) > MAX_DOWNLOADED_IMAGES := by
    have h1 := JSMap.length_le_length_set overfullLedger "4chan_downloads/7/Anonymous/1.jpg"
      ({ timestamp := 5, threadId := 7 } : LedgerEntry)
    have h2 := overfullLedger_size
    unfold JSMap.size at h2 ⊢
    unfold MAX_DOWNLOADED_IMAGES
    omega
  ⟨overfullLedger_keys_nodup, hover,
    (C20_oldest_first_eviction overfullLedger "4chan_downloads/7/Anonymous/1.jpg" 5 7
      overfullLedger_keys_nodup hover).1⟩

/-! ## `fetchWithRetry` -/

theorem fetchWithRetry_unfold {α : Type} (s : State) (responses : Nat → Option α)
    (h : (!s.isRunning && !s.isInitialized) = false) :
    fetchWithRetry s responses =
      match responses 0 with
      | some d => { value := some d, attempts := 1 }
      | none =>
        match responses 1 with
        | some d => { value := some d, attempts := 2 }
        | none =>
          match responses 2 with
          | some d => { value := some d, attempts := 3 }
          | none => { value := none, attempts := 3, error := some (FetchError.attemptFailed 2) } := by
  unfold fetchWithRetry MAX_RETRIES
  unfold fetchLoop
  simp only [h, Bool.false_eq_true, if_false, MAX_RETRIES]
  cases responses 0 with
  | some d => rfl
  | none =>
    simp only
    unfold fetchLoop
    simp only [h, Bool.false_eq_true, if_false, MAX_RETRIES]
    cases responses 1 with
    | some d => rfl
    | none =>
      simp only
      unfold fetchLoop
      simp only [h, Bool.false_eq_true, if_false, MAX_RETRIES]
      cases responses 2 with
      | some d => rfl
      | none => rfl

/-- C19, evaluation at the failing input: the process is stopped (`isRunning = false`) in
an initialized worker, the state every stop leaves.  `fetchWithRetry` does not abort: it
issues a fetch and returns its payload, and when the attempts fail it issues all three.
The guard of line 70 fires only when `isInitialized` is false as well, and then it throws
before the first fetch, although its comment says that a fetch during initialization is
allowed. -/
theorem C19_fetch_while_not_running :
    ({ isRunning := false, isInitialized := true } : State).isRunning = false ∧
    (fetchWithRetry { isRunning := false, isInitialized := true }
      (fun _ => some (1 : Nat))).attempts = 1 ∧
    (fetchWithRetry { isRunning := false, isInitialized := true }
      (fun _ => some (1 : Nat))).value = some 1 ∧
    (fetchWithRetry { isRunning := false, isInitialized := true }
      (fun _ => (none : Option Nat))).attempts = 3 ∧
    (fetchWithRetry { isRunning := false, isInitialized := false }
      (fun _ => some (1 : Nat))).attempts = 0 ∧
    (fetchWithRetry { isRunning := false, isInitialized := false }
      (fun _ => some (1 : Nat))).error = some FetchError.stopped :=
  ⟨by decide, by decide, by decide, by decide, by decide, by decide⟩

/-- What `fetchWithRetry` does by its flags.  In a state with `isRunning = false` and
`isInitialized = false` it fails with the error "process stopped" before issuing a fetch
attempt.  With `isRunning = true` it issues at most `MAX_RETRIES` (3) attempts, returns the
payload of the first successful one, and when all three fail it rethrows the error of
the last attempt. -/
theorem fetchWithRetry_attempts {α : Type} (s : State) (responses : Nat → Option α) :
    (s.isRunning = false ∧ s.isInitialized = false →
      fetchWithRetry s responses =
        { value := none, attempts := 0, error := some FetchError.stopped }) ∧
    (s.isRunning = true →
      (fetchWithRetry s responses).attempts ≤ MAX_RETRIES ∧
      (∀ (i : Nat) (d : α), i < MAX_RETRIES → responses i = some d →
        (∀ j < i, responses j = none) →
        fetchWithRetry s responses = { value := some d, attempts := i + 1, error := none }) ∧
      ((∀ i < MAX_RETRIES, responses i = none) →
        fetchWithRetry s responses =
          { value := none, attempts := MAX_RETRIES,
            error := some (FetchError.attemptFailed (MAX_RETRIES - 1)) })) := by
  constructor
  · rintro ⟨h1, h2⟩
    unfold fetchWithRetry MAX_RETRIES
    unfold fetchLoop
    simp [h1, h2]
  · intro h
    have hflag : (!s.isRunning && !s.isInitialized) = false := by simp [h]
    rw [fetchWithRetry_unfold s responses hflag]
    unfold MAX_RETRIES
    refine ⟨?_, ?_, ?_⟩
    · cases responses 0 <;> cases responses 1 <;> cases responses 2 <;> simp
    · intro i d hi hd hprev
      have hcases : i = 0 ∨ i = 1 ∨ i = 2 := by omega
      rcases hcases with rfl | rfl | rfl
      · rw [hd]
      · rw [hprev 0 (by omega), hd]
      · rw [hprev 0 (by omega), hprev 1 (by omega), hd]
    · intro hall
      rw [hall 0 (by omega), hall 1 (by omega), hall 2 (by omega)]

theorem fetchWithRetry_attempts_example :
    fetchWithRetry ({ isRunning := true } : State)
        (fun i => if i = 0 then none else some (7 : Nat)) =
      { value := some 7, attempts := 2, error := none } :=
  (fetchWithRetry_attempts ({ isRunning := true } : State)
    (fun i => if i = 0 then none else some (7 : Nat))).2 rfl |>.2.1 1 7 (by decide)
    (by decide) (by intro j hj; have : j = 0 := by omega
                    simp [this])

/-! ## The dispatch order -/

theorem threadsToProcess_eq (s : State)
    (hslots : processingCount s.activeDownloads < MAX_CONCURRENT_THREADS) :
    threadsToProcess (s.watchedThreads.filter (fun t => t.active && !t.error && !t.closed)) s =
      (s.watchedThreads.filter (fun t =>
        (t.active && !t.error && !t.closed) &&
          (!JSMap.has s.activeDownloads (markerKey t.id) &&
            (decide (t.downloadedCount < t.totalImages) || decide (t.totalImages = 0))))).take
        (MAX_CONCURRENT_THREADS - processingCount s.activeDownloads) := by
  unfold threadsToProcess
  simp only
  have hpos : ¬ ((MAX_CONCURRENT_THREADS : Int) - (processingCount s.activeDownloads : Int) ≤ 0) := by
    omega
  rw [if_neg hpos]
  have hnat : ((MAX_CONCURRENT_THREADS : Int) - (processingCount s.activeDownloads : Int)).toNat =
      MAX_CONCURRENT_THREADS - processingCount s.activeDownloads := by omega
  rw [hnat, List.filter_filter, List.filter_filter]
  congr 1
  apply List.filter_congr
  intro t _
  cases t.active <;> cases t.error <;> cases t.closed <;>
    cases JSMap.has s.activeDownloads (markerKey t.id) <;>
    cases decide (t.downloadedCount < t.totalImages) <;>
    cases decide (t.totalImages = 0) <;> rfl

/-- The dispatch of lines 602-619 when the candidates of line 552 are read from the very
registry that the dispatch filter reads, that is, when nothing changed a thread between
the two lines: with `availableSlots = MAX_CONCURRENT_THREADS - (number of processing
markers) > 0`, the threads handed to `processThread` are the first `availableSlots`
elements, in registry order, of the watched threads that are active, not errored, not
closed, carry no processing marker and have `downloadedCount < totalImages` or
`totalImages = 0`, and exactly these are marked.  For any list of candidates the dispatch
takes the first `availableSlots` of those without marker and with work. -/
theorem threadsToProcess_fifo (s : State)
    (hslots : processingCount s.activeDownloads < MAX_CONCURRENT_THREADS) :
    threadsToProcess (s.watchedThreads.filter (fun t => t.active && !t.error && !t.closed)) s =
      (s.watchedThreads.filter (fun t =>
        (t.active && !t.error && !t.closed) &&
          (!JSMap.has s.activeDownloads (markerKey t.id) &&
            (decide (t.downloadedCount < t.totalImages) || decide (t.totalImages = 0))))).take
        (MAX_CONCURRENT_THREADS - processingCount s.activeDownloads) ∧
    List.Sublist
      (threadsToProcess (s.watchedThreads.filter (fun t => t.active && !t.error && !t.closed)) s)
      s.watchedThreads ∧
    (dispatchStep (s.watchedThreads.filter (fun t => t.active && !t.error && !t.closed))
        s).activeDownloads =
      ((s.watchedThreads.filter (fun t =>
        (t.active && !t.error && !t.closed) &&
          (!JSMap.has s.activeDownloads (markerKey t.id) &&
            (decide (t.downloadedCount < t.totalImages) || decide (t.totalImages = 0))))).take
        (MAX_CONCURRENT_THREADS - processingCount s.activeDownloads)).foldl markProcessing
        s.activeDownloads ∧
    ∀ processCandidates : List Thread,
      threadsToProcess processCandidates s =
        (processCandidates.filter (fun t =>
          !JSMap.has s.activeDownloads (markerKey t.id) &&
            (decide (t.downloadedCount < t.totalImages) || decide (t.totalImages = 0)))).take
          (MAX_CONCURRENT_THREADS - processingCount s.activeDownloads) := by
  have h := threadsToProcess_eq s hslots
  refine ⟨h, ?_, ?_, ?_⟩
  · rw [h]
    exact (List.take_sublist _ _).trans (List.filter_sublist _)
  · unfold dispatchStep
    simp only
    rw [h]
  · intro processCandidates
    unfold threadsToProcess
    simp only
    rw [if_neg (by omega), List.filter_filter]
    have hnat : ((MAX_CONCURRENT_THREADS : Int) - (processingCount s.activeDownloads : Int)).toNat =
        MAX_CONCURRENT_THREADS - processingCount s.activeDownloads := by omega
    rw [hnat]
    congr 1
    apply List.filter_congr
    intro t _
    exact Bool.and_comm _ _

theorem threadsToProcess_fifo_example :
    processingCount busyState.activeDownloads < MAX_CONCURRENT_THREADS ∧
    threadsToProcess
        (busyState.watchedThreads.filter (fun t => t.active && !t.error && !t.closed)) busyState =
      [{ id := 5, active := true }] :=
  ⟨by decide, (threadsToProcess_fifo busyState (by decide)).1.trans (by decide)⟩

/-! ## Discovery -/

/-- C14. Invalid filter pattern: when `new RegExp(searchTerm, 'i')` throws,
`searchAndWatchThreads` returns normally, performs no catalog fetch and leaves the
registry and `lastSearchParams` (and every other store) unchanged. -/
theorem C14_invalid_pattern (env : SearchEnv) (s : State) (board searchTerm : String)
    (limit : Nat) (h : env.regex searchTerm = none) :
    (searchAndWatchThreads env s board searchTerm limit).threw = false ∧
    (searchAndWatchThreads env s board searchTerm limit).fetches = 0 ∧
    (searchAndWatchThreads env s board searchTerm limit).state.watchedThreads = s.watchedThreads ∧
    (searchAndWatchThreads env s board searchTerm limit).state.lastSearchParams =
      s.lastSearchParams ∧
    (searchAndWatchThreads env s board searchTerm limit).state = s := by
  unfold searchAndWatchThreads
  split
  · exact ⟨rfl, rfl, rfl, rfl, rfl⟩
  · simp [h]

theorem C14_invalid_pattern_witness :
    catHost.regex "(" = none ∧
    (searchAndWatchThreads catHost emptyRunning "g" "(" 5).fetches = 0 ∧
    (searchAndWatchThreads catHost emptyRunning "g" "(" 5).state = emptyRunning :=
  have h := C14_invalid_pattern catHost emptyRunning "g" "(" 5 rfl
  ⟨rfl, h.2.1, h.2.2.2.2⟩

/-- C13, as stated, fails: the catalog lists thread 1 twice, both entries pass every
filter (n = 2) and the limit is 5, but one thread is appended, not `min(5, 2) = 2`:
the second entry is collapsed by the deduplication of `updateWatchedThreads`. -/
theorem C13_listed_twice :
    twiceHost.regex "cats" = some catTest ∧
    (potentialNewThreads twiceHost catTest emptyRunning "g" twicePages).length = 2 ∧
    (searchAndWatchThreads twiceHost emptyRunning "g" "cats" 5).state.watchedThreads =
      [{ id := 1, url := "https://a.4cdn.org/g/thread/1.json", title := "cats", board := "g",
         time := 1000, active := true }] :=
  ⟨rfl, by decide, by decide⟩

theorem dedupLoop_append (xs ys : List Thread) (hnd : (ys.map (fun t => t.id)).Nodup)
    (hdisj : ∀ t ∈ ys, ∀ u ∈ xs, t.id ≠ u.id) :
    ∀ (seen : List Int) (acc : List Thread), (∀ t ∈ ys, t.id ∉ seen) →
      dedupLoop (xs ++ ys) seen acc = dedupLoop xs seen acc ++ ys := by
  induction xs with
  | nil =>
    intro seen acc hseen
    rw [List.nil_append, dedupLoop_of_nodup ys seen acc hnd hseen]
    simp [dedupLoop]
  | cons x xs ih =>
    intro seen acc hseen
    have hdisj2 : ∀ t ∈ ys, ∀ u ∈ xs, t.id ≠ u.id :=
      fun t ht u hu => hdisj t ht u (List.mem_cons_of_mem _ hu)
    rw [List.cons_append]
    unfold dedupLoop
    split
    · exact ih hdisj2 seen acc hseen
    · apply ih hdisj2
      intro t ht hmem
      rcases List.mem_append.mp hmem with h | h
      · exact hseen t ht h
      · rw [List.mem_singleton] at h
        exact hdisj t ht x (List.mem_cons_self _ _) h

theorem deduplicate_append (xs ys : List Thread) (hnd : (ys.map (fun t => t.id)).Nodup)
    (hdisj : ∀ t ∈ ys, ∀ u ∈ xs, t.id ≠ u.id) :
    (deduplicateWatchedThreads (xs ++ ys)).1 = (deduplicateWatchedThreads xs).1 ++ ys := by
  rw [(deduplicate_shape (xs ++ ys)).1, (deduplicate_shape xs).1]
  exact dedupLoop_append xs ys hnd hdisj [] [] (by simp)

theorem recount_of_consistent (t : Thread)
    (h : t.downloadedCount = min (t.skippedImages.length : Int) t.totalImages) : recount t = t := by
  unfold recount
  simp only
  rw [if_neg (by simpa using h)]

theorem updateWatchedThreads_of_consistent (s : State)
    (hnd : (s.watchedThreads.map (fun t => t.id)).Nodup)
    (hcount : ∀ t ∈ s.watchedThreads,
      t.downloadedCount = min (t.skippedImages.length : Int) t.totalImages) :
    (updateWatchedThreads s).watchedThreads = s.watchedThreads := by
  unfold updateWatchedThreads
  simp only
  rw [deduplicate_of_nodup _ hnd]
  simp only
  conv => rhs; rw [← List.map_id s.watchedThreads]
  apply List.map_congr_left
  intro t ht
  exact recount_of_consistent t (hcount t ht)

/-- A thread is pushed to `potentialNewThreads` exactly for the catalog entries that pass the
filters of lines 862-884. -/
theorem mem_potentialNewThreads (env : SearchEnv) (test : String → Bool) (s : State)
    (board : String) (pages : List (Option (List CatalogThread))) (c : Thread) :
    c ∈ potentialNewThreads env test s board pages ↔
      ∃ threads td no, some threads ∈ pages ∧ td ∈ threads ∧ td.no = some no ∧ no ≠ 0 ∧
        olderThanSevenDays env td = false ∧ (∀ t ∈ s.watchedThreads, t.id ≠ no) ∧
        (matchesField test td.sub = true ∨ matchesField test td.com = true) ∧
        env.directoryExists no = false ∧ c = newThread env board no td := by
  unfold potentialNewThreads
  simp only [List.mem_flatMap]
  constructor
  · rintro ⟨page, hpage, hc⟩
    cases page with
    | none => simp at hc
    | some threads =>
      simp only [List.mem_filterMap] at hc
      obtain ⟨td, htd, hcand⟩ := hc
      unfold candidateOf at hcand
      cases hno : td.no with
      | none => rw [hno] at hcand; simp at hcand
      | some no =>
        rw [hno] at hcand
        simp only at hcand
        split at hcand
        · simp at hcand
        · rename_i h0
          split at hcand
          · simp at hcand
          · rename_i hold
            split at hcand
            · simp at hcand
            · rename_i hreg
              split at hcand
              · rename_i hmatch
                split at hcand
                · simp at hcand
                · rename_i hdir
                  refine ⟨threads, td, no, hpage, htd, hno, h0, by simpa using hold, ?_, ?_,
                    by simpa using hdir, ?_⟩
                  · intro t ht hid
                    apply hreg
                    rw [List.any_eq_true]
                    exact ⟨t, ht, by simpa using hid⟩
                  · simpa using hmatch
                  · simpa using hcand.symm
              · simp at hcand
  · rintro ⟨threads, td, no, hpage, htd, hno, h0, hold, hreg, hmatch, hdir, rfl⟩
    refine ⟨some threads, hpage, ?_⟩
    simp only [List.mem_filterMap]
    refine ⟨td, htd, ?_⟩
    unfold candidateOf
    rw [hno]
    simp only
    rw [if_neg h0, hold]
    have hany : s.watchedThreads.any (fun t => decide (t.id = no)) = false := by
      rw [List.any_eq_false]
      intro t ht
      simpa using hreg t ht
    rw [hany]
    have hm : (matchesField test td.sub || matchesField test td.com) = true := by
      simpa using hmatch
    simp [hm, hdir]

theorem potentialNewThreads_congr (env : SearchEnv) (test : String → Bool) (s s2 : State)
    (board : String) (pages : List (Option (List CatalogThread)))
    (h : s2.watchedThreads = s.watchedThreads) :
    potentialNewThreads env test s2 board pages = potentialNewThreads env test s board pages := by
  unfold potentialNewThreads candidateOf
  rw [h]

theorem potentialNewThreads_params (env : SearchEnv) (test : String → Bool) (s : State)
    (params : SearchParams) (board : String) (pages : List (Option (List CatalogThread))) :
    potentialNewThreads env test { s with lastSearchParams := params } board pages =
      potentialNewThreads env test s board pages :=
  potentialNewThreads_congr env test s { s with lastSearchParams := params } board pages rfl

theorem fetchWithRetry_params {α : Type} (s : State) (params : SearchParams)
    (responses : Nat → Option α) :
    fetchWithRetry { s with lastSearchParams := params } responses = fetchWithRetry s responses :=
  fetchWithRetry_congr s { s with lastSearchParams := params } responses rfl rfl

theorem searchAndWatchThreads_registry (env : SearchEnv) (s : State) (board searchTerm : String)
    (limit : Nat) (test : String → Bool) (pages : List (Option (List CatalogThread)))
    (hrun : s.isRunning = true) (hregex : env.regex searchTerm = some test)
    (hfetch : (fetchWithRetry s
      (env.catalog ("https://a.4cdn.org/" ++ board ++ "/catalog.json"))).value = some (some pages)) :
    (searchAndWatchThreads env s board searchTerm limit).state.watchedThreads =
      if ((potentialNewThreads env test s board pages).insertionSort
          (fun a b => a.time ≥ b.time)).take limit = [] then s.watchedThreads
      else ((deduplicateWatchedThreads (s.watchedThreads ++
        (((potentialNewThreads env test s board pages).insertionSort
          (fun a b => a.time ≥ b.time)).take limit).map
            (fun t => { t with active := true }))).1).map recount := by
  unfold searchAndWatchThreads
  rw [if_neg (by simp [hrun])]
  simp only [hregex]
  rw [fetchWithRetry_params, hfetch]
  simp only
  rw [potentialNewThreads_params]
  by_cases hnil : ((potentialNewThreads env test s board pages).insertionSort
      (fun a b => a.time ≥ b.time)).take limit = []
  · rw [if_pos hnil, hnil]
    simp
  · rw [if_neg hnil]
    have hpos : (((potentialNewThreads env test s board pages).insertionSort
      (fun a b => a.time ≥ b.time)).take limit).length > 0 :=
      List.length_pos.mpr hnil
    rw [if_pos hpos]
    simp only
    rw [manageThreadsKick_watchedThreads]
    rfl

theorem map_eq_self_of {α : Type} (f : α → α) (l : List α) (h : ∀ x ∈ l, f x = x) :
    l.map f = l := by
  induction l with
  | nil => rfl
  | cons a l ih =>
    rw [List.map_cons, h a (List.mem_cons_self _ _),
      ih (fun x hx => h x (List.mem_cons_of_mem _ hx))]

theorem newest_first_sorted (cands : List Thread) :
    List.Sorted (fun a b : Thread => a.time ≥ b.time)
      (cands.insertionSort (fun a b => a.time ≥ b.time)) := by
  haveI : IsTotal Thread (fun a b => a.time ≥ b.time) :=
    ⟨fun a b => le_total b.time a.time⟩
  haveI : IsTrans Thread (fun a b => a.time ≥ b.time) :=
    ⟨fun _ _ _ hab hbc => le_trans hbc hab⟩
  exact List.sorted_insertionSort _ cands

theorem candidate_fields (env : SearchEnv) (test : String → Bool) (s : State) (board : String)
    (pages : List (Option (List CatalogThread))) (c : Thread)
    (h : c ∈ potentialNewThreads env test s board pages) :
    c.active = false ∧ c.closed = false ∧ c.error = false ∧ c.downloadedCount = 0 ∧
      c.totalImages = 0 ∧ c.skippedImages = [] ∧ ∀ t ∈ s.watchedThreads, t.id ≠ c.id := by
  obtain ⟨threads, td, no, -, -, -, -, -, hreg, -, -, rfl⟩ :=
    (mem_potentialNewThreads env test s board pages c).mp h
  exact ⟨rfl, rfl, rfl, rfl, rfl, rfl, hreg⟩

/-- C13, amended. Discovery selection: in a running process, for a valid pattern, a
catalog that was fetched and whose candidates have pairwise distinct thread numbers,
and every limit, `searchAndWatchThreads` appends to the registry exactly the
`min(limit, n)` newest (by time, descending) of the n candidates, that is of the catalog
entries with a non-zero number that are not older than 7 days, not already registered,
match the pattern in subject or comment and have no existing download directory.  Each
is appended with `active = true`, `closed = false`, `error = false`,
`downloadedCount = 0`, `totalImages = 0` and empty `skippedImages`, in newest-first
order.  The existing entries are saved by `updateWatchedThreads` when something is
appended: they are unchanged when their ids are pairwise distinct and their counts
satisfy `downloadedCount = min(|skippedImages|, totalImages)`. -/
theorem C13_discovery_selection (env : SearchEnv) (s : State) (board searchTerm : String)
    (limit : Nat) (test : String → Bool) (pages : List (Option (List CatalogThread)))
    (hrun : s.isRunning = true) (hregex : env.regex searchTerm = some test)
    (hfetch : (fetchWithRetry s
      (env.catalog ("https://a.4cdn.org/" ++ board ++ "/catalog.json"))).value = some (some pages))
    (hdistinct : ((potentialNewThreads env test s board pages).map (fun t => t.id)).Nodup) :
    ∃ added rest : List Thread,
      (searchAndWatchThreads env s board searchTerm limit).state.watchedThreads =
        (if added = [] then s.watchedThreads else (updateWatchedThreads s).watchedThreads) ++
          added ∧
      ((s.watchedThreads.map (fun t => t.id)).Nodup →
        (∀ t ∈ s.watchedThreads,
          t.downloadedCount = min (t.skippedImages.length : Int) t.totalImages) →
        (searchAndWatchThreads env s board searchTerm limit).state.watchedThreads =
          s.watchedThreads ++ added) ∧
      added.length = min limit (potentialNewThreads env test s board pages).length ∧
      List.Sorted (fun a b : Thread => a.time ≥ b.time) added ∧
      List.Perm (added.map (fun t => { t with active := false }) ++ rest)
        (potentialNewThreads env test s board pages) ∧
      (∀ a ∈ added, ∀ r ∈ rest, r.time ≤ a.time) ∧
      (∀ c, c ∈ potentialNewThreads env test s board pages ↔
        ∃ threads td no, some threads ∈ pages ∧ td ∈ threads ∧ td.no = some no ∧ no ≠ 0 ∧
          olderThanSevenDays env td = false ∧ (∀ t ∈ s.watchedThreads, t.id ≠ no) ∧
          (matchesField test td.sub = true ∨ matchesField test td.com = true) ∧
          env.directoryExists no = false ∧ c = newThread env board no td) ∧
      ∀ a ∈ added, a.active = true ∧ a.closed = false ∧ a.error = false ∧
        a.downloadedCount = 0 ∧ a.totalImages = 0 ∧ a.skippedImages = [] ∧
        ∀ t ∈ s.watchedThreads, t.id ≠ a.id := by
  have hreg := searchAndWatchThreads_registry env s board searchTerm limit test pages hrun hregex
    hfetch
  generalize hc : potentialNewThreads env test s board pages = cands at hreg hdistinct
  have hfields : ∀ c ∈ cands, c.active = false ∧ c.closed = false ∧ c.error = false ∧
      c.downloadedCount = 0 ∧ c.totalImages = 0 ∧ c.skippedImages = [] ∧
      ∀ t ∈ s.watchedThreads, t.id ≠ c.id := by
    intro c hcmem
    rw [← hc] at hcmem
    exact candidate_fields env test s board pages c hcmem
  have hchar := fun c => mem_potentialNewThreads env test s board pages c
  rw [hc] at hchar
  have hsorted := newest_first_sorted cands
  have hperm := List.perm_insertionSort (fun a b : Thread => a.time ≥ b.time) cands
  generalize hs : cands.insertionSort (fun a b => a.time ≥ b.time) = sorted at hreg hsorted hperm
  have hmemsorted : ∀ c ∈ sorted, c ∈ cands := fun c h => hperm.mem_iff.mp h
  have hmemtake : ∀ c ∈ sorted.take limit, c ∈ cands :=
    fun c h => hmemsorted c (List.mem_of_mem_take h)
  -- the threads that are pushed
  have hadd_nodup : (((sorted.take limit).map (fun t => { t with active := true })).map
      (fun t => t.id)).Nodup := by
    rw [List.map_map]
    have h1 : ((sorted.map (fun t => t.id))).Nodup := (hperm.map _).nodup_iff.mpr hdistinct
    exact (h1.sublist ((List.take_sublist limit sorted).map _))
  have hadd_disj : ∀ t ∈ (sorted.take limit).map (fun t => { t with active := true }),
      ∀ u ∈ s.watchedThreads, t.id ≠ u.id := by
    intro t ht u hu
    obtain ⟨c, hcm, rfl⟩ := List.mem_map.mp ht
    exact fun h => (hfields c (hmemtake c hcm)).2.2.2.2.2.2 u hu h.symm
  have hadd_recount : ((sorted.take limit).map (fun t => { t with active := true })).map recount =
      (sorted.take limit).map (fun t => { t with active := true }) := by
    apply map_eq_self_of
    intro t ht
    obtain ⟨c, hcm, rfl⟩ := List.mem_map.mp ht
    obtain ⟨-, -, -, h4, h5, h6, -⟩ := hfields c (hmemtake c hcm)
    apply recount_of_consistent
    simp [h4, h5, h6]
  have hregistry : (searchAndWatchThreads env s board searchTerm limit).state.watchedThreads =
      (if (sorted.take limit).map (fun t => { t with active := true }) = [] then s.watchedThreads
        else (updateWatchedThreads s).watchedThreads) ++
        (sorted.take limit).map (fun t => { t with active := true }) := by
    rw [hreg]
    by_cases hnil : sorted.take limit = []
    · rw [if_pos hnil, hnil]
      simp
    · rw [if_neg hnil, if_neg (by simpa using hnil)]
      rw [deduplicate_append _ _ hadd_nodup hadd_disj, List.map_append, hadd_recount]
      rfl
  refine ⟨(sorted.take limit).map (fun t => { t with active := true }), sorted.drop limit,
    hregistry, ?_, ?_, ?_, ?_, ?_, hchar, ?_⟩
  · intro hnd hcount
    rw [hregistry, updateWatchedThreads_of_consistent s hnd hcount]
    simp
  · rw [List.length_map, List.length_take, hperm.length_eq]
  · rw [List.Sorted, List.pairwise_map]
    exact List.Pairwise.sublist (List.take_sublist limit sorted) hsorted
  · have hback : ((sorted.take limit).map (fun t => { t with active := true })).map
        (fun t => { t with active := false }) = sorted.take limit := by
      rw [List.map_map]
      apply map_eq_self_of
      intro c hcm
      have h1 := (hfields c (hmemtake c hcm)).1
      simp only [Function.comp]
      rw [← h1]
    rw [hback, List.take_append_drop]
    exact hperm
  · intro a ha r hr
    obtain ⟨c, hcm, rfl⟩ := List.mem_map.mp ha
    have hpw : List.Pairwise (fun a b : Thread => a.time ≥ b.time)
        (sorted.take limit ++ sorted.drop limit) := by
      rw [List.take_append_drop]; exact hsorted
    exact (List.pairwise_append.mp hpw).2.2 c hcm r hr
  · intro a ha
    obtain ⟨c, hcm, rfl⟩ := List.mem_map.mp ha
    obtain ⟨-, h2, h3, h4, h5, h6, h7⟩ := hfields c (hmemtake c hcm)
    exact ⟨rfl, h2, h3, h4, h5, h6, h7⟩

theorem C13_discovery_selection_witness :
    emptyRunning.isRunning = true ∧ catHost.regex "cats" = some catTest ∧
    ((potentialNewThreads catHost catTest emptyRunning "g" catPages).map (fun t => t.id)).Nodup ∧
    (searchAndWatchThreads catHost emptyRunning "g" "cats" 2).state.watchedThreads.length =
      min 2 (potentialNewThreads catHost catTest emptyRunning "g" catPages).length := by
  refine ⟨rfl, rfl, by decide, ?_⟩
  obtain ⟨added, rest, -, h2, h3, -⟩ :=
    C13_discovery_selection catHost emptyRunning "g" "cats" 2 catTest catPages rfl rfl
      (by decide) (by decide)
  rw [h2 (by decide) (by decide), ← h3]
  simp [emptyRunning]

/-! ## The timer check -/

theorem JSMap.get?_delete_ne {κ α : Type} [DecidableEq κ] (m : List (κ × α)) (k j : κ)
    (h : k ≠ j) : JSMap.get? (JSMap.delete m j) k = JSMap.get? m k := by
  unfold JSMap.get? JSMap.delete
  congr 1
  induction m with
  | nil => rfl
  | cons e m ih =>
    rw [List.filter_cons]
    by_cases hj : e.1 = j
    · have hk : ¬ e.1 = k := fun hk => h (hk.symm.trans hj)
      rw [if_neg (by simp [hj]), List.find?_cons_of_neg _ (by simp [hk])]
      exact ih
    · rw [if_pos (by simp [hj])]
      by_cases hk : e.1 = k
      · rw [List.find?_cons_of_pos _ (by simp [hk]), List.find?_cons_of_pos _ (by simp [hk])]
      · rw [List.find?_cons_of_neg _ (by simp [hk]), List.find?_cons_of_neg _ (by simp [hk])]
        exact ih

theorem JSMap.has_delete_same {κ α : Type} [DecidableEq κ] (m : List (κ × α)) (k : κ) :
    JSMap.has (JSMap.delete m k) k = false := by
  unfold JSMap.has JSMap.keys JSMap.delete
  simp

theorem JSMap.has_delete_of_not_has {κ α : Type} [DecidableEq κ] (m : List (κ × α)) (k j : κ)
    (h : JSMap.has m k = false) : JSMap.has (JSMap.delete m j) k = false := by
  unfold JSMap.has JSMap.keys JSMap.delete at *
  simp only [decide_eq_false_iff_not, List.mem_map, not_exists, not_and] at h ⊢
  intro e he
  exact h e (List.mem_filter.mp he).1

theorem JSMap.get?_eq_none_of_not_has {κ α : Type} [DecidableEq κ] (m : List (κ × α)) (k : κ)
    (h : JSMap.has m k = false) : JSMap.get? m k = none := by
  unfold JSMap.has JSMap.keys at h
  unfold JSMap.get?
  simp only [decide_eq_false_iff_not, List.mem_map, not_exists, not_and] at h
  rw [Option.map_eq_none', List.find?_eq_none]
  intro e he
  simpa using h e he

theorem JSMap.has_of_get? {κ α : Type} [DecidableEq κ] (m : List (κ × α)) (k : κ) (v : α)
    (h : JSMap.get? m k = some v) : JSMap.has m k = true := by
  unfold JSMap.get? at h
  unfold JSMap.has JSMap.keys
  rw [Option.map_eq_some'] at h
  obtain ⟨e, he, -⟩ := h
  have h1 := List.mem_of_find?_eq_some he
  have h2 := List.find?_some he
  simp only [decide_eq_true_eq] at h2 ⊢
  exact List.mem_map.mpr ⟨e, h1, h2⟩

theorem recount_recount (t : Thread) : recount (recount t) = recount t := by
  apply recount_of_consistent
  rw [recount_count, recount_skipped, recount_total]

theorem upToRecount_recount (t t2 : Thread) (h : UpToRecount t t2) :
    UpToRecount t (recount t2) := by
  rcases h with h | h
  · right; rw [h]
  · right; rw [h, recount_recount]

theorem upToRecount_trans (t t2 t3 : Thread) (h1 : UpToRecount t t2) (h2 : UpToRecount t2 t3) :
    UpToRecount t t3 := by
  rcases h2 with h | h
  · rw [h]; exact h1
  · rw [h]; exact upToRecount_recount t t2 h1

theorem manageThreadsKick_timers (now : Int) (s : State) :
    (manageThreadsKick now s).threadProgressTimers = s.threadProgressTimers := by
  unfold manageThreadsKick
  split
  · rfl
  · simp only
    split
    · rfl
    · split
      · rfl
      · split
        · rfl
        · split
          · rfl
          · rfl

theorem manageThreadsKick_isInitialized (now : Int) (s : State) :
    (manageThreadsKick now s).isInitialized = s.isInitialized := by
  unfold manageThreadsKick
  split
  · rfl
  · simp only
    split
    · rfl
    · split
      · rfl
      · split
        · rfl
        · split
          · rfl
          · rfl

/-- What a discovery pass can do to the registry, the timers and the initialization flag. -/
theorem searchAndWatchThreads_frame (env : SearchEnv) (s : State) (board searchTerm : String)
    (limit : Nat) :
    ((searchAndWatchThreads env s board searchTerm limit).state.watchedThreads = s.watchedThreads ∨
      ∃ added, (searchAndWatchThreads env s board searchTerm limit).state.watchedThreads =
        ((deduplicateWatchedThreads (s.watchedThreads ++ added)).1).map recount) ∧
    (searchAndWatchThreads env s board searchTerm limit).state.threadProgressTimers =
      s.threadProgressTimers ∧
    (searchAndWatchThreads env s board searchTerm limit).state.isInitialized = s.isInitialized := by
  unfold searchAndWatchThreads
  split
  · exact ⟨Or.inl rfl, rfl, rfl⟩
  · split
    · exact ⟨Or.inl rfl, rfl, rfl⟩
    · simp only
      split
      · split
        · refine ⟨?_, ?_, ?_⟩
          · right
            rw [manageThreadsKick_watchedThreads]
            exact ⟨_, rfl⟩
          · rw [manageThreadsKick_timers]; rfl
          · rw [manageThreadsKick_isInitialized]; rfl
        · exact ⟨Or.inl rfl, rfl, rfl⟩
      · exact ⟨Or.inl rfl, rfl, rfl⟩

theorem checkForNewThreads_frame (env : SearchEnv) (s : State) :
    ((checkForNewThreads env s).state.watchedThreads = s.watchedThreads ∨
      ∃ added, (checkForNewThreads env s).state.watchedThreads =
        ((deduplicateWatchedThreads (s.watchedThreads ++ added)).1).map recount) ∧
    (checkForNewThreads env s).state.threadProgressTimers = s.threadProgressTimers ∧
    (checkForNewThreads env s).state.isInitialized = s.isInitialized := by
  unfold checkForNewThreads
  split
  · exact ⟨Or.inl rfl, rfl, rfl⟩
  · split
    · exact ⟨Or.inl rfl, rfl, rfl⟩
    · simp only
      split
      · exact ⟨Or.inl rfl, rfl, rfl⟩
      · exact searchAndWatchThreads_frame env s _ _ _

theorem findThread_checkForNewThreads (env : SearchEnv) (s : State) (k : Int) (t : Thread)
    (h : findThread s.watchedThreads k = some t) :
    ∃ t2, findThread (checkForNewThreads env s).state.watchedThreads k = some t2 ∧
      UpToRecount t t2 := by
  rcases (checkForNewThreads_frame env s).1 with h1 | ⟨added, h1⟩
  · rw [h1]; exact ⟨t, h, Or.inl rfl⟩
  · rw [h1, findThread_map recount recount_id, findThread_deduplicate, findThread_append, h]
    exact ⟨recount t, rfl, Or.inr rfl⟩

theorem upToRecount_id (t t2 : Thread) (h : UpToRecount t t2) : t2.id = t.id := by
  rcases h with h | h
  · rw [h]
  · rw [h, recount_id]

theorem timerExpired_congr (timers timers2 : List (Int × Int)) (now : Int) (t t2 : Thread)
    (hid : t2.id = t.id) (h : JSMap.get? timers2 t.id = JSMap.get? timers t.id) :
    timerExpired timers2 now t2 = timerExpired timers now t := by
  unfold timerExpired
  rw [hid, h]

theorem timerExpired_of_not_has (timers : List (Int × Int)) (now : Int) (t : Thread)
    (h : JSMap.has timers t.id = false) : timerExpired timers now t = false := by
  unfold timerExpired
  rw [JSMap.get?_eq_none_of_not_has timers t.id h]

/-- The re-check of a thread changes the registry at that thread only, deletes its timer
and leaves the initialization flag alone. -/
theorem recheckThread_shape (env : TickEnv) (s : State) (x : Thread) :
    (∀ kid, kid ≠ x.id →
      findThread (recheckThread env s x).watchedThreads kid = findThread s.watchedThreads kid) ∧
    (recheckThread env s x).threadProgressTimers = JSMap.delete s.threadProgressTimers x.id ∧
    (recheckThread env s x).isInitialized = s.isInitialized := by
  have hclose : (∀ kid, kid ≠ x.id →
      findThread (closeOnError s x.id).watchedThreads kid = findThread s.watchedThreads kid) ∧
      (closeOnError s x.id).threadProgressTimers = JSMap.delete s.threadProgressTimers x.id ∧
      (closeOnError s x.id).isInitialized = s.isInitialized :=
    ⟨fun kid hne => findThread_modifyThread_ne
      (fun t => { t with closed := true, active := false, error := true }) (fun _ => rfl)
      s.watchedThreads x.id kid hne, rfl, rfl⟩
  unfold recheckThread
  split
  · exact hclose
  · split
    · exact hclose
    · exact hclose
    · simp only
      split
      · exact ⟨fun kid hne => findThread_modifyThread_ne
          (fun t => { t with closed := true, active := false, error := false }) (fun _ => rfl)
          s.watchedThreads x.id kid hne, rfl, rfl⟩
      · split
        · refine ⟨fun kid hne => ?_, rfl, rfl⟩
          show findThread (modifyThread x.id _ s.watchedThreads) kid =
            findThread s.watchedThreads kid
          refine findThread_modifyThread_ne _ ?_ s.watchedThreads x.id kid hne
          intro _
          rfl
        · exact ⟨fun kid hne => findThread_modifyThread_ne
            (fun t => { t with closed := true, active := false }) (fun _ => rfl)
            s.watchedThreads x.id kid hne, rfl, rfl⟩

theorem timerCheckThread_unexpired (env : TickEnv) (k : Nat) (s : State) (x : Int) (t : Thread)
    (hfind : findThread s.watchedThreads x = some t)
    (h : timerExpired s.threadProgressTimers env.now t = false) :
    timerCheckThread env k s x = { state := s, fetched := [] } := by
  unfold timerCheckThread
  rw [hfind]
  simp only [h]
  rfl

theorem timerCheckThread_expired (env : TickEnv) (k : Nat) (s : State) (x : Int) (t : Thread)
    (hfind : findThread s.watchedThreads x = some t)
    (h : timerExpired s.threadProgressTimers env.now t = true) :
    timerCheckThread env k s x =
      { state := (checkForNewThreads (env.search k)
          (updateWatchedThreads (recheckThread env s t))).state, fetched := [x] } := by
  unfold timerCheckThread
  rw [hfind]
  simp only [h]
  rfl

theorem timerCheckThread_cases (env : TickEnv) (k : Nat) (s : State) (x : Int) :
    timerCheckThread env k s x = { state := s, fetched := [] } ∨
    ∃ t, findThread s.watchedThreads x = some t ∧
      timerCheckThread env k s x =
        { state := (checkForNewThreads (env.search k)
            (updateWatchedThreads (recheckThread env s t))).state, fetched := [x] } := by
  cases hfind : findThread s.watchedThreads x with
  | none =>
    left
    unfold timerCheckThread
    rw [hfind]
  | some t =>
    cases hexp : timerExpired s.threadProgressTimers env.now t with
    | false => exact Or.inl (timerCheckThread_unexpired env k s x t hfind hexp)
    | true => exact Or.inr ⟨t, rfl, timerCheckThread_expired env k s x t hfind hexp⟩

/-- An iteration for another thread leaves a thread as it is up to a recount, does not
touch its timer and does not fetch it. -/
theorem timerCheckThread_frame (env : TickEnv) (k : Nat) (s : State) (x kid : Int)
    (hne : kid ≠ x) :
    (∀ t, findThread s.watchedThreads kid = some t →
      ∃ t2, findThread (timerCheckThread env k s x).state.watchedThreads kid = some t2 ∧
        UpToRecount t t2) ∧
    JSMap.get? (timerCheckThread env k s x).state.threadProgressTimers kid =
      JSMap.get? s.threadProgressTimers kid ∧
    kid ∉ (timerCheckThread env k s x).fetched := by
  rcases timerCheckThread_cases env k s x with h | ⟨tx, hfx, h⟩
  · rw [h]
    exact ⟨fun t ht => ⟨t, ht, Or.inl rfl⟩, rfl, by simp⟩
  · rw [h]
    have hxid : tx.id = x := findThread_some_id hfx
    obtain ⟨hws, htimers, -⟩ := recheckThread_shape env s tx
    refine ⟨?_, ?_, ?_⟩
    · intro t ht
      have h1 : findThread (updateWatchedThreads (recheckThread env s tx)).watchedThreads kid =
          some (recount t) := by
        rw [findThread_update, hws kid (by rw [hxid]; exact hne), ht]
        rfl
      obtain ⟨t2, h2, h3⟩ := findThread_checkForNewThreads (env.search k) _ kid _ h1
      exact ⟨t2, h2, upToRecount_trans t (recount t) t2 (Or.inr rfl) h3⟩
    · rw [(checkForNewThreads_frame (env.search k) _).2.1]
      show JSMap.get? (recheckThread env s tx).threadProgressTimers kid = _
      rw [htimers, hxid, JSMap.get?_delete_ne _ _ _ hne]
    · simp only [List.mem_singleton]
      exact hne

/-- No iteration sets a timer or changes the initialization flag. -/
theorem timerCheckThread_timers (env : TickEnv) (k : Nat) (s : State) (x kid : Int) :
    (JSMap.has s.threadProgressTimers kid = false →
      JSMap.has (timerCheckThread env k s x).state.threadProgressTimers kid = false) ∧
    (timerCheckThread env k s x).state.isInitialized = s.isInitialized := by
  rcases timerCheckThread_cases env k s x with h | ⟨tx, -, h⟩
  · rw [h]
    exact ⟨fun h => h, rfl⟩
  · rw [h]
    obtain ⟨-, htimers, hinit⟩ := recheckThread_shape env s tx
    refine ⟨?_, ?_⟩
    · intro hno
      rw [(checkForNewThreads_frame (env.search k) _).2.1]
      show JSMap.has (recheckThread env s tx).threadProgressTimers kid = false
      rw [htimers]
      exact JSMap.has_delete_of_not_has _ _ _ hno
    · rw [(checkForNewThreads_frame (env.search k) _).2.2]
      exact hinit

theorem recount_url (t : Thread) : (recount t).url = t.url := by
  unfold recount; simp only; split <;> rfl

theorem upToRecount_fields (t t2 : Thread) (h : UpToRecount t t2) :
    t2.id = t.id ∧ t2.url = t.url ∧ t2.totalImages = t.totalImages ∧
      t2.skippedImages = t.skippedImages ∧ t2.active = t.active ∧ t2.closed = t.closed ∧
      t2.error = t.error := by
  rcases h with h | h
  · rw [h]; exact ⟨rfl, rfl, rfl, rfl, rfl, rfl, rfl⟩
  · rw [h]
    exact ⟨recount_id t, recount_url t, recount_total t, recount_skipped t, recount_active t,
      recount_closed t, recount_error t⟩

theorem upToRecount_preserves (Q : Thread → Prop) (hQ : ∀ t, Q t → Q (recount t))
    (t t2 : Thread) (h : UpToRecount t t2) (ht : Q t) : Q t2 := by
  rcases h with h | h
  · rw [h]; exact ht
  · rw [h]; exact hQ t ht

theorem fetchWithRetry_initialized {α : Type} (s s2 : State) (responses : Nat → Option α)
    (h : s.isInitialized = true) (h2 : s2.isInitialized = true) :
    fetchWithRetry s2 responses = fetchWithRetry s responses := by
  rw [fetchWithRetry_unfold s responses (by simp [h]),
    fetchWithRetry_unfold s2 responses (by simp [h2])]

/-- The iteration that re-checks a thread: when the re-check leaves the thread in a state
whose saved form satisfies `Q`, the thread satisfies `Q` after the iteration and has no
timer. -/
theorem timerCheckThread_process (Q : Thread → Prop) (hQ : ∀ t, Q t → Q (recount t))
    (env : TickEnv) (k : Nat) (s : State) (x : Int) (t u : Thread)
    (hfind : findThread s.watchedThreads x = some t)
    (hexp : timerExpired s.threadProgressTimers env.now t = true)
    (hu : findThread (recheckThread env s t).watchedThreads x = some u)
    (hQu : Q (recount u)) :
    ∃ t2, findThread (timerCheckThread env k s x).state.watchedThreads x = some t2 ∧ Q t2 ∧
      JSMap.has (timerCheckThread env k s x).state.threadProgressTimers x = false := by
  rw [timerCheckThread_expired env k s x t hfind hexp]
  have h1 : findThread (updateWatchedThreads (recheckThread env s t)).watchedThreads x =
      some (recount u) := by
    rw [findThread_update, hu]
    rfl
  obtain ⟨t2, h2, h3⟩ := findThread_checkForNewThreads (env.search k) _ x _ h1
  refine ⟨t2, h2, upToRecount_preserves Q hQ _ _ h3 hQu, ?_⟩
  rw [(checkForNewThreads_frame (env.search k) _).2.1]
  show JSMap.has (recheckThread env s t).threadProgressTimers x = false
  rw [(recheckThread_shape env s t).2.1, findThread_some_id hfind]
  exact JSMap.has_delete_same _ _

/-- A thread that satisfies `Q` and has no timer stays so through any iteration. -/
theorem timerCheckThread_done (Q : Thread → Prop) (hQ : ∀ t, Q t → Q (recount t))
    (env : TickEnv) (k : Nat) (s : State) (x pid : Int)
    (h : ∃ t, findThread s.watchedThreads pid = some t ∧ Q t ∧
      JSMap.has s.threadProgressTimers pid = false) :
    ∃ t, findThread (timerCheckThread env k s x).state.watchedThreads pid = some t ∧ Q t ∧
      JSMap.has (timerCheckThread env k s x).state.threadProgressTimers pid = false := by
  obtain ⟨t, hfind, hq, hno⟩ := h
  by_cases hx : pid = x
  · subst hx
    have hexp : timerExpired s.threadProgressTimers env.now t = false :=
      timerExpired_of_not_has _ _ _ (by rw [findThread_some_id hfind]; exact hno)
    rw [timerCheckThread_unexpired env k s pid t hfind hexp]
    exact ⟨t, hfind, hq, hno⟩
  · obtain ⟨t2, h2, h3⟩ := (timerCheckThread_frame env k s x pid hx).1 t hfind
    exact ⟨t2, h2, upToRecount_preserves Q hQ _ _ h3 hq,
      (timerCheckThread_timers env k s x pid).1 hno⟩

theorem timerCheckLoop_done (Q : Thread → Prop) (hQ : ∀ t, Q t → Q (recount t))
    (env : TickEnv) (pid : Int) (l : List Thread) :
    ∀ (k : Nat) (s : State),
      (∃ t, findThread s.watchedThreads pid = some t ∧ Q t ∧
        JSMap.has s.threadProgressTimers pid = false) →
      ∃ t, findThread (timerCheckLoop env k l s).state.watchedThreads pid = some t ∧ Q t ∧
        JSMap.has (timerCheckLoop env k l s).state.threadProgressTimers pid = false := by
  induction l with
  | nil => intro k s h; exact h
  | cons x rest ih =>
    intro k s h
    unfold timerCheckLoop
    exact ih (k + 1) _ (timerCheckThread_done Q hQ env k s x.id pid h)

/-- A thread that waits for its re-check with its timer in place is re-checked by the
loop when the snapshot holds a thread with its id. -/
theorem timerCheckLoop_reach (Q : Thread → Prop) (hQ : ∀ t, Q t → Q (recount t))
    (env : TickEnv) (p : Thread) (start : Int)
    (hprocess : ∀ (k : Nat) (s : State) (t : Thread),
      findThread s.watchedThreads p.id = some t → UpToRecount p t →
      JSMap.get? s.threadProgressTimers p.id = some start → s.isInitialized = true →
      ∃ t2, findThread (timerCheckThread env k s p.id).state.watchedThreads p.id = some t2 ∧
        Q t2 ∧ JSMap.has (timerCheckThread env k s p.id).state.threadProgressTimers p.id = false)
    (l : List Thread) :
    ∀ (k : Nat) (s : State), (∃ x ∈ l, x.id = p.id) →
      (∃ t, findThread s.watchedThreads p.id = some t ∧ UpToRecount p t) →
      JSMap.get? s.threadProgressTimers p.id = some start → s.isInitialized = true →
      ∃ t, findThread (timerCheckLoop env k l s).state.watchedThreads p.id = some t ∧ Q t ∧
        JSMap.has (timerCheckLoop env k l s).state.threadProgressTimers p.id = false := by
  induction l with
  | nil => intro k s ⟨x, hx, _⟩; simp at hx
  | cons y rest ih =>
    intro k s hmem ⟨t, hfind, hup⟩ htimer hinit
    unfold timerCheckLoop
    by_cases hy : y.id = p.id
    · rw [hy]
      exact timerCheckLoop_done Q hQ env p.id rest (k + 1) _
        (hprocess k s t hfind hup htimer hinit)
    · have hne : p.id ≠ y.id := fun h => hy h.symm
      obtain ⟨hframe, htm, -⟩ := timerCheckThread_frame env k s y.id p.id hne
      obtain ⟨t2, h2, h3⟩ := hframe t hfind
      apply ih (k + 1)
      · obtain ⟨x, hx, hxid⟩ := hmem
        rcases List.mem_cons.mp hx with h | h
        · exact absurd (h ▸ hxid) hy
        · exact ⟨x, h, hxid⟩
      · exact ⟨t2, h2, upToRecount_trans p t t2 hup h3⟩
      · rw [htm]; exact htimer
      · rw [(timerCheckThread_timers env k s y.id p.id).2]; exact hinit

/-- A thread whose timer has not expired is neither fetched nor changed (up to a recount
by a save) by the loop, and its timer stays. -/
theorem timerCheckLoop_unexpired (env : TickEnv) (q : Thread) (timers0 : List (Int × Int))
    (hyoung : timerExpired timers0 env.now q = false) (l : List Thread) :
    ∀ (k : Nat) (s : State),
      (∃ t, findThread s.watchedThreads q.id = some t ∧ UpToRecount q t) →
      JSMap.get? s.threadProgressTimers q.id = JSMap.get? timers0 q.id →
      (∃ t, findThread (timerCheckLoop env k l s).state.watchedThreads q.id = some t ∧
        UpToRecount q t) ∧
      JSMap.get? (timerCheckLoop env k l s).state.threadProgressTimers q.id =
        JSMap.get? timers0 q.id ∧
      q.id ∉ (timerCheckLoop env k l s).fetched := by
  induction l with
  | nil =>
    intro k s h1 h2
    exact ⟨h1, h2, by simp [timerCheckLoop]⟩
  | cons y rest ih =>
    intro k s ⟨t, hfind, hup⟩ htimer
    unfold timerCheckLoop
    simp only
    by_cases hy : q.id = y.id
    · have hexp : timerExpired s.threadProgressTimers env.now t = false := by
        rw [timerExpired_congr timers0 s.threadProgressTimers env.now q t
          (upToRecount_id q t hup) htimer]
        exact hyoung
      rw [← hy, timerCheckThread_unexpired env k s q.id t hfind hexp]
      obtain ⟨h1, h2, h3⟩ := ih (k + 1) s ⟨t, hfind, hup⟩ htimer
      exact ⟨h1, h2, by simpa using h3⟩
    · obtain ⟨hframe, htm, hnf⟩ := timerCheckThread_frame env k s y.id q.id hy
      obtain ⟨t2, h2, h3⟩ := hframe t hfind
      obtain ⟨h4, h5, h6⟩ := ih (k + 1) (timerCheckThread env k s y.id).state
        ⟨t2, h2, upToRecount_trans q t t2 hup h3⟩ (by rw [htm]; exact htimer)
      refine ⟨h4, h5, ?_⟩
      rw [List.mem_append]
      rintro (h | h)
      · exact hnf h
      · exact h6 h

/-- The re-check of a thread for which the fetch succeeds and reports an open thread. -/
theorem recheckThread_open (env : TickEnv) (s : State) (t : Thread) (op : Post) (rest : List Post)
    (hfetch : (fetchWithRetry s (env.fetch t.url)).value = some { posts := some (op :: rest) })
    (hopen : op.closed = false) (harchived : op.archived = false) :
    (recheckThread env s t).watchedThreads =
      if (((op :: rest).filter isImagePost).length : Int) > t.totalImages then
        modifyThread t.id (fun u => { u with
          totalImages := (((op :: rest).filter isImagePost).length : Int), active := true,
          error := false }) s.watchedThreads
      else modifyThread t.id (fun u => { u with closed := true, active := false }) s.watchedThreads := by
  unfold recheckThread
  rw [hfetch]
  simp only [hopen, harchived, Bool.or_self, Bool.false_eq_true, if_false]
  split <;> rfl

theorem mem_stuckCandidates (s : State) (p : Thread) (start : Int)
    (hfind : findThread s.watchedThreads p.id = some p) (hactive : p.active = true)
    (herror : p.error = false) (hclosed : p.closed = false)
    (htimer : JSMap.get? s.threadProgressTimers p.id = some start) :
    p ∈ s.watchedThreads.filter (fun t =>
      t.active && !t.error && !t.closed && JSMap.has s.threadProgressTimers t.id) := by
  rw [List.mem_filter]
  refine ⟨findThread_some_mem hfind, ?_⟩
  simp [hactive, herror, hclosed, JSMap.has_of_get? _ _ _ htimer]

theorem timerExpired_of_old (timers : List (Int × Int)) (now start : Int) (t : Thread)
    (htimer : JSMap.get? timers t.id = some start) (hset : start ≠ 0)
    (hold : now - start ≥ STUCK_TIMER) : timerExpired timers now t = true := by
  unfold timerExpired
  rw [htimer]
  simp [hset, hold]

theorem timerExpired_of_young (timers : List (Int × Int)) (now start : Int) (t : Thread)
    (htimer : JSMap.get? timers t.id = some start) (hyoung : now - start < STUCK_TIMER) :
    timerExpired timers now t = false := by
  unfold timerExpired
  rw [htimer]
  simp only [Bool.and_eq_false_imp, decide_eq_true_eq, decide_eq_false_iff_not]
  intro _
  omega

/-- C15. Stuck-to-closed: for an active, non-errored, non-closed thread (in particular one
with `downloadedCount = totalImages > 0`) whose stuck timer is at least `STUCK_TIMER`
(5 minutes) old, a `manageThreads` tick whose upstream fetch succeeds, is not closed or
archived and reports an image count not greater than `totalImages` leaves the thread,
after its timer check, with `closed = true`, `active = false` and no stuck timer (a
timer is a non-zero time stamp: line 562 reads a zero as no timer).  A
thread whose timer is younger than 5 minutes is not fetched by the timer check, its
iteration changes nothing, and after the whole check it is as it was (up to a recount by
the save of another thread) with its timer in place. -/
theorem C15_stuck_to_closed (env : TickEnv) (s : State) (p : Thread) (start : Int) (op : Post)
    (rest : List Post) (hinit : s.isInitialized = true)
    (hfind : findThread s.watchedThreads p.id = some p)
    (hactive : p.active = true) (herror : p.error = false) (hclosed : p.closed = false)
    (htimer : JSMap.get? s.threadProgressTimers p.id = some start) (hset : start ≠ 0)
    (hold : env.now - start ≥ STUCK_TIMER)
    (hfetch : (fetchWithRetry s (env.fetch p.url)).value = some { posts := some (op :: rest) })
    (hopen : op.closed = false) (harchived : op.archived = false)
    (hsame : (((op :: rest).filter isImagePost).length : Int) ≤ p.totalImages) :
    (∃ t, findThread (timerCheck env s).state.watchedThreads p.id = some t ∧
      t.closed = true ∧ t.active = false) ∧
    JSMap.has (timerCheck env s).state.threadProgressTimers p.id = false ∧
    ∀ (q : Thread) (since : Int), findThread s.watchedThreads q.id = some q →
      JSMap.get? s.threadProgressTimers q.id = some since → env.now - since < STUCK_TIMER →
      q.id ∉ (timerCheck env s).fetched ∧
      (∀ k, timerCheckThread env k s q.id = { state := s, fetched := [] }) ∧
      (∃ t, findThread (timerCheck env s).state.watchedThreads q.id = some t ∧
        UpToRecount q t) ∧
      JSMap.get? (timerCheck env s).state.threadProgressTimers q.id = some since := by
  have hmain : ∃ t, findThread (timerCheck env s).state.watchedThreads p.id = some t ∧
      (t.closed = true ∧ t.active = false) ∧
      JSMap.has (timerCheck env s).state.threadProgressTimers p.id = false := by
    unfold timerCheck
    simp only
    apply timerCheckLoop_reach (fun t => t.closed = true ∧ t.active = false)
      (fun t ht => by rw [recount_closed, recount_active]; exact ht) env p start
    · intro k s2 t hf hup htm hin
      obtain ⟨hid, hurl, htot, -, -, -, -⟩ := upToRecount_fields p t hup
      have hexp : timerExpired s2.threadProgressTimers env.now t = true :=
        timerExpired_of_old _ _ start t (by rw [hid]; exact htm) hset hold
      have hfetch2 : (fetchWithRetry s2 (env.fetch t.url)).value =
          some { posts := some (op :: rest) } := by
        rw [hurl, fetchWithRetry_initialized s s2 _ hinit hin]
        exact hfetch
      have hws := recheckThread_open env s2 t op rest hfetch2 hopen harchived
      rw [if_neg (by rw [htot]; omega)] at hws
      apply timerCheckThread_process (fun t => t.closed = true ∧ t.active = false)
        (fun t ht => by rw [recount_closed, recount_active]; exact ht) env k s2 p.id t
        { t with closed := true, active := false } hf hexp
      · rw [hws]
        conv_lhs => rw [hid]
        refine (findThread_modifyThread _ ?_ _ _).trans ?_
        · intro _; rfl
        · rw [hf]; rfl
      · rw [recount_closed, recount_active]
        exact ⟨rfl, rfl⟩
    · exact ⟨p, List.mem_append_left _
        (mem_stuckCandidates s p start hfind hactive herror hclosed htimer), rfl⟩
    · exact ⟨p, hfind, Or.inl rfl⟩
    · exact htimer
    · exact hinit
  obtain ⟨t, h1, h2, h3⟩ := hmain
  refine ⟨⟨t, h1, h2⟩, h3, ?_⟩
  intro q since hq hqt hyoung
  have hexp := timerExpired_of_young s.threadProgressTimers env.now since q hqt hyoung
  have hloop : ∀ l, (∃ t, findThread (timerCheckLoop env 0 l s).state.watchedThreads q.id =
      some t ∧ UpToRecount q t) ∧
      JSMap.get? (timerCheckLoop env 0 l s).state.threadProgressTimers q.id =
        JSMap.get? s.threadProgressTimers q.id ∧
      q.id ∉ (timerCheckLoop env 0 l s).fetched :=
    fun l => timerCheckLoop_unexpired env q s.threadProgressTimers hexp l 0 s
      ⟨q, hq, Or.inl rfl⟩ rfl
  unfold timerCheck
  simp only
  obtain ⟨h4, h5, h6⟩ := hloop _
  exact ⟨h6, fun k => timerCheckThread_unexpired env k s q.id q hq hexp, h4, by rw [h5, hqt]⟩

theorem C15_stuck_to_closed_witness :
    findThread completeState.watchedThreads 7 = some completeThread ∧
    JSMap.get? completeState.threadProgressTimers 7 = some 1000 ∧
    (tickHost 4).now - 1000 ≥ STUCK_TIMER ∧
    JSMap.has (timerCheck (tickHost 4) completeState).state.threadProgressTimers 7 = false :=
  ⟨by decide, by decide, by decide,
    (C15_stuck_to_closed (tickHost 4) completeState completeThread 1000
      { tim := some 1, ext := some ".jpg" }
      [{ tim := some 2, ext := some ".jpg" }, { tim := some 3, ext := some ".jpg" },
       { tim := some 4, ext := some ".jpg" }]
      (by decide) (by decide) (by decide) (by decide) (by decide) (by decide) (by decide)
      (by decide) (by decide) (by decide) (by decide) (by decide)).2.1⟩

/-- C16, evaluation at the failing input: the thread has two images upstream and three
names in `skippedImages` (one image was deleted upstream after its download); its stuck
timer has expired and the upstream now reports three image posts.  The timer check takes
the re-activating branch: afterwards the thread is active with `totalImages = 3` and no
timer, but the save sets its count to `min(3, 3) = 3`, so it does not pass the dispatch
filter `downloadedCount < totalImages`: nothing is handed to `processThread`, which alone
would set a timer again, and the timer check of a later tick fetches nothing and changes
nothing, whatever the upstream reports. -/
theorem C16_reopened_not_eligible :
    findThread shrunkState.watchedThreads 7 = some shrunkThread ∧
    timerExpired shrunkState.threadProgressTimers (tickHost 3).now shrunkThread = true ∧
    (fetchWithRetry shrunkState ((tickHost 3).fetch shrunkThread.url)).value =
      some { posts := some (imagePosts 3) } ∧
    ((imagePosts 3).filter isImagePost).length = 3 ∧
    findThread (timerCheck (tickHost 3) shrunkState).state.watchedThreads 7 =
      some reopenedShrunk ∧
    JSMap.has (timerCheck (tickHost 3) shrunkState).state.threadProgressTimers 7 = false ∧
    reopenedShrunk.downloadedCount = reopenedShrunk.totalImages ∧
    dispatchEligible reopenedShrunk = false ∧
    threadsToProcess [reopenedShrunk] (timerCheck (tickHost 3) shrunkState).state = [] ∧
    (timerCheck (tickHost 9) (timerCheck (tickHost 3) shrunkState).state).fetched = [] ∧
    (timerCheck (tickHost 9) (timerCheck (tickHost 3) shrunkState).state).state =
      (timerCheck (tickHost 3) shrunkState).state :=
  ⟨by decide, by decide, by decide, by decide, by decide, by decide, by decide, by decide,
    by decide, by decide, by decide⟩

/-- What the re-activating branch of the timer check stores.  For a stuck candidate
(active, not errored, not closed) whose timer has expired, if the upstream fetch succeeds,
is not closed or archived and reports N > `totalImages` image posts, then after the timer
check `totalImages = N`, `active = true`, `closed = false`, `error = false`, the stuck timer
is removed and `downloadedCount` is recomputed as `min(|skippedImages|, N)`.  The thread
passes the dispatch filter (active, not errored, not closed, `downloadedCount <
totalImages`) exactly when `skippedImages` holds fewer than N names. -/
theorem timerCheck_reopens (env : TickEnv) (s : State) (p : Thread) (start : Int) (op : Post)
    (rest : List Post) (hinit : s.isInitialized = true)
    (hfind : findThread s.watchedThreads p.id = some p)
    (hactive : p.active = true) (herror : p.error = false) (hclosed : p.closed = false)
    (htimer : JSMap.get? s.threadProgressTimers p.id = some start) (hset : start ≠ 0)
    (hold : env.now - start ≥ STUCK_TIMER)
    (hfetch : (fetchWithRetry s (env.fetch p.url)).value = some { posts := some (op :: rest) })
    (hopen : op.closed = false) (harchived : op.archived = false)
    (hmore : (((op :: rest).filter isImagePost).length : Int) > p.totalImages) :
    ∃ t, findThread (timerCheck env s).state.watchedThreads p.id = some t ∧
      t.totalImages = (((op :: rest).filter isImagePost).length : Int) ∧
      t.active = true ∧ t.closed = false ∧ t.error = false ∧
      t.skippedImages = p.skippedImages ∧
      t.downloadedCount = min (p.skippedImages.length : Int)
        (((op :: rest).filter isImagePost).length : Int) ∧
      JSMap.has (timerCheck env s).state.threadProgressTimers p.id = false ∧
      (t.downloadedCount < t.totalImages ↔
        (p.skippedImages.length : Int) < (((op :: rest).filter isImagePost).length : Int)) ∧
      ((p.skippedImages.length : Int) < (((op :: rest).filter isImagePost).length : Int) →
        dispatchEligible t = true) := by
  have hmain : ∃ t, findThread (timerCheck env s).state.watchedThreads p.id = some t ∧
      (t.totalImages = (((op :: rest).filter isImagePost).length : Int) ∧
        t.active = true ∧ t.closed = false ∧ t.error = false ∧
        t.skippedImages = p.skippedImages ∧
        t.downloadedCount = min (t.skippedImages.length : Int) t.totalImages) ∧
      JSMap.has (timerCheck env s).state.threadProgressTimers p.id = false := by
    have hQ : ∀ t : Thread,
        (t.totalImages = (((op :: rest).filter isImagePost).length : Int) ∧
          t.active = true ∧ t.closed = false ∧ t.error = false ∧
          t.skippedImages = p.skippedImages ∧
          t.downloadedCount = min (t.skippedImages.length : Int) t.totalImages) →
        ((recount t).totalImages = (((op :: rest).filter isImagePost).length : Int) ∧
          (recount t).active = true ∧ (recount t).closed = false ∧ (recount t).error = false ∧
          (recount t).skippedImages = p.skippedImages ∧
          (recount t).downloadedCount =
            min ((recount t).skippedImages.length : Int) (recount t).totalImages) := by
      intro t ht
      rw [recount_total, recount_active, recount_closed, recount_error, recount_skipped,
        recount_count]
      exact ⟨ht.1, ht.2.1, ht.2.2.1, ht.2.2.2.1, ht.2.2.2.2.1, rfl⟩
    unfold timerCheck
    simp only
    apply timerCheckLoop_reach _ hQ env p start
    · intro k s2 t hf hup htm hin
      obtain ⟨hid, hurl, htot, hskip, -, hcl, -⟩ := upToRecount_fields p t hup
      have hexp : timerExpired s2.threadProgressTimers env.now t = true :=
        timerExpired_of_old _ _ start t (by rw [hid]; exact htm) hset hold
      have hfetch2 : (fetchWithRetry s2 (env.fetch t.url)).value =
          some { posts := some (op :: rest) } := by
        rw [hurl, fetchWithRetry_initialized s s2 _ hinit hin]
        exact hfetch
      have hws := recheckThread_open env s2 t op rest hfetch2 hopen harchived
      rw [if_pos (by rw [htot]; exact hmore)] at hws
      apply timerCheckThread_process _ hQ env k s2 p.id t
        { t with totalImages := (((op :: rest).filter isImagePost).length : Int),
                 active := true, error := false } hf hexp
      · rw [hws]
        conv_lhs => rw [hid]
        refine (findThread_modifyThread _ ?_ _ _).trans ?_
        · intro _; rfl
        · rw [hf]; rfl
      · rw [recount_total, recount_active, recount_closed, recount_error, recount_skipped,
          recount_count]
        exact ⟨rfl, rfl, by rw [← hclosed, ← hcl], rfl, hskip, rfl⟩
    · exact ⟨p, List.mem_append_left _
        (mem_stuckCandidates s p start hfind hactive herror hclosed htimer), rfl⟩
    · exact ⟨p, hfind, Or.inl rfl⟩
    · exact htimer
    · exact hinit
  obtain ⟨t, h1, ⟨h2, h3, h4, h5, h6, h7⟩, h8⟩ := hmain
  have hcount : t.downloadedCount = min (p.skippedImages.length : Int)
      (((op :: rest).filter isImagePost).length : Int) := by
    rw [h7, h6, h2]
  have hiff : t.downloadedCount < t.totalImages ↔
      (p.skippedImages.length : Int) < (((op :: rest).filter isImagePost).length : Int) := by
    rw [hcount, h2]
    exact min_lt_iff.trans (by simp)
  refine ⟨t, h1, h2, h3, h4, h5, h6, hcount, h8, hiff, ?_⟩
  intro hlt
  unfold dispatchEligible
  simp [h3, h4, h5, hiff.mpr hlt]

theorem timerCheck_reopens_example :
    findThread completeState.watchedThreads 7 = some completeThread ∧
    (tickHost 6).now - 1000 ≥ STUCK_TIMER ∧
    findThread (timerCheck (tickHost 6) completeState).state.watchedThreads 7 =
      some { id := 7, url := "https://a.4cdn.org/g/thread/7.json", active := true,
             totalImages := 6, downloadedCount := 4,
             skippedImages := ["1.jpg", "2.jpg", "3.jpg", "4.jpg"] } :=
  have h := timerCheck_reopens (tickHost 6) completeState completeThread 1000
    { tim := some 1, ext := some ".jpg" }
    [{ tim := some 2, ext := some ".jpg" }, { tim := some 3, ext := some ".jpg" },
     { tim := some 4, ext := some ".jpg" }, { tim := some 5, ext := some ".jpg" },
     { tim := some 6, ext := some ".jpg" }]
    (by decide) (by decide) (by decide) (by decide) (by decide) (by decide) (by decide)
    (by decide) (by decide) (by decide) (by decide) (by decide)
  ⟨by decide, by decide, h.elim (fun _ _ => by decide)⟩

/-! ## The derived run flag -/

theorem someActive_map_recount (ws : List Thread) :
    someActive (ws.map recount) = someActive ws := by
  unfold someActive
  rw [List.any_map]
  congr 1
  funext t
  simp only [Function.comp, recount_active, recount_closed]

theorem someActive_update_of_nodup (s : State)
    (h : (s.watchedThreads.map (fun t => t.id)).Nodup) :
    someActive (updateWatchedThreads s).watchedThreads = someActive s.watchedThreads := by
  unfold updateWatchedThreads
  simp only
  rw [deduplicate_of_nodup _ h]
  exact someActive_map_recount _

theorem someActive_of_find (ws : List Thread) (k : Int) (t : Thread)
    (h : findThread ws k = some t) (hactive : t.active = true) (hclosed : t.closed = false) :
    someActive ws = true := by
  unfold someActive
  rw [List.any_eq_true]
  exact ⟨t, findThread_some_mem h, by simp [hactive, hclosed]⟩

theorem ids_modifyThread (f : Thread → Thread) (hf : ∀ t, (f t).id = t.id) (k : Int)
    (ws : List Thread) :
    (modifyThread k f ws).map (fun t => t.id) = ws.map (fun t => t.id) := by
  induction ws with
  | nil => rfl
  | cons w rest ih =>
    unfold modifyThread
    split
    · simp [hf]
    · simp [ih]

theorem removeFirst_sublist (k : Int) (ws : List Thread) :
    List.Sublist (removeFirst k ws) ws := by
  induction ws with
  | nil => exact List.Sublist.refl _
  | cons w rest ih =>
    unfold removeFirst
    split
    · exact List.sublist_cons_self _ _
    · exact List.Sublist.cons₂ _ ih

theorem manageThreadsKick_isRunning (now : Int) (s : State) :
    (manageThreadsKick now s).isRunning = s.isRunning ∨
      (manageThreadsKick now s).isRunning = someActive s.watchedThreads := by
  unfold manageThreadsKick
  split
  · exact Or.inl rfl
  · simp only
    split
    · exact Or.inl rfl
    · split
      · exact Or.inl rfl
      · split
        · exact Or.inl rfl
        · split
          · exact Or.inl rfl
          · exact Or.inr rfl

theorem stopScraping_flag (s : State) :
    (stopScraping s).isRunning = false ∧ ∀ t ∈ (stopScraping s).watchedThreads, t.active = false := by
  have hpaused : ∀ t ∈ s.watchedThreads.map
      (fun t => if t.active then { t with active := false } else t), t.active = false := by
    intro t ht
    obtain ⟨u, -, rfl⟩ := List.mem_map.mp ht
    split
    · rfl
    · rename_i h; simpa using h
  unfold stopScraping
  simp only
  split
  · refine ⟨rfl, ?_⟩
    intro t ht
    obtain ⟨u, hu, rfl⟩ := mem_updateWatchedThreads _ t ht
    rw [recount_active]
    exact hpaused u hu
  · exact ⟨rfl, hpaused⟩

theorem someActive_eq_false (ws : List Thread) (h : ∀ t ∈ ws, t.active = false) :
    someActive ws = false := by
  unfold someActive
  rw [List.any_eq_false]
  intro t ht
  simp [h t ht]

theorem activeCount_clear_error (ws : List Thread) (k : Int) (thread : Thread)
    (hfind : findThread ws k = some thread) (hinactive : thread.active = false) :
    ((modifyThread k (fun t => { t with error := false }) ws).filter
        (fun t => t.active && !t.error && !t.closed)).length =
      (ws.filter (fun t => t.active && !t.error && !t.closed)).length := by
  induction ws with
  | nil => rfl
  | cons w rest ih =>
    unfold modifyThread
    by_cases hw : w.id = k
    · rw [if_pos hw]
      have hwt : w = thread := by
        unfold findThread at hfind
        rw [List.find?_cons_of_pos _ (by simpa using hw)] at hfind
        exact Option.some.inj hfind
      have hwa : w.active = false := by rw [hwt]; exact hinactive
      simp [List.filter_cons, hwa]
    · rw [if_neg hw]
      have hrest : findThread rest k = some thread := by
        unfold findThread at hfind ⊢
        rw [List.find?_cons_of_neg _ (by simpa using hw)] at hfind
        exact hfind
      simp only [List.filter_cons]
      split
      · simp [ih hrest]
      · exact ih hrest

theorem someActive_update_of_find (s : State) (k : Int) (t : Thread)
    (h : findThread s.watchedThreads k = some t) (hactive : t.active = true)
    (hclosed : t.closed = false) :
    someActive (updateWatchedThreads s).watchedThreads = true ∧
    ∃ t2, findThread (updateWatchedThreads s).watchedThreads k = some t2 ∧ t2.active = true ∧
      t2.closed = false := by
  have h1 : findThread (updateWatchedThreads s).watchedThreads k = some (recount t) := by
    rw [findThread_update, h]; rfl
  exact ⟨someActive_of_find _ k _ h1 (by rw [recount_active]; exact hactive)
    (by rw [recount_closed]; exact hclosed),
    recount t, h1, by rw [recount_active]; exact hactive, by rw [recount_closed]; exact hclosed⟩

/-- An activation by `toggleThread` ends with the run flag set and an active thread. -/
theorem toggleThread_activate (now : Int) (s : State) (threadId : Int) (thread : Thread)
    (hfind : findThread s.watchedThreads threadId = some thread)
    (hinactive : thread.active = false) (hclosed : thread.closed = false)
    (hcap : (s.watchedThreads.filter (fun t => t.active && !t.error && !t.closed)).length <
      MAX_CONCURRENT_THREADS) :
    (toggleThread now s threadId).isRunning = true ∧
    someActive (toggleThread now s threadId).watchedThreads = true := by
  have hkey : ∀ ws : List Thread, (∃ u, findThread ws threadId = some u ∧ u.closed = false) →
      (ws.filter (fun t => t.active && !t.error && !t.closed)).length < MAX_CONCURRENT_THREADS →
      (updateWatchedThreads (manageThreadsKick now (updateWatchedThreads
        { s with watchedThreads := modifyThread threadId (fun t => { t with active := true }) ws,
                 isRunning := true }))).isRunning = true ∧
      someActive (updateWatchedThreads (manageThreadsKick now (updateWatchedThreads
        { s with watchedThreads := modifyThread threadId (fun t => { t with active := true }) ws,
                 isRunning := true }))).watchedThreads = true := by
    intro ws ⟨u, hu, huc⟩ _
    have h0 : findThread (modifyThread threadId (fun t => { t with active := true }) ws) threadId =
        some { u with active := true } := by
      rw [findThread_modifyThread (fun t => { t with active := true }) (fun _ => rfl), hu]
      rfl
    obtain ⟨hs1, t1, hf1, ha1, hc1⟩ := someActive_update_of_find
      { s with watchedThreads := modifyThread threadId (fun t => { t with active := true }) ws,
               isRunning := true } threadId _ h0 rfl huc
    have hf2 : findThread (manageThreadsKick now (updateWatchedThreads
        { s with watchedThreads := modifyThread threadId (fun t => { t with active := true }) ws,
                 isRunning := true })).watchedThreads threadId = some t1 := by
      rw [manageThreadsKick_watchedThreads]; exact hf1
    obtain ⟨hs3, -⟩ := someActive_update_of_find _ threadId t1 hf2 ha1 hc1
    refine ⟨?_, hs3⟩
    show (manageThreadsKick now _).isRunning = true
    rcases manageThreadsKick_isRunning now (updateWatchedThreads
        { s with watchedThreads := modifyThread threadId (fun t => { t with active := true }) ws,
                 isRunning := true }) with h | h
    · rw [h]; rfl
    · rw [h]; exact hs1
  unfold toggleThread
  rw [hfind]
  simp only [hinactive, hclosed, Bool.false_eq_true, if_false]
  by_cases herr : thread.error = true
  · simp only [herr, if_true]
    have hcount := activeCount_clear_error s.watchedThreads threadId thread hfind hinactive
    rw [if_neg (by rw [hcount]; omega)]
    apply hkey
    · exact ⟨{ thread with error := false }, by
        rw [findThread_modifyThread (fun t => { t with error := false }) (fun _ => rfl), hfind]
        rfl, hclosed⟩
    · rw [hcount]; exact hcap
  · have herr2 : thread.error = false := by simpa using herr
    simp only [herr2, Bool.false_eq_true, if_false]
    rw [if_neg (by omega)]
    exact hkey s.watchedThreads ⟨thread, hfind, hclosed⟩ hcap

theorem nodup_modifyThread (f : Thread → Thread) (hf : ∀ t, (f t).id = t.id) (k : Int)
    (ws : List Thread) (h : (ws.map (fun t => t.id)).Nodup) :
    ((modifyThread k f ws).map (fun t => t.id)).Nodup := by
  rw [ids_modifyThread f hf]
  exact h

theorem loadThread_id (st : StoredThread) : (loadThread st).id = st.id := rfl

/-- C12, as stated, fails: `toggleThread` on a closed thread returns at once; the run
flag, still set from before the thread closed, stays `true` although no watched thread
is active. -/
theorem C12_toggle_closed_keeps_flag :
    findThread staleRunning.watchedThreads 7 = some { id := 7, closed := true } ∧
    toggleThread 0 staleRunning 7 = staleRunning ∧
    (toggleThread 0 staleRunning 7).isRunning = true ∧
    someActive (toggleThread 0 staleRunning 7).watchedThreads = false :=
  ⟨by decide, by decide, by decide, by decide⟩

/-- C12, amended. Derived run flag: `isRunning` equals "some watched thread has
`active = true` and `closed = false`" after every `manageThreads` pass that reaches its
final step and after `stopScraping`; and, in a registry whose ids are pairwise distinct,
after `closeThread` and `removeThread` of a registered thread, after a `toggleThread`
call that pauses an active thread or activates a paused, non-closed thread below the
cap, and after `initializeState` of a persisted registry with pairwise distinct ids.  A
`closeThread`, `removeThread` or `toggleThread` call for an unknown id, and a
`toggleThread` call for a closed thread, return at once and leave the stores, and so
`isRunning`, as they were. -/
theorem C12_derived_run_flag (s : State) (hnodup : (s.watchedThreads.map (fun t => t.id)).Nodup) :
    (∀ env : SearchEnv,
      (manageThreadsFinish env s).isRunning =
        someActive (manageThreadsFinish env s).watchedThreads) ∧
    (stopScraping s).isRunning = someActive (stopScraping s).watchedThreads ∧
    (∀ threadId : Int, (findThread s.watchedThreads threadId).isSome = true →
      (closeThread s threadId).isRunning = someActive (closeThread s threadId).watchedThreads ∧
      (removeThread s threadId).isRunning =
        someActive (removeThread s threadId).watchedThreads) ∧
    (∀ (now threadId : Int) (thread : Thread),
      findThread s.watchedThreads threadId = some thread →
      (thread.active = true ∨
        (thread.closed = false ∧
          (s.watchedThreads.filter (fun t => t.active && !t.error && !t.closed)).length <
            MAX_CONCURRENT_THREADS)) →
      (toggleThread now s threadId).isRunning =
        someActive (toggleThread now s threadId).watchedThreads) ∧
    (∀ (now : Int) (stored : Stored),
      ((stored.watchedThreads.getD []).map (fun t => t.id)).Nodup →
      (initializeState now s stored).isRunning =
        someActive (initializeState now s stored).watchedThreads) ∧
    (∀ (now threadId : Int), findThread s.watchedThreads threadId = none →
      closeThread s threadId = s ∧ removeThread s threadId = s ∧
        toggleThread now s threadId = s) ∧
    (∀ (now threadId : Int) (thread : Thread),
      findThread s.watchedThreads threadId = some thread → thread.active = false →
      thread.closed = true → toggleThread now s threadId = s) := by
  refine ⟨fun env => rfl, ?_, ?_, ?_, ?_, ?_, ?_⟩
  · obtain ⟨h1, h2⟩ := stopScraping_flag s
    rw [h1, someActive_eq_false _ h2]
  · intro threadId hsome
    obtain ⟨thread, hfind⟩ := Option.isSome_iff_exists.mp hsome
    constructor
    · unfold closeThread
      rw [hfind]
      simp only
      rw [someActive_update_of_nodup]
      · rfl
      · show ((modifyThread threadId _ s.watchedThreads).map (fun t => t.id)).Nodup
        refine nodup_modifyThread _ ?_ _ _ hnodup
        intro _
        rfl
    · unfold removeThread
      rw [hfind]
      simp only
      rw [someActive_update_of_nodup]
      · rfl
      · exact hnodup.sublist ((removeFirst_sublist threadId s.watchedThreads).map _)
  · intro now threadId thread hfind hcase
    by_cases hactive : thread.active = true
    · unfold toggleThread
      rw [hfind]
      simp only [hactive, if_true]
      rw [someActive_update_of_nodup]
      · rfl
      · show ((modifyThread threadId _ s.watchedThreads).map (fun t => t.id)).Nodup
        refine nodup_modifyThread _ ?_ _ _ hnodup
        intro _
        rfl
    · have hinactive : thread.active = false := by simpa using hactive
      rcases hcase with h | ⟨hclosed, hcap⟩
      · exact absurd h hactive
      · obtain ⟨h1, h2⟩ := toggleThread_activate now s threadId thread hfind hinactive hclosed hcap
        rw [h1, h2]
  · intro now stored hstored
    unfold initializeState cleanupOldDownloads
    simp only
    rw [someActive_update_of_nodup]
    · show (if stored.isRunning ≠ someActive _ then someActive _ else stored.isRunning) = _
      split
      · rfl
      · rename_i h
        simpa using h
    · show (((stored.watchedThreads.getD []).map loadThread).map (fun t => t.id)).Nodup
      rw [List.map_map]
      exact hstored
  · intro now threadId hnone
    refine ⟨?_, ?_, ?_⟩
    · unfold closeThread; rw [hnone]
    · unfold removeThread; rw [hnone]
    · unfold toggleThread; rw [hnone]
  · intro now threadId thread hfind hinactive hclosed
    unfold toggleThread
    rw [hfind]
    simp [hinactive, hclosed]

theorem C12_derived_run_flag_witness :
    (pairState.watchedThreads.map (fun t => t.id)).Nodup ∧
    findThread pairState.watchedThreads 7 = some { id := 7, active := true } ∧
    (toggleThread 0 pairState 7).isRunning = someActive (toggleThread 0 pairState 7).watchedThreads ∧
    (closeThread pairState 7).isRunning = someActive (closeThread pairState 7).watchedThreads :=
  have h := C12_derived_run_flag pairState (by decide)
  ⟨by decide, by decide, h.2.2.2.1 0 7 { id := 7, active := true } (by decide) (Or.inl rfl),
    (h.2.2.1 7 (by decide)).1⟩

/-! ## The lock under interleaving -/

/-- C11. The lock of `downloadImage` is not a mutual exclusion for three calls: the
first call takes the lock, the second and the third find it held and wait for the same
promise; when the first call returns, both are resumed, neither looks at `downloadLocks`
again, and both are in the `try` block at once. -/
theorem C11_two_holders :
    (lockRun threeCalls [LockEvent.call 0, LockEvent.call 1, LockEvent.call 2]).calls =
      [CallPhase.holding 0, CallPhase.waiting 0, CallPhase.waiting 0] ∧
    holders (lockRun threeCalls [LockEvent.call 0, LockEvent.call 1, LockEvent.call 2]) = 1 ∧
    (lockRun threeCalls [LockEvent.call 0, LockEvent.call 1, LockEvent.call 2,
      LockEvent.finish 0, LockEvent.wake 1, LockEvent.wake 2]).calls =
      [CallPhase.returned, CallPhase.holding 1, CallPhase.holding 2] ∧
    holders (lockRun threeCalls [LockEvent.call 0, LockEvent.call 1, LockEvent.call 2,
      LockEvent.finish 0, LockEvent.wake 1, LockEvent.wake 2]) = 2 :=
  ⟨by decide, by decide, by decide, by decide⟩

/-! ## Canonical paths and the collision-rename pattern -/

theorem duplicateMatch_of_safe (f : List Char) (h : ∀ c ∈ f, isSafeChar c = true) :
    duplicateMatch f = none := by
  cases hm : duplicateMatch f with
  | none => rfl
  | some g =>
    obtain ⟨g1, g2, g3⟩ := g
    obtain ⟨w, _, hf, _⟩ := duplicateMatch_sound f g1 g2 g3 hm
    have hsp : isSafeChar ' ' = true := h ' ' (by rw [hf]; simp)
    exact absurd hsp (by decide)

theorem getFullPath_data (lsp : SearchParams) (threadId : Int) (username : Option String)
    (filename : String) :
    (getFullPath lsp threadId username filename).data =
      (stripSlashes lsp.downloadPath).data ++ '/' :: ((numStr threadId).data ++ '/' ::
        ((sanitizedUsername username).data ++ '/' :: (sanitizedFilename filename).data)) := by
  unfold getFullPath
  simp [String.data_append]


/-- C30: the last segment of a canonical path `getFullPath(threadId, username, filename)` is
the sanitised file name, made of characters of `[a-zA-Z0-9_.-]` only, so it holds no slash,
space or bracket; the pattern of collision-renamed files, `duplicateMatch`, does not match it;
the listener `handleDownloadCreated` therefore ignores an event that carries a canonical path;
and the path is the cleaned download root followed by exactly three segments: the thread id,
the sanitised user name and the sanitised file name. -/
theorem C30_canonical_path_not_duplicate (lsp : SearchParams) (threadId : Int)
    (username : Option String) (filename : String) (cancelOk : Bool) (s : State) (id : Nat) :
    (∀ c ∈ (lastSegment (getFullPath lsp threadId username filename)).data,
        isSafeChar c = true ∧ c ≠ '/' ∧ c ≠ ' ' ∧ c ≠ '(' ∧ c ≠ ')') ∧
      duplicateMatch (lastSegment (getFullPath lsp threadId username filename)).data = none ∧
      handleDownloadCreated cancelOk s
          { filename := getFullPath lsp threadId username filename, id := id } =
        { state := s, cancelled := false, erased := false } ∧
      splitOnChar '/' (getFullPath lsp threadId username filename).data =
        splitOnChar '/' (stripSlashes lsp.downloadPath).data ++
          [(numStr threadId).data, (sanitizedUsername username).data,
            (sanitizedFilename filename).data] := by
  have hsafe := sanitizedFilename_safe filename
  have husafe := sanitizedUsername_safe username
  have hdup : duplicateMatch (sanitizedFilename filename).data = none :=
    duplicateMatch_of_safe _ hsafe
  have hnum := (numChars_spec threadId).2
  have hnum2 : (numStr threadId).data = numChars threadId := rfl
  refine ⟨?_, ?_, ?_, ?_⟩
  · rw [lastSegment_getFullPath]
    intro c hc
    have h := hsafe c hc
    refine ⟨h, ?_, ?_, ?_, ?_⟩ <;> (intro hcc; rw [hcc] at h; exact absurd h (by decide))
  · rw [lastSegment_getFullPath]
    exact hdup
  · unfold handleDownloadCreated
    simp only
    split
    · rfl
    · have hparts : splitOnChar '/' ((getFullPath lsp threadId username filename).data.map
          (fun c => if c = Char.ofNat 92 then '/' else c)) =
          splitOnChar '/' ((stripSlashes lsp.downloadPath).data.map
            (fun c => if c = Char.ofNat 92 then '/' else c)) ++
          [(numStr threadId).data, (sanitizedUsername username).data,
            (sanitizedFilename filename).data] := by
        rw [getFullPath_data]
        simp only [List.map_append, List.map_cons, if_neg (show ¬ '/' = Char.ofNat 92 by decide)]
        rw [map_backslash_id (numStr threadId).data (by rw [hnum2]; exact hnum.2),
          map_backslash_id (sanitizedUsername username).data
            (fun h => (safe_not_special _ (husafe _ h)).2.1 rfl),
          map_backslash_id (sanitizedFilename filename).data
            (fun h => (safe_not_special _ (hsafe _ h)).2.1 rfl)]
        exact created_path_parts _ _ _ _ (by rw [hnum2]; exact hnum.1)
          (fun h => (safe_not_special _ (husafe _ h)).1 rfl)
          (fun h => (safe_not_special _ (hsafe _ h)).1 rfl)
      rw [hparts]
      split
      · rfl
      · simp only [List.reverse_append, List.reverse_cons, List.reverse_nil, List.nil_append,
          List.cons_append, List.singleton_append]
        split
        · rfl
        · split
          · rfl
          · rw [hdup]
  · rw [getFullPath_data]
    exact created_path_parts _ _ _ _ (by rw [hnum2]; exact hnum.1)
      (fun h => (safe_not_special _ (husafe _ h)).1 rfl)
      (fun h => (safe_not_special _ (hsafe _ h)).1 rfl)

/-! ## Startup with a negative stored total (claim C24) -/

/-- C24, evaluation at the failing input: the persisted registry holds one thread with
`totalImages = -1` and no names.  The loop of `initializeState` (`loadThread`) caps the
count with `Math.max(0, totalImages)` and stores `downloadedCount = 0`, but leaves
`totalImages = -1`; the `updateWatchedThreads` call that ends the function recomputes
`min(|skippedImages|, totalImages)` without that guard, so the loaded thread ends with
`downloadedCount = -1`, below zero. -/
theorem C24_negative_total_after_init :
    (loadThread { id := 7, totalImages := -1 }).downloadedCount = 0 ∧
    (loadThread { id := 7, totalImages := -1 }).totalImages = -1 ∧
    (initializeState 0 {} { watchedThreads := some [{ id := 7, totalImages := -1 }] }).watchedThreads =
      [{ id := 7, title := "Thread 7", totalImages := -1, downloadedCount := -1 }] ∧
    (initializeState 0 {} { watchedThreads := some [{ id := 7, totalImages := -1 }] }).isInitialized
      = true ∧
    ¬ (∀ t ∈ (initializeState 0 {}
        { watchedThreads := some [{ id := 7, totalImages := -1 }] }).watchedThreads,
      0 ≤ t.downloadedCount) := by
  refine ⟨by decide, by decide, by decide, by decide, ?_⟩
  intro h
  have := h { id := 7, title := "Thread 7", totalImages := -1, downloadedCount := -1 } (by decide)
  revert this
  decide

/-! ## `forgetThreadDownloads` (claim C25) -/

theorem forgetReset_id (t : Thread) : (forgetReset t).id = t.id := rfl

theorem recount_forgetReset (t : Thread) :
    recount (forgetReset t) =
      { t with skippedImages := [], downloadedCount := min 0 t.totalImages, error := false } := by
  unfold recount forgetReset
  simp only [List.length_nil, Nat.cast_zero]
  split
  · rfl
  · rename_i h
    simp only [ne_eq, Decidable.not_not] at h
    rw [← h]

theorem manageThreadsKick_ledger (now : Int) (s : State) :
    (manageThreadsKick now s).downloadedImages = s.downloadedImages := by
  unfold manageThreadsKick dispatchStep
  simp only
  repeat' split
  all_goals rfl

theorem filter_not_of_filter_empty {α : Type} (p : α → Bool) (l : List α)
    (h : ¬ (l.filter p).length > 0) : l.filter (fun e => !p e) = l := by
  have h0 : l.filter p = [] := List.length_eq_zero.mp (by omega)
  rw [List.filter_eq_self]
  intro a ha
  have := List.filter_eq_nil_iff.mp h0 a ha
  simpa using this

/-- The registry and the ledger after `forgetThreadDownloads` of a registered thread. -/
theorem forgetThreadDownloads_registered (now : Int) (s : State) (threadId : Int) (thread : Thread)
    (hfind : findThread s.watchedThreads threadId = some thread) :
    (forgetThreadDownloads now s threadId).returned = true ∧
    (forgetThreadDownloads now s threadId).state.watchedThreads =
      (updateWatchedThreads
        { s with watchedThreads := modifyThread threadId forgetReset s.watchedThreads }).watchedThreads ∧
    (forgetThreadDownloads now s threadId).state.downloadedImages =
      s.downloadedImages.filter (fun e => !decide (e.2.threadId = threadId)) ∧
    (forgetThreadDownloads now s threadId).state.threadProgressTimers = s.threadProgressTimers := by
  have hled : (if (s.downloadedImages.filter (fun e => decide (e.2.threadId = threadId))).length > 0
      then s.downloadedImages.filter (fun e => !decide (e.2.threadId = threadId))
      else s.downloadedImages) =
      s.downloadedImages.filter (fun e => !decide (e.2.threadId = threadId)) := by
    split
    · rfl
    · rename_i h
      exact (filter_not_of_filter_empty
        (fun e : String × LedgerEntry => decide (e.2.threadId = threadId)) _ h).symm
  unfold forgetThreadDownloads
  rw [hfind]
  simp only
  rw [hled]
  split
  · exact ⟨rfl, by rw [manageThreadsKick_watchedThreads]; rfl,
      by rw [manageThreadsKick_ledger]; rfl, by rw [manageThreadsKick_timers]; rfl⟩
  · exact ⟨rfl, rfl, rfl, rfl⟩

theorem mem_modifyThread_find (k : Int) (f : Thread → Thread) (ws : List Thread) (t : Thread)
    (h : t ∈ modifyThread k f ws) :
    t ∈ ws ∨ ∃ u, findThread ws k = some u ∧ t = f u := by
  induction ws with
  | nil => simp [modifyThread] at h
  | cons w rest ih =>
    unfold modifyThread at h
    unfold findThread
    split at h
    · rename_i hid
      rcases List.mem_cons.mp h with h1 | h1
      · right
        exact ⟨w, by rw [List.find?_cons_of_pos _ (by simpa using hid)], h1⟩
      · exact Or.inl (List.mem_cons_of_mem _ h1)
    · rename_i hid
      rcases List.mem_cons.mp h with h1 | h1
      · left; rw [h1]; exact List.mem_cons_self _ _
      · rcases ih h1 with h2 | ⟨u, hu, htu⟩
        · exact Or.inl (List.mem_cons_of_mem _ h2)
        · right
          refine ⟨u, ?_, htu⟩
          rw [List.find?_cons_of_neg _ (by simpa using hid)]
          exact hu

/-- C25. Forget-history for one thread, in a registry whose counts are the capped sizes of
their sets, as every writer of the registry leaves them: `forgetThreadDownloads` of a
registered thread id returns true; the ledger afterwards is the ledger before without the
entries whose `threadId` is that id, every other entry kept in place with its value; every
other id finds the thread it found before, unchanged; the thread itself, its total not
being negative, has an empty `skippedImages` and `downloadedCount = 0`, and its `active` and
`closed` flags and its other fields but `error`, which is reset, are as before; and when
the ids are pairwise distinct the registry is the old one with that one thread reset.  For
an id that is not registered the function returns false and changes nothing. -/
theorem C25_forget_thread_history (now : Int) (s : State) (threadId : Int)
    (hcount : ∀ t ∈ s.watchedThreads,
      t.downloadedCount = min (t.skippedImages.length : Int) t.totalImages) :
    (∀ thread, findThread s.watchedThreads threadId = some thread →
      (forgetThreadDownloads now s threadId).returned = true ∧
      (forgetThreadDownloads now s threadId).state.downloadedImages =
        s.downloadedImages.filter (fun e => !decide (e.2.threadId = threadId)) ∧
      (∀ k, k ≠ threadId →
        findThread (forgetThreadDownloads now s threadId).state.watchedThreads k =
          findThread s.watchedThreads k) ∧
      (0 ≤ thread.totalImages →
        findThread (forgetThreadDownloads now s threadId).state.watchedThreads threadId =
          some { thread with skippedImages := [], downloadedCount := 0, error := false } ∧
        ((s.watchedThreads.map (fun t => t.id)).Nodup →
          (forgetThreadDownloads now s threadId).state.watchedThreads =
            modifyThread threadId forgetReset s.watchedThreads))) ∧
    (findThread s.watchedThreads threadId = none →
      (forgetThreadDownloads now s threadId).returned = false ∧
      (forgetThreadDownloads now s threadId).state = s) := by
  constructor
  · intro thread hfind
    obtain ⟨hret, hws, hled, -⟩ := forgetThreadDownloads_registered now s threadId thread hfind
    refine ⟨hret, hled, ?_, ?_⟩
    · intro k hk
      rw [hws, findThread_update]
      show (findThread (modifyThread threadId forgetReset s.watchedThreads) k).map recount = _
      rw [findThread_modifyThread_ne forgetReset forgetReset_id _ _ _ hk]
      cases hk2 : findThread s.watchedThreads k with
      | none => rfl
      | some u =>
        show some (recount u) = some u
        rw [recount_of_consistent u (hcount u (findThread_some_mem hk2))]
    · intro htotal
      constructor
      · rw [hws, findThread_update]
        show (findThread (modifyThread threadId forgetReset s.watchedThreads) threadId).map
          recount = _
        rw [findThread_modifyThread forgetReset forgetReset_id, hfind]
        show some (recount (forgetReset thread)) = _
        rw [recount_forgetReset, min_eq_left htotal]
      · intro hnodup
        rw [hws]
        apply updateWatchedThreads_of_consistent
        · exact nodup_modifyThread forgetReset forgetReset_id threadId s.watchedThreads hnodup
        · intro t ht
          rcases mem_modifyThread_find threadId forgetReset s.watchedThreads t ht with
            h1 | ⟨u, hu, htu⟩
          · exact hcount t h1
          · rw [hfind] at hu
            rw [htu, ← Option.some.inj hu]
            show (0 : Int) = min ((([] : List String).length : Nat) : Int) thread.totalImages
            simp [htotal]
  · intro hnone
    unfold forgetThreadDownloads
    rw [hnone]
    exact ⟨rfl, rfl⟩

/-- Witness of C25: the history of thread 8 of `forgetState` is forgotten. -/
theorem C25_forget_thread_history_witness :
    (∀ t ∈ forgetState.watchedThreads,
      t.downloadedCount = min (t.skippedImages.length : Int) t.totalImages) ∧
    findThread forgetState.watchedThreads 8 =
      some { id := 8, totalImages := 5, downloadedCount := 1, skippedImages := ["a.png"] } ∧
    (forgetThreadDownloads 0 forgetState 8).returned = true ∧
    findThread (forgetThreadDownloads 0 forgetState 8).state.watchedThreads 8 =
      some { id := 8, totalImages := 5, downloadedCount := 0, skippedImages := [] } :=
  ⟨by decide, by decide,
    ((C25_forget_thread_history 0 forgetState 8 (by decide)).1
      { id := 8, totalImages := 5, downloadedCount := 1, skippedImages := ["a.png"] }
      (by decide)).1,
    (((C25_forget_thread_history 0 forgetState 8 (by decide)).1
      { id := 8, totalImages := 5, downloadedCount := 1, skippedImages := ["a.png"] }
      (by decide)).2.2.2 (by decide)).1⟩

/-! ## The stuck timer after `forgetThreadDownloads` (claim C21) -/

/-- C21, evaluation at the failing input: the only thread of `completeState` is active and
complete (4 of 4) with a stuck timer set at time 1000, so no thread with
`downloadedCount < totalImages` has a timer.  `forgetThreadDownloads(7)` resets the count to
0 and leaves the timer of the thread in `threadProgressTimers`, whatever the time of the
call, so afterwards a thread with work to do (0 of 4) has a stuck timer; `forgetAllDownloads`
clears the timers.  When the command is given six minutes after the timer was set
(`forgottenState`), the timer check of the pass of `manageThreads` that the command starts
finds the timer expired and the same four images upstream, and closes the thread while
none of its images is downloaded. -/
theorem C21_forget_keeps_timer :
    (∀ t ∈ completeState.watchedThreads, t.downloadedCount < t.totalImages →
      JSMap.has completeState.threadProgressTimers t.id = false) ∧
    (forgetThreadDownloads 2000 completeState 7).state.watchedThreads = [forgottenThread] ∧
    (forgetThreadDownloads 2000 completeState 7).state.threadProgressTimers = [(7, 1000)] ∧
    (forgetThreadDownloads 361000 completeState 7).returned = true ∧
    forgottenState.watchedThreads = [forgottenThread] ∧
    forgottenState.threadProgressTimers = [(7, 1000)] ∧
    forgottenThread.downloadedCount < forgottenThread.totalImages ∧
    JSMap.has forgottenState.threadProgressTimers forgottenThread.id = true ∧
    (forgetAllDownloads 361000 completeState).threadProgressTimers = [] ∧
    (timerCheck (tickHost 4) forgottenState).state.watchedThreads =
      [{ forgottenThread with closed := true, active := false }] := by
  refine ⟨by decide, by decide, by decide, by decide, by decide, by decide, by decide, by decide,
    by decide, by decide⟩

/-! ## A complete thread after pause and resume (claim C27) -/

/-- C27, evaluation at the failing input: the only thread of `completeState` is active and
complete (4 of 4) and has its stuck timer.  `toggleThread(7)` pauses it and deletes the
timer; a second `toggleThread(7)` sets `active = true` and calls `manageThreads`, which
neither dispatches the thread (it has no work: `threadsToProcess` is empty) nor sets a
timer.  The thread is then active, not errored, not closed, complete, and without a stuck
timer, so it is not dispatched and the timer check of later ticks never looks at it: the
timer check of a tick changes nothing, whatever the upstream reports. -/
theorem C27_resumed_without_timer :
    (∀ t ∈ completeState.watchedThreads, t.active = true → t.error = false → t.closed = false →
      t.downloadedCount ≥ t.totalImages → t.totalImages > 0 →
      JSMap.has completeState.threadProgressTimers t.id = true) ∧
    (toggleThread 2000 completeState 7).watchedThreads =
      [{ completeThread with active := false }] ∧
    (toggleThread 2000 completeState 7).threadProgressTimers = [] ∧
    (toggleThread 3000 (toggleThread 2000 completeState 7) 7).watchedThreads = [completeThread] ∧
    (toggleThread 3000 (toggleThread 2000 completeState 7) 7).threadProgressTimers = [] ∧
    (toggleThread 3000 (toggleThread 2000 completeState 7) 7).activeDownloads = [] ∧
    dispatchEligible completeThread = false ∧
    threadsToProcess [completeThread] (toggleThread 3000 (toggleThread 2000 completeState 7) 7) = [] ∧
    (timerCheck (tickHost 9) (toggleThread 3000 (toggleThread 2000 completeState 7) 7)).state =
      toggleThread 3000 (toggleThread 2000 completeState 7) 7 ∧
    (timerCheck (tickHost 9) (toggleThread 3000 (toggleThread 2000 completeState 7) 7)).fetched = [] := by
  refine ⟨by decide, by decide, by decide, by decide, by decide, by decide, by decide, by decide,
    by decide, by decide⟩

/-! ## The cap on active threads and the timer check (claim C28) -/

/-- C28, evaluation at the failing input: `cappedState` has five active threads and a
paused, complete thread 7 whose stuck timer is six minutes old at the tick; it is the state
after `toggleThread(7)` was refused at the cap for the errored thread 7 of `erroredAtCap`
(the call clears `error` before it tests the cap).  The upstream reports five images for
thread 7, one more than its total of four, so the timer check of `manageThreads` takes the
re-activating branch and sets `active = true` without looking at the number of active
threads: afterwards six threads are active, not errored and not closed. -/
theorem C28_timer_check_exceeds_cap :
    activeCount erroredAtCap.watchedThreads = 5 ∧
    toggleThread 2000 erroredAtCap 7 = cappedState ∧
    activeCount cappedState.watchedThreads = 5 ∧
    activeCount (timerCheck (tickHost 5) cappedState).state.watchedThreads = 6 ∧
    (timerCheck (tickHost 5) cappedState).fetched = [7] ∧
    findThread (timerCheck (tickHost 5) cappedState).state.watchedThreads 7 =
      some { completeThread with totalImages := 5 } ∧
    ¬ activeCount (timerCheck (tickHost 5) cappedState).state.watchedThreads ≤
      MAX_CONCURRENT_THREADS := by
  refine ⟨by decide, by decide, by decide, by decide, by decide, by decide, by decide⟩

/-! ## Markers, ledger and registry through a discovery pass -/

theorem markerKey_injective (i j : Int) (h : markerKey i = markerKey j) : i = j := by
  unfold markerKey at h
  have hd : (numStr i ++ "-processing").data = (numStr j ++ "-processing").data := by rw [h]
  simp only [String.data_append] at hd
  have hn : numChars i = numChars j := List.append_cancel_right hd
  have h1 := parseInt_numChars i
  rw [hn, parseInt_numChars] at h1
  exact (Option.some.inj h1).symm

theorem JSMap.has_set_ne {α : Type} (m : List (String × α)) (k j : String) (v : α)
    (h : j ≠ k) : JSMap.has (JSMap.set m k v) j = JSMap.has m j := by
  unfold JSMap.has
  by_cases hk : k ∈ JSMap.keys m
  · rw [JSMap.keys_set_of_mem m k v hk]
  · rw [JSMap.keys_set_of_not_mem m k v hk]
    simp [h]

theorem has_foldl_markProcessing (ts : List Thread) (key : String)
    (h : ∀ t ∈ ts, markerKey t.id ≠ key) :
    ∀ ad : List (String × ActiveValue),
      JSMap.has (ts.foldl markProcessing ad) key = JSMap.has ad key := by
  induction ts with
  | nil => intro ad; rfl
  | cons t ts ih =>
    intro ad
    rw [List.foldl_cons, ih (fun u hu => h u (List.mem_cons_of_mem _ hu))]
    unfold markProcessing
    split
    · rfl
    · exact JSMap.has_set_ne _ _ _ _ (fun hk => h t (List.mem_cons_self _ _) hk.symm)

theorem mem_threadsToProcess (cands : List Thread) (s : State) (t : Thread)
    (h : t ∈ threadsToProcess cands s) : t ∈ cands := by
  unfold threadsToProcess at h
  simp only at h
  split at h
  · simp at h
  · exact List.mem_of_mem_filter (List.mem_of_mem_filter (List.mem_of_mem_take h))

/-- A call of `manageThreads` that is not awaited sets no marker for an id whose threads
are not active candidates. -/
theorem manageThreadsKick_marker (now : Int) (s : State) (k : Int)
    (h : ∀ t ∈ s.watchedThreads, t.id = k → (t.active && !t.error && !t.closed) = false) :
    JSMap.has (manageThreadsKick now s).activeDownloads (markerKey k) =
      JSMap.has s.activeDownloads (markerKey k) := by
  unfold manageThreadsKick
  simp only
  repeat' split
  all_goals first
    | rfl
    | (unfold dispatchStep
       simp only
       apply has_foldl_markProcessing
       intro t ht hkey
       have hmem := List.mem_filter.mp (mem_threadsToProcess _ _ _ ht)
       have hid := markerKey_injective _ _ hkey
       have := h t hmem.1 hid
       rw [this] at hmem
       exact Bool.false_ne_true hmem.2)

theorem nodup_updateWatchedThreads (s : State) :
    ((updateWatchedThreads s).watchedThreads.map (fun t => t.id)).Nodup := by
  unfold updateWatchedThreads
  simp only [List.map_map]
  have : ((fun t : Thread => t.id) ∘ recount) = (fun t => t.id) := by
    funext t
    exact recount_id t
  rw [this]
  exact deduplicate_nodup _

theorem eq_of_find_of_nodup (ws : List Thread) (k : Int) (t u : Thread)
    (hnodup : (ws.map (fun t => t.id)).Nodup) (hfind : findThread ws k = some t)
    (hu : u ∈ ws) (hid : u.id = k) : u = t := by
  have := findThread_of_nodup ws u hnodup hu
  rw [hid, hfind] at this
  exact (Option.some.inj this).symm

theorem update_off (p : State) (k : Int) (t : Thread)
    (hfind : findThread p.watchedThreads k = some t)
    (hoff : (t.active && !t.error && !t.closed) = false) :
    ∀ u ∈ (updateWatchedThreads p).watchedThreads, u.id = k →
      (u.active && !u.error && !u.closed) = false := by
  intro u hu hid
  have hf := findThread_update p k
  rw [hfind] at hf
  have := eq_of_find_of_nodup _ k _ u (nodup_updateWatchedThreads p) hf hu hid
  rw [this, recount_active, recount_error, recount_closed]
  exact hoff

theorem searchAndWatchThreads_ledger (env : SearchEnv) (s : State) (board searchTerm : String)
    (limit : Nat) :
    (searchAndWatchThreads env s board searchTerm limit).state.downloadedImages =
      s.downloadedImages := by
  unfold searchAndWatchThreads
  split
  · rfl
  · split
    · rfl
    · simp only
      split
      · split
        · rw [manageThreadsKick_ledger]; rfl
        · rfl
      · rfl

theorem checkForNewThreads_ledger (env : SearchEnv) (s : State) :
    (checkForNewThreads env s).state.downloadedImages = s.downloadedImages := by
  unfold checkForNewThreads
  split
  · rfl
  · split
    · rfl
    · simp only
      split
      · rfl
      · exact searchAndWatchThreads_ledger env s _ _ _

theorem searchAndWatchThreads_marker (env : SearchEnv) (s : State) (board searchTerm : String)
    (limit : Nat) (k : Int) (t : Thread) (hfind : findThread s.watchedThreads k = some t)
    (hoff : (t.active && !t.error && !t.closed) = false) :
    JSMap.has (searchAndWatchThreads env s board searchTerm limit).state.activeDownloads
        (markerKey k) = JSMap.has s.activeDownloads (markerKey k) := by
  unfold searchAndWatchThreads
  split
  · rfl
  · split
    · rfl
    · simp only
      split
      · split
        · rw [manageThreadsKick_marker]
          · rfl
          · refine update_off _ k t ?_ hoff
            show findThread (s.watchedThreads ++ _) k = some t
            rw [findThread_append, hfind]
            rfl
        · rfl
      · rfl

theorem checkForNewThreads_marker (env : SearchEnv) (s : State) (k : Int) (t : Thread)
    (hfind : findThread s.watchedThreads k = some t)
    (hoff : (t.active && !t.error && !t.closed) = false) :
    JSMap.has (checkForNewThreads env s).state.activeDownloads (markerKey k) =
      JSMap.has s.activeDownloads (markerKey k) := by
  unfold checkForNewThreads
  split
  · rfl
  · split
    · rfl
    · simp only
      split
      · rfl
      · exact searchAndWatchThreads_marker env s _ _ _ k t hfind hoff

/-! ## The `catch` and the `finally` of `processThread` -/

theorem upToRecount_of_recount (u t2 : Thread) (h : UpToRecount (recount u) t2) :
    t2 = recount u := by
  rcases h with h | h
  · exact h
  · rw [h, recount_recount]

theorem processFinally_frame (env : ProcessEnv) (p : State) (k : Int) :
    (∀ j u, findThread p.watchedThreads j = some u →
      ∃ u2, findThread (processFinally env p k).watchedThreads j = some u2 ∧ UpToRecount u u2) ∧
    (processFinally env p k).downloadedImages = p.downloadedImages ∧
    (processFinally env p k).threadProgressTimers = p.threadProgressTimers ∧
    (processFinally env p k).isInitialized = p.isInitialized := by
  unfold processFinally
  simp only
  split
  · exact ⟨fun j u hu => ⟨u, hu, Or.inl rfl⟩, rfl, rfl, rfl⟩
  · split
    · refine ⟨fun j u hu => ?_, ?_, ?_, ?_⟩
      · exact findThread_checkForNewThreads _ _ j u hu
      · rw [checkForNewThreads_ledger]
      · rw [(checkForNewThreads_frame _ _).2.1]
      · rw [(checkForNewThreads_frame _ _).2.2]
    · exact ⟨fun j u hu => ⟨u, hu, Or.inl rfl⟩, rfl, rfl, rfl⟩

/-- After the `finally` of `processThread` the thread has no processing marker. -/
theorem processFinally_marker (env : ProcessEnv) (p : State) (k : Int) :
    JSMap.has (processFinally env p k).activeDownloads (markerKey k) = false := by
  unfold processFinally
  simp only
  split
  · exact JSMap.has_delete_self _ _
  · rename_i thread hthread
    split
    · rename_i hcond
      refine (checkForNewThreads_marker env.searchFinally
        { p with activeDownloads := JSMap.delete p.activeDownloads (markerKey k) } k thread
        hthread ?_).trans (JSMap.has_delete_self _ _)
      simp only [Bool.and_eq_true, Bool.not_eq_true'] at hcond
      rw [hcond.1]
      rfl
    · exact JSMap.has_delete_self _ _

theorem findThread_processFailed (s : State) (k j : Int) :
    findThread (processFailed s k).watchedThreads j =
      if j = k then
        (findThread s.watchedThreads j).map (fun t => recount (pausedOnError t))
      else (findThread s.watchedThreads j).map recount := by
  unfold processFailed
  rw [findThread_update]
  split
  · rename_i h
    rw [h]
    show (findThread (modifyThread k pausedOnError s.watchedThreads) k).map recount = _
    rw [findThread_modifyThread pausedOnError (fun _ => rfl)]
    cases findThread s.watchedThreads k <;> rfl
  · rename_i h
    show (findThread (modifyThread k pausedOnError s.watchedThreads) j).map recount = _
    rw [findThread_modifyThread_ne pausedOnError (fun _ => rfl) _ _ _ h]

/-- The `try` block of `processThread` ends in the `catch` when the fetch fails or its
payload has no non-empty `posts` array. -/
theorem processBody_failed (env : ProcessEnv) (s : State) (thread : Thread)
    (hfail : ∀ op rest, (fetchWithRetry s (env.fetch thread.url)).value ≠
      some { posts := some (op :: rest) }) :
    processBody env s thread = processFailed s thread.id := by
  unfold processBody
  cases hv : (fetchWithRetry s (env.fetch thread.url)).value with
  | none => rfl
  | some data =>
    obtain ⟨posts⟩ := data
    cases posts with
    | none => rfl
    | some l =>
      cases l with
      | nil => rfl
      | cons op rest => exact absurd hv (hfail op rest)

/-! ## `processThread` when the fetch fails (claim C22) -/

/-- C22. Parent-level failure pauses, does not close: in a registry whose counts are the
capped sizes of their sets, as every writer of the registry leaves them, for a registered
thread with a non-zero id, if the upstream fetch of `processThread` fails after its retries
or returns a payload without a non-empty `posts` array, `processThread` returns and leaves
the thread with `error = true` and `active = false` and every other field, among them
`closed`, `totalImages` and `skippedImages`, as it was; the ledger and the stuck timers are
unchanged; the thread has no processing marker; and every other id finds the thread it
found before, unchanged. -/
theorem C22_parent_failure_pauses (env : ProcessEnv) (s : State) (threadId : Int)
    (thread : Thread) (hid : threadId ≠ 0)
    (hfind : findThread s.watchedThreads threadId = some thread)
    (hcount : ∀ t ∈ s.watchedThreads,
      t.downloadedCount = min (t.skippedImages.length : Int) t.totalImages)
    (hfail : ∀ op rest, (fetchWithRetry s (env.fetch thread.url)).value ≠
      some { posts := some (op :: rest) }) :
    findThread (processThread env s threadId).watchedThreads threadId =
      some { thread with error := true, active := false } ∧
    (processThread env s threadId).downloadedImages = s.downloadedImages ∧
    (processThread env s threadId).threadProgressTimers = s.threadProgressTimers ∧
    JSMap.has (processThread env s threadId).activeDownloads (markerKey threadId) = false ∧
    (∀ k u, k ≠ threadId → findThread s.watchedThreads k = some u →
      findThread (processThread env s threadId).watchedThreads k = some u) := by
  have htid : thread.id = threadId := findThread_some_id hfind
  have hrun : processThread env s threadId =
      processFinally env (processFailed
        { s with activeDownloads :=
            JSMap.set s.activeDownloads (markerKey threadId) ActiveValue.marker } threadId)
        threadId := by
    unfold processThread
    rw [if_neg hid, hfind]
    simp only
    rw [processBody_failed env _ thread, htid]
    intro op rest
    have hc := fetchWithRetry_congr s
      { s with activeDownloads :=
          JSMap.set s.activeDownloads (markerKey threadId) ActiveValue.marker }
      (env.fetch thread.url) rfl rfl
    rw [hc]
    exact hfail op rest
  obtain ⟨hreg, hledger, htimers, _⟩ := processFinally_frame env (processFailed
    { s with activeDownloads :=
        JSMap.set s.activeDownloads (markerKey threadId) ActiveValue.marker } threadId) threadId
  refine ⟨?_, ?_, ?_, ?_, ?_⟩
  · have h1 := findThread_processFailed
      { s with activeDownloads :=
          JSMap.set s.activeDownloads (markerKey threadId) ActiveValue.marker } threadId threadId
    rw [if_pos rfl] at h1
    have h2 : findThread (processFailed
        { s with activeDownloads :=
            JSMap.set s.activeDownloads (markerKey threadId) ActiveValue.marker }
        threadId).watchedThreads threadId = some (recount (pausedOnError thread)) := by
      rw [h1]
      show (findThread s.watchedThreads threadId).map _ = _
      rw [hfind]
      rfl
    obtain ⟨u2, hu2, hup⟩ := hreg threadId _ h2
    have hu : u2 = recount (pausedOnError thread) := upToRecount_of_recount _ u2 hup
    rw [hrun, hu2, hu]
    have hcons : recount (pausedOnError thread) = pausedOnError thread :=
      recount_of_consistent _ (hcount thread (findThread_some_mem hfind))
    rw [hcons]
    rfl
  · rw [hrun, hledger]
    rfl
  · rw [hrun, htimers]
    rfl
  · rw [hrun]
    exact processFinally_marker _ _ _
  · intro k u hk hku
    have h1 := findThread_processFailed
      { s with activeDownloads :=
          JSMap.set s.activeDownloads (markerKey threadId) ActiveValue.marker } threadId k
    rw [if_neg hk] at h1
    have h2 : findThread (processFailed
        { s with activeDownloads :=
            JSMap.set s.activeDownloads (markerKey threadId) ActiveValue.marker }
        threadId).watchedThreads k = some (recount u) := by
      rw [h1]
      show (findThread s.watchedThreads k).map recount = _
      rw [hku]
      rfl
    obtain ⟨u2, hu2, hup⟩ := hreg k _ h2
    rw [hrun, hu2, upToRecount_of_recount u u2 hup,
      recount_of_consistent u (hcount u (findThread_some_mem hku))]

theorem failingHost_fails (op : Post) (rest : List Post) :
    (fetchWithRetry failingState (failingHost.fetch "https://a.4cdn.org/g/thread/7.json")).value ≠
      some { posts := some (op :: rest) } := by
  have h0 : (fetchWithRetry failingState
      (failingHost.fetch "https://a.4cdn.org/g/thread/7.json")).value = none := by decide
  rw [h0]
  exact fun h => Option.noConfusion h

/-- Witness of C22: thread 7 of `failingState` is processed while every fetch fails. -/
theorem C22_parent_failure_pauses_witness :
    findThread failingState.watchedThreads 7 =
      some { id := 7, url := "https://a.4cdn.org/g/thread/7.json", active := true,
             totalImages := 4, downloadedCount := 1, skippedImages := ["1.jpg"] } ∧
    (∀ t ∈ failingState.watchedThreads,
      t.downloadedCount = min (t.skippedImages.length : Int) t.totalImages) ∧
    findThread (processThread failingHost failingState 7).watchedThreads 7 =
      some { id := 7, url := "https://a.4cdn.org/g/thread/7.json", active := false, error := true,
             totalImages := 4, downloadedCount := 1, skippedImages := ["1.jpg"] } ∧
    JSMap.has (processThread failingHost failingState 7).activeDownloads (markerKey 7) = false :=
  ⟨by decide, by decide,
    (C22_parent_failure_pauses failingHost failingState 7
      { id := 7, url := "https://a.4cdn.org/g/thread/7.json", active := true,
        totalImages := 4, downloadedCount := 1, skippedImages := ["1.jpg"] }
      (by decide) (by decide) (by decide) failingHost_fails).1,
    (C22_parent_failure_pauses failingHost failingState 7
      { id := 7, url := "https://a.4cdn.org/g/thread/7.json", active := true,
        totalImages := 4, downloadedCount := 1, skippedImages := ["1.jpg"] }
      (by decide) (by decide) (by decide) failingHost_fails).2.2.2.1⟩

/-! ## The snapshot of candidates and the dispatch (claim C29) -/

/-- C29, evaluation at the failing input: `forgottenState` is `completeState` after
`forgetThreadDownloads(7)`, six minutes after the stuck timer of thread 7 was set; thread 7
is active with 0 of 4 images and its timer.  In the pass of `manageThreads` that follows,
thread 7 is a candidate of line 552; the timer check finds its timer expired and the same
four images upstream and closes it (`closed = true`, `active = false`); the dispatch then
filters the candidates of line 552 by marker and by remaining work only and hands thread 7
to `processThread` although it is closed and not active. -/
theorem C29_dispatch_of_closed_thread :
    forgottenState.watchedThreads = [forgottenThread] ∧
    forgottenState.threadProgressTimers = [(7, 1000)] ∧
    forgottenState.activeDownloads = [] ∧
    forgottenState.watchedThreads.filter (fun t => t.active && !t.error && !t.closed) =
      [forgottenThread] ∧
    (timerCheck steadyHost.tick forgottenState).state.watchedThreads =
      [{ forgottenThread with closed := true, active := false }] ∧
    (manageThreads steadyHost forgottenState).handed =
      [{ forgottenThread with closed := true, active := false }] ∧
    ¬ (∀ t ∈ (manageThreads steadyHost forgottenState).handed,
        t.active = true ∧ t.closed = false ∧ t.error = false) := by
  refine ⟨by decide, by decide, by decide, by decide, by decide, by decide, ?_⟩
  intro h
  have h1 := (h { forgottenThread with closed := true, active := false } (by decide)).1
  exact absurd h1 (by decide)

/-! ## A closed thread in runs without other tasks at the `await`s -/

theorem closedThread_of_upToRecount (ws2 : List Thread) (k : Int) (t t2 : Thread)
    (hc : t.closed = true) (ha : t.active = false) (hup : UpToRecount t t2)
    (h2 : findThread ws2 k = some t2) : ClosedThread ws2 k := by
  obtain ⟨_, _, _, _, hact, hcl, _⟩ := upToRecount_fields t t2 hup
  exact ⟨t2, h2, by rw [hcl, hc], by rw [hact, ha]⟩

theorem closedThread_update (s : State) (k : Int) (h : ClosedThread s.watchedThreads k) :
    ClosedThread (updateWatchedThreads s).watchedThreads k := by
  obtain ⟨t, hf, hc, ha⟩ := h
  refine ⟨recount t, ?_, ?_, ?_⟩
  · rw [findThread_update, hf]; rfl
  · rw [recount_closed, hc]
  · rw [recount_active, ha]

theorem closedThread_modify (j k : Int) (f : Thread → Thread) (ws : List Thread)
    (hf : ∀ t, (f t).id = t.id)
    (hkeep : ∀ t, t.closed = true → t.active = false → (f t).closed = true ∧ (f t).active = false)
    (h : ClosedThread ws k) : ClosedThread (modifyThread j f ws) k := by
  obtain ⟨t, hfind, hc, ha⟩ := h
  by_cases hjk : k = j
  · refine ⟨f t, ?_, (hkeep t hc ha).1, (hkeep t hc ha).2⟩
    rw [← hjk, findThread_modifyThread f hf, hfind]
    rfl
  · exact ⟨t, by rw [findThread_modifyThread_ne f hf _ _ _ hjk, hfind], hc, ha⟩

theorem closedThread_modify_ne (j k : Int) (f : Thread → Thread) (ws : List Thread)
    (hf : ∀ t, (f t).id = t.id) (hjk : k ≠ j) (h : ClosedThread ws k) :
    ClosedThread (modifyThread j f ws) k := by
  obtain ⟨t, hfind, hc, ha⟩ := h
  exact ⟨t, by rw [findThread_modifyThread_ne f hf _ _ _ hjk, hfind], hc, ha⟩

theorem closedThread_map (f : Thread → Thread) (ws : List Thread) (k : Int)
    (hf : ∀ t, (f t).id = t.id)
    (hkeep : ∀ t, t.closed = true → t.active = false → (f t).closed = true ∧ (f t).active = false)
    (h : ClosedThread ws k) : ClosedThread (ws.map f) k := by
  obtain ⟨t, hfind, hc, ha⟩ := h
  refine ⟨f t, ?_, (hkeep t hc ha).1, (hkeep t hc ha).2⟩
  rw [findThread_map f hf, hfind]
  rfl

theorem closedThread_checkForNewThreads (env : SearchEnv) (s : State) (k : Int)
    (h : ClosedThread s.watchedThreads k) :
    ClosedThread (checkForNewThreads env s).state.watchedThreads k := by
  obtain ⟨t, hfind, hc, ha⟩ := h
  obtain ⟨t2, h2, hup⟩ := findThread_checkForNewThreads env s k t hfind
  exact closedThread_of_upToRecount _ k t t2 hc ha hup h2

theorem closedThread_downloadImage (env : Nat → Attempt) (s : State) (url : String) (j : Int)
    (username : Option String) (k : Int) (h : ClosedThread s.watchedThreads k) :
    ClosedThread (downloadImage env s url j username).state.watchedThreads k := by
  rcases downloadImage_registry env s url j username with h1 | h1
  · rw [h1]; exact h
  · rw [h1]
    have h2 := closedThread_modify j k (markSkipped (lastSegment url)) s.watchedThreads
      (fun _ => rfl) (fun t hc ha => ⟨hc, ha⟩) h
    exact closedThread_update
      { s with watchedThreads := modifyThread j (markSkipped (lastSegment url)) s.watchedThreads }
      k h2

theorem closedThread_imageStep (env : ProcessEnv) (s : State) (thread : Thread) (post : Post)
    (k : Int) (h : ClosedThread s.watchedThreads k) :
    ClosedThread (imageStep env s thread post).watchedThreads k := by
  unfold imageStep
  simp only
  split
  · exact h
  · exact closedThread_downloadImage _ _ _ _ _ _ h

theorem closedThread_imageLoop (env : ProcessEnv) (j k : Int) (posts : List Post) :
    ∀ s : State, ClosedThread s.watchedThreads k →
      ClosedThread (imageLoop env j posts s).watchedThreads k := by
  induction posts with
  | nil => intro s h; exact h
  | cons post rest ih =>
    intro s h
    unfold imageLoop
    split
    · exact h
    · rename_i thread _
      split
      · exact h
      · simp only
        have h1 := closedThread_imageStep env s thread post k h
        split
        · exact h1
        · split
          · exact h1
          · exact ih _ h1

theorem closedThread_processFailed (s : State) (j k : Int)
    (h : ClosedThread s.watchedThreads k) :
    ClosedThread (processFailed s j).watchedThreads k := by
  unfold processFailed
  exact closedThread_update { s with watchedThreads := modifyThread j pausedOnError s.watchedThreads }
    k (closedThread_modify j k pausedOnError s.watchedThreads (fun _ => rfl)
      (fun t hc _ => ⟨hc, rfl⟩) h)

theorem closedThread_processBody (env : ProcessEnv) (s : State) (thread : Thread) (k : Int)
    (h : ClosedThread s.watchedThreads k) :
    ClosedThread (processBody env s thread).watchedThreads k := by
  unfold processBody
  split
  · exact closedThread_processFailed s _ k h
  · split
    · exact closedThread_processFailed s _ k h
    · exact closedThread_processFailed s _ k h
    · rename_i op rest _
      split
      · simp only
        apply closedThread_checkForNewThreads
        exact closedThread_update
          { s with watchedThreads := modifyThread thread.id closedLocally s.watchedThreads,
                   threadProgressTimers := JSMap.delete s.threadProgressTimers thread.id }
          k (closedThread_modify thread.id k closedLocally s.watchedThreads (fun _ => rfl)
            (fun t _ _ => ⟨rfl, rfl⟩) h)
      · simp only
        have hsaved : ClosedThread (updateWatchedThreads
            { s with
              watchedThreads := modifyThread thread.id
                (processSynced (((op :: rest).filter isImagePost).length : Int)) s.watchedThreads,
              threadProgressTimers := processTimers s.threadProgressTimers
                (processSynced (((op :: rest).filter isImagePost).length : Int) thread)
                env.timerNow }).watchedThreads k :=
          closedThread_update _ k
            (closedThread_modify thread.id k
              (processSynced (((op :: rest).filter isImagePost).length : Int)) s.watchedThreads
              (fun _ => rfl) (fun t hc ha => ⟨hc, ha⟩) h)
        split
        · have hloop := closedThread_imageLoop env thread.id k
            ((op :: rest).filter isImagePost) _ hsaved
          split
          · exact hloop
          · split
            · exact hloop
            · exact hloop
        · exact hsaved

theorem closedThread_processFinally (env : ProcessEnv) (s : State) (j k : Int)
    (h : ClosedThread s.watchedThreads k) :
    ClosedThread (processFinally env s j).watchedThreads k := by
  obtain ⟨t, hfind, hc, ha⟩ := h
  obtain ⟨t2, h2, hup⟩ := (processFinally_frame env s j).1 k t hfind
  exact closedThread_of_upToRecount _ k t t2 hc ha hup h2

/-- A run of `processThread`, for any thread, leaves a closed thread closed. -/
theorem closedThread_processThread (env : ProcessEnv) (s : State) (j k : Int)
    (h : ClosedThread s.watchedThreads k) :
    ClosedThread (processThread env s j).watchedThreads k := by
  unfold processThread
  split
  · exact h
  · split
    · exact h
    · simp only
      apply closedThread_processFinally
      apply closedThread_processBody
      exact h

theorem closedThread_processBatch (env : ManageEnv) (handed : List Thread) (s : State) (k : Int)
    (h : ClosedThread s.watchedThreads k) :
    ClosedThread (processBatch env handed s).watchedThreads k := by
  unfold processBatch
  have key : ∀ (l : List Thread) (st : State), ClosedThread st.watchedThreads k →
      ClosedThread (l.foldl (fun st t => processThread (env.process t.id) st t.id) st).watchedThreads
        k := by
    intro l
    induction l with
    | nil => intro st hst; exact hst
    | cons t l ih =>
      intro st hst
      rw [List.foldl_cons]
      exact ih _ (closedThread_processThread _ _ _ _ hst)
  exact key handed _ h

theorem closedThread_manageThreadsFinish (env : SearchEnv) (s : State) (k : Int)
    (h : ClosedThread s.watchedThreads k) :
    ClosedThread (manageThreadsFinish env s).watchedThreads k := by
  unfold manageThreadsFinish
  simp only
  split
  · exact closedThread_checkForNewThreads env s k h
  · exact h

theorem closedThread_timerCheckLoop (env : TickEnv) (k : Int) (l : List Thread)
    (hne : ∀ c ∈ l, c.id ≠ k) :
    ∀ (i : Nat) (s : State), ClosedThread s.watchedThreads k →
      ClosedThread (timerCheckLoop env i l s).state.watchedThreads k := by
  induction l with
  | nil => intro i s h; exact h
  | cons c l ih =>
    intro i s h
    unfold timerCheckLoop
    simp only
    apply ih (fun c2 hc2 => hne c2 (List.mem_cons_of_mem _ hc2))
    obtain ⟨t, hfind, hc, ha⟩ := h
    obtain ⟨t2, h2, hup⟩ := (timerCheckThread_frame env i s c.id k
      (fun hk => hne c (List.mem_cons_self _ _) hk.symm)).1 t hfind
    exact closedThread_of_upToRecount _ k t t2 hc ha hup h2

/-- A pass of `manageThreads` leaves a closed thread closed. -/
theorem closedThread_manageThreads (env : ManageEnv) (s : State) (k : Int)
    (hnodup : (s.watchedThreads.map (fun t => t.id)).Nodup)
    (h : ClosedThread s.watchedThreads k) :
    ClosedThread (manageThreads env s).state.watchedThreads k := by
  have hchecked : ClosedThread (timerCheck env.tick s).state.watchedThreads k := by
    unfold timerCheck
    simp only
    apply closedThread_timerCheckLoop
    · intro c hc hid
      obtain ⟨t, hfind, hcl, _⟩ := h
      have hmem : c ∈ s.watchedThreads ∧ c.closed = false := by
        rcases List.mem_append.mp hc with h1 | h1
        · have := List.mem_filter.mp h1
          refine ⟨this.1, ?_⟩
          have h2 := this.2
          simp only [Bool.and_eq_true, Bool.not_eq_true'] at h2
          exact h2.1.2
        · have := List.mem_filter.mp h1
          refine ⟨this.1, ?_⟩
          have h2 := this.2
          simp only [Bool.and_eq_true, Bool.not_eq_true', decide_eq_true_eq] at h2
          exact h2.1.1.1.2
      have := eq_of_find_of_nodup _ k t c hnodup hfind hmem.1 hid
      rw [this, hcl] at hmem
      exact Bool.noConfusion hmem.2
    · exact h
  unfold manageThreads
  split
  · exact h
  · simp only
    split
    · exact hchecked
    · simp only
      apply closedThread_manageThreadsFinish
      apply closedThread_processBatch
      exact hchecked

theorem closedThread_toggleThread (now : Int) (s : State) (j k : Int)
    (h : ClosedThread s.watchedThreads k) :
    ClosedThread (toggleThread now s j).watchedThreads k := by
  by_cases hjk : k = j
  · obtain ⟨t, hfind, hc, ha⟩ := h
    have : toggleThread now s j = s := by
      unfold toggleThread
      rw [← hjk, hfind]
      simp only
      rw [if_neg (by simp [ha]), if_pos hc]
    rw [this]
    exact ⟨t, hfind, hc, ha⟩
  · unfold toggleThread
    split
    · exact h
    · rename_i thread _
      split
      · simp only
        exact closedThread_update _ k
          (closedThread_modify_ne j k (fun t => { t with active := false }) s.watchedThreads
            (fun _ => rfl) hjk h)
      · split
        · exact h
        · simp only
          split
          · have hws := closedThread_modify_ne j k (fun t => { t with error := false })
              s.watchedThreads (fun _ => rfl) hjk h
            split
            · exact hws
            · apply closedThread_update
              rw [manageThreadsKick_watchedThreads]
              apply closedThread_update
              exact closedThread_modify_ne j k (fun t => { t with active := true }) _
                (fun _ => rfl) hjk hws
          · split
            · exact h
            · apply closedThread_update
              rw [manageThreadsKick_watchedThreads]
              apply closedThread_update
              exact closedThread_modify_ne j k (fun t => { t with active := true }) _
                (fun _ => rfl) hjk h

theorem findThread_resumeFirst (k : Int) (t : Thread) (hc : t.closed = true) :
    ∀ (ws : List Thread) (n : Nat), findThread ws k = some t →
      findThread (resumeFirst n ws) k = some t := by
  intro ws
  induction ws with
  | nil => intro n h; cases n <;> exact h
  | cons u ws ih =>
    intro n h
    cases n with
    | zero => exact h
    | succ n =>
      unfold resumeFirst
      unfold findThread at h ⊢
      by_cases hid : u.id = k
      · rw [List.find?_cons_of_pos _ (by simpa using hid)] at h
        have hu : u = t := Option.some.inj h
        rw [if_neg (by rw [hu, hc]; simp)]
        rw [List.find?_cons_of_pos _ (by simpa using hid), hu]
      · rw [List.find?_cons_of_neg _ (by simpa using hid)] at h
        split
        · rw [List.find?_cons_of_neg _ (by simpa using hid)]
          exact ih n h
        · rw [List.find?_cons_of_neg _ (by simpa using hid)]
          exact ih (n + 1) h

theorem closedThread_resumeThread (env : ResumeEnv) (s : State) (j k : Int)
    (h : ClosedThread s.watchedThreads k) :
    ClosedThread (resumeThread env s j).watchedThreads k := by
  obtain ⟨t, hfind, hc, ha⟩ := h
  by_cases hjk : k = j
  · have : resumeThread env s j = s := by
      unfold resumeThread
      rw [← hjk, hfind]
      simp only
      rw [if_pos (by simp [hc])]
    rw [this]
    exact ⟨t, hfind, hc, ha⟩
  · rcases findThread_resumeThread_ne env s j k hjk with h1 | h1
    · exact ⟨t, by rw [h1, hfind], hc, ha⟩
    · exact ⟨recount t, by rw [h1, hfind]; rfl, by rw [recount_closed, hc],
        by rw [recount_active, ha]⟩

theorem closedThread_resumeActiveThreads (env : ResumeEnv) (s : State) (k : Int)
    (h : ClosedThread s.watchedThreads k) :
    ClosedThread (resumeActiveThreads env s).watchedThreads k := by
  have key : ∀ (l : List Thread) (st : State), ClosedThread st.watchedThreads k →
      ClosedThread (resumeLoop env l st).watchedThreads k := by
    intro l
    induction l with
    | nil => intro st hst; exact hst
    | cons c l ih =>
      intro st hst
      unfold resumeLoop
      exact ih _ (closedThread_resumeThread env st c.id k hst)
  unfold resumeActiveThreads
  split
  · exact h
  · simp only
    split
    · exact h
    · rw [manageThreadsKick_watchedThreads]
      exact key _ s h

theorem closedThread_resumeAllThreads (throttled : Bool) (env : ResumeEnv) (s : State) (k : Int)
    (h : ClosedThread s.watchedThreads k) :
    ClosedThread (resumeAllThreads throttled env s).state.watchedThreads k := by
  unfold resumeAllThreads
  split
  · exact h
  · simp only
    split
    · exact h
    · split
      · apply closedThread_resumeActiveThreads
        apply closedThread_update
        obtain ⟨t, hfind, hc, ha⟩ := h
        exact ⟨t, findThread_resumeFirst k t hc _ _ hfind, hc, ha⟩
      · exact h

theorem closedThread_forgetThreadDownloads (now : Int) (s : State) (j k : Int)
    (h : ClosedThread s.watchedThreads k) :
    ClosedThread (forgetThreadDownloads now s j).state.watchedThreads k := by
  cases hj : findThread s.watchedThreads j with
  | none =>
    unfold forgetThreadDownloads
    rw [hj]
    exact h
  | some thread =>
    rw [(forgetThreadDownloads_registered now s j thread hj).2.1]
    exact closedThread_update _ k
      (closedThread_modify j k forgetReset s.watchedThreads forgetReset_id
        (fun t hc ha => ⟨hc, ha⟩) h)

theorem closedThread_forgetAllDownloads (now : Int) (s : State) (k : Int)
    (h : ClosedThread s.watchedThreads k) :
    ClosedThread (forgetAllDownloads now s).watchedThreads k := by
  have hsaved : ClosedThread (updateWatchedThreads
      { s with downloadedImages := [], activeDownloads := [], downloadLocks := [],
               threadProgressTimers := [],
               watchedThreads := s.watchedThreads.map forgetReset }).watchedThreads k :=
    closedThread_update _ k
      (closedThread_map forgetReset s.watchedThreads k forgetReset_id (fun t hc ha => ⟨hc, ha⟩) h)
  unfold forgetAllDownloads
  simp only
  split
  · rw [manageThreadsKick_watchedThreads]
    exact hsaved
  · exact hsaved

theorem closedThread_syncThreadCounts (s : State) (k : Int)
    (h : ClosedThread s.watchedThreads k) :
    ClosedThread (syncThreadCounts s).watchedThreads k := by
  have hmap : ClosedThread ((s.watchedThreads.map (syncThread s.downloadedImages)).map Prod.fst) k := by
    rw [List.map_map]
    apply closedThread_map _ _ _ _ _ h
    · intro t
      show (syncThread s.downloadedImages t).1.id = t.id
      unfold syncThread
      simp only
      split <;> rfl
    · intro t hc ha
      show (syncThread s.downloadedImages t).1.closed = true ∧
        (syncThread s.downloadedImages t).1.active = false
      unfold syncThread
      simp only
      split <;> exact ⟨hc, ha⟩
  unfold syncThreadCounts
  simp only
  split
  · exact closedThread_update _ k hmap
  · exact hmap

theorem closedThread_stopScraping (s : State) (k : Int)
    (h : ClosedThread s.watchedThreads k) :
    ClosedThread (stopScraping s).watchedThreads k := by
  have hmap : ClosedThread
      (s.watchedThreads.map (fun t => if t.active then { t with active := false } else t)) k := by
    apply closedThread_map _ _ _ _ _ h
    · intro t
      split <;> rfl
    · intro t hc ha
      rw [if_neg (by simp [ha])]
      exact ⟨hc, ha⟩
  unfold stopScraping
  simp only
  split
  · exact closedThread_update _ k hmap
  · exact hmap

/-- A closed thread in runs without other tasks at the `await`s: when the watched thread
with id `k` has `closed = true` and `active = false`, then after `toggleThread` (of any id,
`k` included), `resumeAllThreads`, `resumeActiveThreads`, a whole pass of `manageThreads`
(timer check, dispatch, the batch of `processThread` runs and the final step),
`forgetThreadDownloads` (of any id), `forgetAllDownloads`, the `syncThreadCounts` handler and
`stopScraping`, each run from its call to its return with nothing in between, the id `k` is
still registered and its thread still has `closed = true` and `active = false`.  The pass of
`manageThreads` is taken in a registry whose ids are pairwise distinct. -/
theorem closedThread_uninterrupted (s : State) (k : Int) (h : ClosedThread s.watchedThreads k) :
    (∀ now j, ClosedThread (toggleThread now s j).watchedThreads k) ∧
    (∀ throttled env, ClosedThread (resumeAllThreads throttled env s).state.watchedThreads k) ∧
    (∀ env, ClosedThread (resumeActiveThreads env s).watchedThreads k) ∧
    ((s.watchedThreads.map (fun t => t.id)).Nodup →
      ∀ env, ClosedThread (manageThreads env s).state.watchedThreads k) ∧
    (∀ now j, ClosedThread (forgetThreadDownloads now s j).state.watchedThreads k) ∧
    (∀ now, ClosedThread (forgetAllDownloads now s).watchedThreads k) ∧
    ClosedThread (syncThreadCounts s).watchedThreads k ∧
    ClosedThread (stopScraping s).watchedThreads k :=
  ⟨fun now j => closedThread_toggleThread now s j k h,
    fun throttled env => closedThread_resumeAllThreads throttled env s k h,
    fun env => closedThread_resumeActiveThreads env s k h,
    fun hnodup env => closedThread_manageThreads env s k hnodup h,
    fun now j => closedThread_forgetThreadDownloads now s j k h,
    fun now => closedThread_forgetAllDownloads now s k h,
    closedThread_syncThreadCounts s k h,
    closedThread_stopScraping s k h⟩

/-- The closed thread 7 of `staleRunning`, toggled and taken through an uninterrupted pass
of `manageThreads`. -/
theorem closedThread_uninterrupted_example :
    ClosedThread staleRunning.watchedThreads 7 ∧
    (staleRunning.watchedThreads.map (fun t => t.id)).Nodup ∧
    ClosedThread (toggleThread 0 staleRunning 7).watchedThreads 7 ∧
    ClosedThread (manageThreads steadyHost staleRunning).state.watchedThreads 7 :=
  ⟨⟨{ id := 7, closed := true }, by decide, rfl, rfl⟩, by decide,
    (closedThread_uninterrupted staleRunning 7 ⟨{ id := 7, closed := true }, by decide, rfl, rfl⟩).1 0 7,
    (closedThread_uninterrupted staleRunning 7
      ⟨{ id := 7, closed := true }, by decide, rfl, rfl⟩).2.2.2.1 (by decide) steadyHost⟩

/-! ## Startup with a registry that is not an array of objects (claim C23) -/

/-- C23, evaluation at the failing input: the persisted record holds
`watchedThreads = [null]`, an array whose only element is not an object.  `initializeState`
throws in the callback of `forEach` and does not complete; the same holds for a stored
`watchedThreads` that is truthy and not an array.  A record whose registry is missing or an
array of objects is loaded, also when a ledger value is not an object with numbers: such
an entry is dropped, and a ledger value `null` makes the guarded block reset the whole
ledger. -/
theorem C23_startup_throws :
    initializeStateRaw 0 {} (StoredRegistry.array [none]) {} = none ∧
    initializeStateRaw 0 {} StoredRegistry.notArray {} = none ∧
    (initializeStateRaw 0 {} (StoredRegistry.array [some { id := 7 }, none]) {}).isSome = false ∧
    (initializeStateRaw 0 {} StoredRegistry.missing
      { downloadedImages := some [("a", StoredValue.invalid)] }).map (fun s => s.isInitialized) =
      some true ∧
    (initializeStateRaw 0 {} (StoredRegistry.array [some { id := 7 }])
      { downloadedImages := some [("a", StoredValue.invalid)] }).map (fun s => s.downloadedImages) =
      some [] ∧
    (initializeStateRaw 0 {} StoredRegistry.missing
      { downloadedImages := some [("a", StoredValue.entry { timestamp := 5, threadId := 7 }),
          ("b", StoredValue.invalid)] }).map (fun s => s.downloadedImages) =
      some [("a", { timestamp := 5, threadId := 7 })] ∧
    (initializeStateRaw 0 {} StoredRegistry.missing
      { downloadedImages := some [("a", StoredValue.entry { timestamp := 5, threadId := 7 }),
          ("b", StoredValue.null)] }).map (fun s => s.downloadedImages) = some [] := by
  refine ⟨by decide, by decide, by decide, by decide, by decide, by decide, by decide⟩

/-- A persisted record whose registry is missing or an array of objects is loaded:
`initializeState` completes with `isInitialized = true`, and every ledger entry that
remains is a stored entry whose value is an object with a numeric `timestamp` and a numeric
`threadId`. -/
theorem initializeStateRaw_completes (now : Int) (s : State) (stored : Stored)
    (elements : List StoredThread) :
    (∃ r, initializeStateRaw now s StoredRegistry.missing stored = some r ∧
      r.isInitialized = true) ∧
    (∃ r, initializeStateRaw now s (StoredRegistry.array (elements.map some)) stored = some r ∧
      r.isInitialized = true ∧ r.watchedThreads.map (fun t => t.id) ⊆ elements.map (fun t => t.id)) ∧
    (∀ e ∈ (initializeState now s stored).downloadedImages,
      ∃ entries, stored.downloadedImages = some entries ∧
        (e.1, StoredValue.entry e.2) ∈ entries) := by
  refine ⟨⟨_, rfl, rfl⟩, ?_, ?_⟩
  · refine ⟨initializeState now s { stored with watchedThreads := some elements }, ?_, rfl, ?_⟩
    · unfold initializeStateRaw
      simp only
      rw [if_pos (by simp)]
      congr 3
      induction elements with
      | nil => rfl
      | cons e es ih => simpa using ih
    · intro i hi
      unfold initializeState cleanupOldDownloads at hi
      simp only [List.mem_map] at hi
      obtain ⟨t, ht, hti⟩ := hi
      obtain ⟨u, hu, htu⟩ := mem_updateWatchedThreads _ t ht
      have hu2 : u ∈ elements.map loadThread := hu
      obtain ⟨st, hst, hstu⟩ := List.mem_map.mp hu2
      rw [← hti, htu, recount_id, ← hstu, loadThread_id]
      exact List.mem_map.mpr ⟨st, hst, rfl⟩
  · intro e he
    unfold initializeState cleanupOldDownloads at he
    simp only at he
    have he1 := List.mem_of_mem_filter he
    have he2 : e ∈ loadLedger stored.downloadedImages := he1
    unfold loadLedger at he2
    cases hst : stored.downloadedImages with
    | none => rw [hst] at he2; simp at he2
    | some entries =>
      rw [hst] at he2
      simp only at he2
      split at he2
      · simp at he2
      · simp only [List.mem_filterMap] at he2
        obtain ⟨p, hp, hpe⟩ := he2
        refine ⟨entries, rfl, ?_⟩
        have key : ∀ (l : List (String × StoredValue)) (m : List (String × StoredValue)),
            (∀ q ∈ m, q ∈ entries) → (∀ q ∈ l, q ∈ entries) →
            ∀ q ∈ l.foldl (fun m e => JSMap.set m e.1 e.2) m, q ∈ entries := by
          intro l
          induction l with
          | nil => intro m hm _ q hq; exact hm q hq
          | cons x l ih =>
            intro m hm hl q hq
            rw [List.foldl_cons] at hq
            refine ih (JSMap.set m x.1 x.2) ?_ (fun q hq => hl q (List.mem_cons_of_mem _ hq)) q hq
            intro q2 hq2
            unfold JSMap.set at hq2
            split at hq2
            · simp only [List.mem_map] at hq2
              obtain ⟨a, ha, haq⟩ := hq2
              split at haq
              · rw [← haq]; exact hl x (List.mem_cons_self _ _)
              · rw [← haq]; exact hm a ha
            · rcases List.mem_append.mp hq2 with h1 | h1
              · exact hm q2 h1
              · simp only [List.mem_singleton] at h1
                rw [h1]; exact hl x (List.mem_cons_self _ _)
        have hmem := key entries [] (fun q hq => by simp at hq) (fun q hq => hq) p hp
        cases hv : p.2 with
        | entry v =>
          rw [hv] at hpe
          simp only [Option.some.injEq] at hpe
          rw [← hpe]
          have hp2 : p = (p.1, StoredValue.entry v) := by rw [← hv]
          rw [hp2] at hmem
          exact hmem
        | null => rw [hv] at hpe; simp at hpe
        | invalid => rw [hv] at hpe; simp at hpe

/-! ## The re-check of the timer check with a command during its fetch (claim C26) -/

/-- With no other task during the fetch, the stores of `recheckStores` are those of
`recheckThread`. -/
theorem recheckStores_eq (env : TickEnv) (s : State) (k : Int) (t : Thread)
    (hfind : findThread s.watchedThreads k = some t) :
    recheckStores (fetchWithRetry s (env.fetch t.url)).value s k = recheckThread env s t := by
  have hid : t.id = k := findThread_some_id hfind
  unfold recheckStores recheckThread
  rw [hfind, hid]

theorem timerCheckThreadDuring_id (env : TickEnv) (i : Nat) (s : State) (k : Int) :
    timerCheckThreadDuring env i s k (fun st => st) = timerCheckThread env i s k := by
  unfold timerCheckThreadDuring timerCheckThread
  cases hfind : findThread s.watchedThreads k with
  | none => rfl
  | some t =>
    simp only
    rw [recheckStores_eq env s k t hfind]

/-- C26, evaluation at the failing input: thread 7 of `completeState` is active and
complete with a stuck timer that has expired, so the timer check of a `manageThreads` tick
takes it as a stuck candidate and awaits the fetch of line 566.  While the fetch is
awaited the command `closeThread(7)` runs: the thread now has `closed = true` and
`active = false`.  The fetch answers with five image posts, one more than the total of
four, and the tick goes on at line 575 without looking at `closed` again: it sets
`active = true`.  After this iteration of `manageThreads` the closed thread is active, and
the dispatch of the same tick, which reads the candidates of line 552, hands it to
`processThread`. -/
theorem C26_reopened_after_close :
    findThread completeState.watchedThreads 7 = some completeThread ∧
    timerExpired completeState.threadProgressTimers (tickHost 5).now completeThread = true ∧
    findThread (closeThread completeState 7).watchedThreads 7 =
      some { completeThread with closed := true, active := false } ∧
    findThread (timerCheckThreadDuring (tickHost 5) 0 completeState 7
        (fun s => closeThread s 7)).state.watchedThreads 7 =
      some { completeThread with closed := true, active := true, totalImages := 5 } ∧
    threadsToProcess
        (currentCandidates
          (completeState.watchedThreads.filter (fun t => t.active && !t.error && !t.closed))
          (timerCheckThreadDuring (tickHost 5) 0 completeState 7 (fun s => closeThread s 7)).state)
        (timerCheckThreadDuring (tickHost 5) 0 completeState 7 (fun s => closeThread s 7)).state =
      [{ completeThread with closed := true, active := true, totalImages := 5 }] ∧
    ¬ ClosedThread (timerCheckThreadDuring (tickHost 5) 0 completeState 7
        (fun s => closeThread s 7)).state.watchedThreads 7 := by
  refine ⟨by decide, by decide, by decide, by decide, by decide, ?_⟩
  rintro ⟨t, hf, _, ha⟩
  have h : findThread (timerCheckThreadDuring (tickHost 5) 0 completeState 7
      (fun s => closeThread s 7)).state.watchedThreads 7 =
      some { completeThread with closed := true, active := true, totalImages := 5 } := by decide
  rw [h] at hf
  rw [← Option.some.inj hf] at ha
  exact absurd ha (by decide)

/-! ## The dispatch and the registry at the time of the dispatch (claim C17) -/

/-- C17, evaluation at the failing input: in the tick that follows `forgottenState` there
are five free slots.  At the time of the dispatch, after the timer check has closed thread
7, no watched thread is active, not errored, not closed, without marker and with work, so
the list that the claim describes is empty; the dispatch, which filters the candidates
taken at line 552 before the timer check, hands the closed thread 7 to `processThread`. -/
theorem C17_dispatch_from_stale_snapshot :
    processingCount (timerCheck steadyHost.tick forgottenState).state.activeDownloads = 0 ∧
    ((timerCheck steadyHost.tick forgottenState).state.watchedThreads.filter (fun t =>
        (t.active && !t.error && !t.closed) &&
          (!JSMap.has (timerCheck steadyHost.tick forgottenState).state.activeDownloads
              (markerKey t.id) &&
            (decide (t.downloadedCount < t.totalImages) || decide (t.totalImages = 0))))).take
        (MAX_CONCURRENT_THREADS -
          processingCount (timerCheck steadyHost.tick forgottenState).state.activeDownloads) = [] ∧
    (manageThreads steadyHost forgottenState).handed =
      [{ forgottenThread with closed := true, active := false }] ∧
    (manageThreads steadyHost forgottenState).handed ≠
      ((timerCheck steadyHost.tick forgottenState).state.watchedThreads.filter (fun t =>
        (t.active && !t.error && !t.closed) &&
          (!JSMap.has (timerCheck steadyHost.tick forgottenState).state.activeDownloads
              (markerKey t.id) &&
            (decide (t.downloadedCount < t.totalImages) || decide (t.totalImages = 0))))).take
        (MAX_CONCURRENT_THREADS -
          processingCount (timerCheck steadyHost.tick forgottenState).state.activeDownloads) := by
  refine ⟨by decide, by decide, by decide, by decide⟩

end Muncher
